import Mathlib

/-!
# Agent tracking: a shallow embedding of `lib/agent_tracking`

The Go package stores three tables in SQLite (`agent_sessions`,
`agent_issue_work`, `agent_skill_usage`) and offers CRUD operations
(`session.go`) and aggregate queries (`stats.go`) over them.

The embedding is layered like the program:

* Go strings are byte sequences; `encoding/json` and `unicode/utf8` are
  modelled on bytes, `time.Format` / `time.Parse` for the RFC 3339 layout on
  instants;
* a database is the content of the three tables, one record per row, one
  field per column of `agentTrackingSchema`;
* every operation is a function from the handle (absent when the Go pointer
  is nil), the values read from the environment (fresh identifier, clocks)
  and its arguments to a result and the handle afterwards.
-/

namespace AgentTracking

/-! ## Bytes and Go strings -/

/-- One byte. -/
abbrev Byte := Fin 256

/-- A Go `string`: an immutable sequence of bytes, not necessarily valid UTF-8. -/
abbrev GoString := List Byte

/-- The byte with the given value (reduced modulo 256). -/
def byte (n : Nat) : Byte := ⟨n % 256, Nat.mod_lt n (by decide)⟩

/-- Unicode replacement character, `utf8.RuneError`. -/
def runeError : Nat := 0xFFFD

/-- Go `utf8.EncodeRune`: the UTF-8 encoding of a rune; surrogates and values
above U+10FFFF are encoded as the replacement character. -/
def encodeRune (r : Nat) : GoString :=
  if r < 0x80 then [byte r]
  else if r < 0x800 then [byte (0xC0 + r / 64), byte (0x80 + r % 64)]
  else if 0x10FFFF < r ∨ (0xD800 ≤ r ∧ r ≤ 0xDFFF) then [byte 0xEF, byte 0xBF, byte 0xBD]
  else if r < 0x10000 then
    [byte (0xE0 + r / 4096), byte (0x80 + r / 64 % 64), byte (0x80 + r % 64)]
  else
    [byte (0xF0 + r / 262144), byte (0x80 + r / 4096 % 64), byte (0x80 + r / 64 % 64),
      byte (0x80 + r % 64)]

/-- Is the rune a Unicode scalar value: below U+110000 and no surrogate. -/
def isScalar (r : Nat) : Prop := r < 0xD800 ∨ (0xDFFF < r ∧ r < 0x110000)

/-- The bytes of a Unicode text, as Go stores a string literal. -/
def utf8 (s : String) : GoString := s.data.flatMap (fun c => encodeRune c.toNat)

/-- Is the Go string valid UTF-8: the encoding of a sequence of Unicode scalar
values. -/
def ValidUTF8 (s : GoString) : Prop := ∃ t : String, s = utf8 t

/-- Is the byte within the closed range. -/
def inRange (b : Byte) (lo hi : Nat) : Bool := decide (lo ≤ b.val) && decide (b.val ≤ hi)

/-- Go `utf8.DecodeRuneInString`: the first rune of the string and its width in
bytes; `(RuneError, 0)` for the empty string and `(RuneError, 1)` for an
invalid or incomplete encoding. -/
def decodeRune (s : GoString) : Nat × Nat :=
  match s with
  | [] => (runeError, 0)
  | b0 :: rest =>
    let x := b0.val
    if x < 0x80 then (x, 1)
    else if x < 0xC2 then (runeError, 1)
    else if x < 0xE0 then
      match rest with
      | b1 :: _ =>
        if inRange b1 0x80 0xBF then ((x - 0xC0) * 64 + (b1.val - 0x80), 2) else (runeError, 1)
      | [] => (runeError, 1)
    else if x < 0xF0 then
      match rest with
      | b1 :: b2 :: _ =>
        if inRange b1 (if x = 0xE0 then 0xA0 else 0x80) (if x = 0xED then 0x9F else 0xBF)
            && inRange b2 0x80 0xBF then
          ((x - 0xE0) * 4096 + (b1.val - 0x80) * 64 + (b2.val - 0x80), 3)
        else (runeError, 1)
      | _ => (runeError, 1)
    else if x < 0xF5 then
      match rest with
      | b1 :: b2 :: b3 :: _ =>
        if inRange b1 (if x = 0xF0 then 0x90 else 0x80) (if x = 0xF4 then 0x8F else 0xBF)
            && inRange b2 0x80 0xBF && inRange b3 0x80 0xBF then
          ((x - 0xF0) * 262144 + (b1.val - 0x80) * 4096 + (b2.val - 0x80) * 64
            + (b3.val - 0x80), 4)
        else (runeError, 1)
      | _ => (runeError, 1)
    else (runeError, 1)

/-- Bytewise lexicographic order, the order of SQLite TEXT values under the
BINARY collation (`memcmp`, then length). -/
def strLE : GoString → GoString → Bool
  | [], _ => true
  | _ :: _, [] => false
  | a :: s, b :: t => decide (a.val < b.val) || (decide (a.val = b.val) && strLE s t)

/-! ## `encoding/json` for `[]string` -/

/-- Lower-case hexadecimal digit of a value below 16. -/
def hexDigit (n : Nat) : Byte := if n < 10 then byte (48 + n) else byte (87 + n)

/-- The escape sequence `\u00XY` of a byte. -/
def escapeU00 (b : Byte) : GoString :=
  [byte 92, byte 117, byte 48, byte 48, hexDigit (b.val / 16), hexDigit (b.val % 16)]

/-- Bytes below 0x80 that `appendString` copies unchanged when HTML escaping
is on (`htmlSafeSet`): everything from the space on except the double quote,
the backslash and the characters `<`, `>`, `&`. -/
def htmlSafe (b : Byte) : Bool :=
  decide (0x20 ≤ b.val) && decide (b.val < 0x80) && !(b.val = 34 || b.val = 92
    || b.val = 60 || b.val = 62 || b.val = 38)

/-- What `appendString` writes for one byte below 0x80. -/
def escapeAscii (b : Byte) : GoString :=
  if htmlSafe b then [b]
  else if b.val = 92 ∨ b.val = 34 then [byte 92, b]
  else if b.val = 8 then [byte 92, byte 98]
  else if b.val = 12 then [byte 92, byte 102]
  else if b.val = 10 then [byte 92, byte 110]
  else if b.val = 13 then [byte 92, byte 114]
  else if b.val = 9 then [byte 92, byte 116]
  else escapeU00 b

/-- The loop of `appendString`: the body of a JSON string literal for the Go
string `src`. Invalid UTF-8 is written as the escape of U+FFFD, U+2028 and U+2029 are
escaped, every other multi-byte rune is copied. -/
def escapeBody : Nat → GoString → GoString
  | 0, _ => []
  | _ + 1, [] => []
  | fuel + 1, b :: rest =>
    if b.val < 0x80 then escapeAscii b ++ escapeBody fuel rest
    else
      let cs := decodeRune (b :: rest)
      if cs.1 = runeError ∧ cs.2 = 1 then
        [byte 92, byte 117, byte 102, byte 102, byte 102, byte 100] ++ escapeBody fuel rest
      else if cs.1 = 0x2028 ∨ cs.1 = 0x2029 then
        [byte 92, byte 117, byte 50, byte 48, byte 50, hexDigit (cs.1 % 16)]
          ++ escapeBody fuel ((b :: rest).drop cs.2)
      else (b :: rest).take cs.2 ++ escapeBody fuel ((b :: rest).drop cs.2)

/-- Go `appendString`: a Go string as a quoted JSON string literal. -/
def appendString (src : GoString) : GoString :=
  byte 34 :: (escapeBody src.length src ++ [byte 34])

/-- The elements of a JSON array, separated by commas. -/
def marshalElems : List GoString → GoString
  | [] => []
  | [s] => appendString s
  | s :: t :: rest => appendString s ++ byte 44 :: marshalElems (t :: rest)

/-- Go `json.Marshal` of a `[]string`: `null` for the nil slice, otherwise the
array of the quoted elements. It cannot fail for this type. -/
def jsonMarshal : Option (List GoString) → GoString
  | none => utf8 "null"
  | some l => byte 91 :: (marshalElems l ++ [byte 93])

/-- A parsed JSON text. The digits of a number are not kept: no number can be
stored into a `[]string`. -/
inductive JValue where
  | null
  | bool (b : Bool)
  | number
  | str (s : GoString)
  | arr (elems : List JValue)
  | obj (members : List (GoString × JValue))

/-- JSON insignificant whitespace: space, tab, carriage return, line feed. -/
def isSpace (b : Byte) : Bool := b.val = 32 || b.val = 9 || b.val = 13 || b.val = 10

/-- Drop leading whitespace. -/
def skipWS : GoString → GoString
  | [] => []
  | b :: rest => if isSpace b then skipWS rest else b :: rest

/-- Is the byte an ASCII decimal digit. -/
def isDigit (b : Byte) : Bool := decide (48 ≤ b.val) && decide (b.val ≤ 57)

/-- Value of a hexadecimal digit, either case. -/
def hexVal (b : Byte) : Option Nat :=
  if 48 ≤ b.val ∧ b.val ≤ 57 then some (b.val - 48)
  else if 97 ≤ b.val ∧ b.val ≤ 102 then some (b.val - 87)
  else if 65 ≤ b.val ∧ b.val ≤ 70 then some (b.val - 55)
  else none

/-- Go `getu4`: the code unit of a leading `\uXXXX` escape, if there is one. -/
def getu4 : GoString → Option Nat
  | b :: u :: h1 :: h2 :: h3 :: h4 :: _ =>
    if b.val = 92 ∧ u.val = 117 then
      match hexVal h1, hexVal h2, hexVal h3, hexVal h4 with
      | some a, some b, some c, some d => some (a * 4096 + b * 256 + c * 16 + d)
      | _, _, _, _ => none
    else none
  | _ => none

/-- The byte a one-letter escape stands for. -/
def simpleEscape (e : Byte) : Option Byte :=
  if e.val = 34 ∨ e.val = 92 ∨ e.val = 47 then some e
  else if e.val = 98 then some (byte 8)
  else if e.val = 102 then some (byte 12)
  else if e.val = 110 then some (byte 10)
  else if e.val = 114 then some (byte 13)
  else if e.val = 116 then some (byte 9)
  else none

/-- Put decoded bytes in front of the rest of a decoded string. -/
def consOut (out : GoString) (r : Option (GoString × GoString)) : Option (GoString × GoString) :=
  r.map (fun p => (out ++ p.1, p.2))

/-- The scanner and `unquote` on the body of a string literal (the opening
quote is consumed): the decoded Go string and the input after the closing
quote. Raw control characters, unknown escapes and a missing closing quote are
syntax errors; escaped surrogate halves that do not pair up and invalid UTF-8
become U+FFFD. -/
def parseStringBody : Nat → GoString → Option (GoString × GoString)
  | 0, _ => none
  | _ + 1, [] => none
  | fuel + 1, b :: rest =>
    if b.val = 34 then some ([], rest)
    else if b.val = 92 then
      match rest with
      | [] => none
      | e :: rest2 =>
        if e.val = 117 then
          match getu4 (b :: e :: rest2) with
          | none => none
          | some rr =>
            let after := rest2.drop 4
            if 0xD800 ≤ rr ∧ rr < 0xE000 then
              match getu4 after with
              | some rr1 =>
                if rr < 0xDC00 ∧ 0xDC00 ≤ rr1 ∧ rr1 < 0xE000 then
                  consOut (encodeRune ((rr - 0xD800) * 1024 + (rr1 - 0xDC00) + 0x10000))
                    (parseStringBody fuel (after.drop 6))
                else consOut (encodeRune runeError) (parseStringBody fuel after)
              | none => consOut (encodeRune runeError) (parseStringBody fuel after)
            else consOut (encodeRune rr) (parseStringBody fuel after)
        else
          match simpleEscape e with
          | some c => consOut [c] (parseStringBody fuel rest2)
          | none => none
    else if b.val < 0x20 then none
    else if b.val < 0x80 then consOut [b] (parseStringBody fuel rest)
    else
      let cs := decodeRune (b :: rest)
      consOut (encodeRune cs.1) (parseStringBody fuel ((b :: rest).drop cs.2))

/-- Drop leading decimal digits. -/
def skipDigits : GoString → GoString
  | [] => []
  | b :: rest => if isDigit b then skipDigits rest else b :: rest

/-- At least one digit, then the rest. -/
def digits1 : GoString → Option GoString
  | b :: rest => if isDigit b then some (skipDigits rest) else none
  | [] => none

/-- The optional fraction and exponent of a JSON number. -/
def parseFracExp (s : GoString) : Option GoString :=
  let afterFrac : Option GoString :=
    match s with
    | b :: rest => if b.val = 46 then digits1 rest else some s
    | [] => some s
  match afterFrac with
  | none => none
  | some t =>
    match t with
    | b :: rest =>
      if b.val = 101 ∨ b.val = 69 then
        match rest with
        | c :: rest2 => if c.val = 43 ∨ c.val = 45 then digits1 rest2 else digits1 rest
        | [] => none
      else some t
    | [] => some t

/-- The input after a JSON number: an optional minus sign, `0` or a digit
string without leading zero, an optional fraction, an optional exponent. -/
def parseNumber (s : GoString) : Option GoString :=
  let body : GoString := match s with
    | b :: rest => if b.val = 45 then rest else s
    | [] => s
  match body with
  | b :: rest =>
    if b.val = 48 then parseFracExp rest
    else if isDigit b then parseFracExp (skipDigits rest)
    else none
  | [] => none

/-- Strip a literal from the front of the input. -/
def stripLit : GoString → GoString → Option GoString
  | [], s => some s
  | _ :: _, [] => none
  | c :: lit, b :: s => if c = b then stripLit lit s else none

/-- Go `maxNestingDepth`: arrays and objects may nest at most this deep. -/
def maxNestingDepth : Nat := 10000

mutual
/-- The scanner on one JSON value at the front of the input (whitespace
already skipped), inside `depth` open arrays and objects: the value and the
input after it. -/
def parseValue : Nat → Nat → GoString → Option (JValue × GoString)
  | 0, _, _ => none
  | _ + 1, _, [] => none
  | fuel + 1, depth, b :: rest =>
    if b.val = 91 then
      if maxNestingDepth < depth + 1 then none
      else
        match skipWS rest with
        | c :: rest2 =>
          if c.val = 93 then some (JValue.arr [], rest2)
          else (parseElems fuel (depth + 1) (c :: rest2)).map (fun p => (JValue.arr p.1, p.2))
        | [] => none
    else if b.val = 123 then
      if maxNestingDepth < depth + 1 then none
      else
        match skipWS rest with
        | c :: rest2 =>
          if c.val = 125 then some (JValue.obj [], rest2)
          else (parseMembers fuel (depth + 1) (c :: rest2)).map (fun p => (JValue.obj p.1, p.2))
        | [] => none
    else if b.val = 34 then
      (parseStringBody rest.length rest).map (fun p => (JValue.str p.1, p.2))
    else if b.val = 45 ∨ isDigit b then
      (parseNumber (b :: rest)).map (fun r => (JValue.number, r))
    else if b.val = 116 then
      (stripLit (utf8 "true") (b :: rest)).map (fun r => (JValue.bool true, r))
    else if b.val = 102 then
      (stripLit (utf8 "false") (b :: rest)).map (fun r => (JValue.bool false, r))
    else if b.val = 110 then
      (stripLit (utf8 "null") (b :: rest)).map (fun r => (JValue.null, r))
    else none

/-- The elements of a non-empty array, from the first byte of an element up to
and including the closing bracket. -/
def parseElems : Nat → Nat → GoString → Option (List JValue × GoString)
  | 0, _, _ => none
  | fuel + 1, depth, s =>
    match parseValue fuel depth s with
    | none => none
    | some (v, rest) =>
      match skipWS rest with
      | c :: rest2 =>
        if c.val = 93 then some ([v], rest2)
        else if c.val = 44 then
          (parseElems fuel depth (skipWS rest2)).map (fun p => (v :: p.1, p.2))
        else none
      | [] => none

/-- The members of a non-empty object, from the opening quote of a key up to
and including the closing brace. -/
def parseMembers : Nat → Nat → GoString → Option (List (GoString × JValue) × GoString)
  | 0, _, _ => none
  | _ + 1, _, [] => none
  | fuel + 1, depth, q :: s =>
    if q.val = 34 then
      match parseStringBody s.length s with
      | none => none
      | some (key, rest) =>
        match skipWS rest with
        | c :: rest2 =>
          if c.val = 58 then
            match parseValue fuel depth (skipWS rest2) with
            | none => none
            | some (v, rest3) =>
              match skipWS rest3 with
              | d :: rest4 =>
                if d.val = 125 then some ([(key, v)], rest4)
                else if d.val = 44 then
                  (parseMembers fuel depth (skipWS rest4)).map (fun p => ((key, v) :: p.1, p.2))
                else none
              | [] => none
          else none
        | [] => none
    else none
end

/-- The two ways `json.Unmarshal` into a `*[]string` fails. -/
inductive JsonError where
  | syntaxError
  | typeError
  deriving DecidableEq, Repr

/-- Go `checkValid` followed by the tokenisation `Unmarshal` relies on: the
whole input is one JSON value between optional whitespace. The fuel is enough
for every input: a value or an element uses one unit and at least one byte. -/
def parseJSON (data : GoString) : Option JValue :=
  match parseValue (2 * data.length + 1) 0 (skipWS data) with
  | none => none
  | some (v, rest) => if (skipWS rest).isEmpty then some v else none

/-- What `Unmarshal` stores in one element of a `[]string`: a JSON string is
stored, `null` leaves the fresh element at the empty string, every other value
is an `UnmarshalTypeError`. -/
def decodeElem : JValue → Except JsonError GoString
  | JValue.str s => Except.ok s
  | JValue.null => Except.ok []
  | _ => Except.error JsonError.typeError

/-- Go `json.Unmarshal(data, &v)` for `v` a nil `[]string`: the slice
afterwards (`none` when it is still nil) or the error. `null` leaves the nil
slice, an array of strings and nulls is stored, every other value is a type
error. -/
def jsonUnmarshal (data : GoString) : Except JsonError (Option (List GoString)) :=
  match parseJSON data with
  | none => Except.error JsonError.syntaxError
  | some JValue.null => Except.ok none
  | some (JValue.arr elems) => (elems.mapM decodeElem).map some
  | some _ => Except.error JsonError.typeError

/-- The statement both `GetSession` and `scanSessions` use for a list column:
`if err := json.Unmarshal(...); err != nil { field = []string{} }`. -/
def decodeList (text : GoString) : Option (List GoString) :=
  match jsonUnmarshal text with
  | Except.ok v => v
  | Except.error _ => some []

/-- The elements of a Go slice; the nil slice has none. -/
def elems (l : Option (List GoString)) : List GoString := l.getD []

/-! ## `time.Time`, `time.Format` and `time.Parse` for the RFC 3339 layout -/

/-- A Go `time.Time`: an instant, in nanoseconds since 1970-01-01T00:00:00Z,
and the offset of its location in seconds east of UTC. The offset only
matters for printing in local time; comparison is on the instant. -/
structure Time where
  unixNano : Int
  offset : Int
  deriving DecidableEq, Repr

/-- Go `t.Before(u) || t.Equal(u)`: chronological order of the instants. -/
def Time.le (t u : Time) : Prop := t.unixNano ≤ u.unixNano

/-- Whole seconds since the Unix epoch, rounded down (Go `t.Unix()`). -/
def Time.unix (t : Time) : Int := t.unixNano / 1000000000

/-- The instant cut to whole seconds, in UTC. -/
def Time.truncSec (t : Time) : Time := ⟨t.unix * 1000000000, 0⟩

/-- Gregorian leap year. -/
def isLeap (y : Int) : Bool := decide (y % 4 = 0) && (decide (y % 100 ≠ 0) || decide (y % 400 = 0))

/-- Go `daysBefore`: days of a non-leap year before the month starts, the
entry 12 being the length of the year. -/
def daysBefore (m : Nat) : Nat :=
  match m with
  | 0 => 0 | 1 => 31 | 2 => 59 | 3 => 90 | 4 => 120 | 5 => 151 | 6 => 181
  | 7 => 212 | 8 => 243 | 9 => 273 | 10 => 304 | 11 => 334 | _ => 365

/-- Go `daysIn`: the length of month `m` (1 to 12) in year `y`. -/
def daysIn (m : Nat) (y : Int) : Nat :=
  if m = 2 ∧ isLeap y then 29 else daysBefore m - daysBefore (m - 1)

/-- Days from 1970-01-01 to the first of January of year `y`. -/
def daysBeforeYear (y : Int) : Int :=
  365 * (y - 1970) + ((y - 1) / 4 - (y - 1) / 100 + (y - 1) / 400) - 477

/-- The day number (days since 1970-01-01) of a calendar date, as Go `Date`
computes it for fields that are in range. -/
def daysFromCivil (y : Int) (m d : Nat) : Int :=
  daysBeforeYear y + daysBefore (m - 1) + (if isLeap y ∧ 3 ≤ m then 1 else 0) + d - 1

/-- Month and day of month of the zero-based day `yday` of a year, after Go
`absDate`. -/
def monthDay (leap : Bool) (yday : Nat) : Nat × Nat :=
  if leap ∧ yday = 59 then (2, 29)
  else
    let day := if leap ∧ 59 < yday then yday - 1 else yday
    let m := day / 31
    if daysBefore (m + 1) ≤ day then (m + 2, day - daysBefore (m + 1) + 1)
    else (m + 1, day - daysBefore m + 1)

/-- Year and zero-based day of the year of a day number, after Go `absDate`:
cut off 400-year cycles, then 100-year cycles, 4-year cycles and years. -/
def yearDay (n : Int) : Int × Nat :=
  let d := n + 719162
  let n400 := d / 146097
  let d1 := d % 146097
  let c := d1 / 36524
  let n100 := c - c / 4
  let d2 := d1 - 36524 * n100
  let n4 := d2 / 1461
  let d3 := d2 % 1461
  let k := d3 / 365
  let n1 := k - k / 4
  (1 + 400 * n400 + 100 * n100 + 4 * n4 + n1, (d3 - 365 * n1).toNat)

/-- The calendar fields Go `Format` prints for an instant in UTC. -/
structure Civil where
  year : Int
  month : Nat
  day : Nat
  hour : Nat
  minute : Nat
  second : Nat
  deriving DecidableEq, Repr

/-- The UTC calendar fields of the second with Unix time `sec`. -/
def civilOfUnix (sec : Int) : Civil :=
  let yd := yearDay (sec / 86400)
  let md := monthDay (isLeap yd.1) yd.2
  let r := (sec % 86400).toNat
  ⟨yd.1, md.1, md.2, r / 3600, r % 3600 / 60, r % 60⟩

/-- ASCII digit of a value below 10. -/
def digit (n : Nat) : Byte := byte (48 + n % 10)

/-- Go `appendInt(b, n, 2)` for a field below 100. -/
def pad2 (n : Nat) : GoString := [digit (n / 10), digit n]

/-- The loop of Go `appendInt`: put the decimal digits of `n` in front of
`acc`, least significant first. -/
def decimalAux : Nat → Nat → GoString → GoString
  | 0, _, acc => acc
  | fuel + 1, n, acc =>
    if n < 10 then digit n :: acc else decimalAux fuel (n / 10) (digit n :: acc)

/-- Decimal digits of a natural number, most significant first. -/
def decimal (n : Nat) : GoString := decimalAux (n + 1) n []

/-- Go `appendInt(b, year, 4)`: a minus sign for a negative year, then at
least four digits. -/
def appendYear (y : Int) : GoString :=
  let u := y.natAbs
  (if y < 0 then [byte 45] else []) ++
    (if u < 10000 then [digit (u / 1000), digit (u / 100), digit (u / 10), digit u]
     else decimal u)

/-- Go `t.UTC().Format(time.RFC3339)` from the calendar fields:
`2006-01-02T15:04:05Z`. -/
def formatCivil (c : Civil) : GoString :=
  appendYear c.year ++ [byte 45] ++ pad2 c.month ++ [byte 45] ++ pad2 c.day ++ [byte 84]
    ++ pad2 c.hour ++ [byte 58] ++ pad2 c.minute ++ [byte 58] ++ pad2 c.second ++ [byte 90]

/-- Source `formatTime`: `t.UTC().Format(time.RFC3339)`. Fractions of a second
are dropped, the location is ignored. -/
def formatTime (t : Time) : GoString := formatCivil (civilOfUnix t.unix)

/-- SQLite `datetime(...)` of an instant: `YYYY-MM-DD HH:MM:SS` in UTC. SQLite
defines its date functions for the years 0000 to 9999 only; outside of them
this model yields NULL. -/
def sqliteDatetime (t : Time) : Option GoString :=
  let c := civilOfUnix t.unix
  if 0 ≤ c.year ∧ c.year ≤ 9999 then
    some (appendYear c.year ++ [byte 45] ++ pad2 c.month ++ [byte 45] ++ pad2 c.day ++ [byte 32]
      ++ pad2 c.hour ++ [byte 58] ++ pad2 c.minute ++ [byte 58] ++ pad2 c.second)
  else none

/-- Go `getnum`: a number of one or two digits at the front of the input;
with `fixed` it must have two digits. -/
def getnum (s : GoString) (fixed : Bool) : Option (Nat × GoString) :=
  match s with
  | a :: rest =>
    if isDigit a then
      match rest with
      | b :: rest2 =>
        if isDigit b then some ((a.val - 48) * 10 + (b.val - 48), rest2)
        else if fixed then none else some (a.val - 48, rest)
      | [] => if fixed then none else some (a.val - 48, rest)
    else none
  | [] => none

/-- The four-digit year of the layout element `2006`. -/
def parseYear (s : GoString) : Option (Int × GoString) :=
  match s with
  | a :: b :: c :: d :: rest =>
    if isDigit a ∧ isDigit b ∧ isDigit c ∧ isDigit d then
      some ((((a.val - 48) * 1000 + (b.val - 48) * 100 + (c.val - 48) * 10 + (d.val - 48) : Nat) : Int),
        rest)
    else none
  | _ => none

/-- One literal byte of the layout. -/
def expect (c : Nat) (s : GoString) : Option GoString :=
  match s with
  | b :: rest => if b.val = c then some rest else none
  | [] => none

/-- The leading decimal digits of the input. -/
def takeDigits : GoString → GoString
  | [] => []
  | b :: rest => if isDigit b then b :: takeDigits rest else []

/-- Value of a digit string. -/
def digitsValue (ds : GoString) : Nat := ds.foldl (fun acc b => acc * 10 + (b.val - 48)) 0

/-- Fractional seconds after the seconds field, which `Parse` accepts although
the layout has none: a period or comma and digits, of which nine count. The
result is the nanoseconds and the input after the fraction. -/
def parseFraction (s : GoString) : Nat × GoString :=
  match s with
  | p :: d :: rest =>
    if (p.val = 46 ∨ p.val = 44) ∧ isDigit d then
      let ds := (takeDigits (d :: rest)).take 9
      (digitsValue ds * 10 ^ (9 - ds.length), skipDigits (d :: rest))
    else (0, s)
  | _ => (0, s)

/-- The layout element `Z07:00`: `Z`, or a sign, two digits of hours, a colon
and two digits of minutes. The result is the offset in seconds east of UTC. -/
def parseZone (s : GoString) : Option (Int × GoString) :=
  match s with
  | [] => none
  | z :: rest =>
    if z.val = 90 then some (0, rest)
    else
      match rest with
      | h1 :: h2 :: c :: m1 :: m2 :: rest2 =>
        if c.val = 58 then
          match getnum [h1, h2] true, getnum [m1, m2] true with
          | some (hr, _), some (mm, _) =>
            if 24 < hr ∨ 60 < mm then none
            else if z.val = 43 then some ((((hr * 60 + mm) * 60 : Nat) : Int), rest2)
            else if z.val = 45 then some (-(((hr * 60 + mm) * 60 : Nat) : Int), rest2)
            else none
          | _, _ => none
        else none
      | _ => none

/-- The layout elements `2006-01-02`: four-digit year, two-digit month in 1
to 12, two-digit day (checked against the month once everything is parsed). -/
def parseDate (s : GoString) : Option (Civil × GoString) :=
  match parseYear s with
  | none => none
  | some (year, s0) =>
    match expect 45 s0 with
    | none => none
    | some s1 =>
      match getnum s1 true with
      | none => none
      | some (month, s2) =>
        if month < 1 ∨ 12 < month then none
        else
          match expect 45 s2 with
          | none => none
          | some s3 =>
            match getnum s3 true with
            | none => none
            | some (day, s4) => some (⟨year, month, day, 0, 0, 0⟩, s4)

/-- The layout elements `15:04:05` after a date: an hour of one or two digits
below 24, two-digit minute and second below 60. -/
def parseClock (c : Civil) (s : GoString) : Option (Civil × GoString) :=
  match getnum s false with
  | none => none
  | some (hour, s0) =>
    if 24 ≤ hour then none
    else
      match expect 58 s0 with
      | none => none
      | some s1 =>
        match getnum s1 true with
        | none => none
        | some (minute, s2) =>
          if 60 ≤ minute then none
          else
            match expect 58 s2 with
            | none => none
            | some s3 =>
              match getnum s3 true with
              | none => none
              | some (second, s4) =>
                if 60 ≤ second then none
                else some (⟨c.year, c.month, c.day, hour, minute, second⟩, s4)

/-- Go `Date(year, month, day, hour, min, sec, 0, UTC).Unix()` for fields in
range. -/
def unixOfCivil (c : Civil) : Int :=
  daysFromCivil c.year c.month c.day * 86400 + c.hour * 3600 + c.minute * 60 + c.second

/-- Source `parseTime`: `time.Parse(time.RFC3339, s)`, following the generic
parser of the Go library through the layout `2006-01-02T15:04:05Z07:00`: the
date, the letter `T`, the clock, an optional fraction, then the zone; nothing
may follow, and the day must exist in its month. The result carries the offset
of the parsed zone. -/
def parseTime (s : GoString) : Option Time :=
  match parseDate s with
  | none => none
  | some (d, s0) =>
    match expect 84 s0 with
    | none => none
    | some s1 =>
      match parseClock d s1 with
      | none => none
      | some (c, s2) =>
        match parseZone (parseFraction s2).2 with
        | none => none
        | some (zone, s3) =>
          if ¬ s3 = [] then none
          else if c.day < 1 ∨ daysIn c.month c.year < c.day then none
          else some ⟨(unixOfCivil c - zone) * 1000000000 + (parseFraction s2).1, zone⟩

/-- Source `parseNullableTime` on a `sql.NullString`: NULL and the empty
string give a nil pointer without error; the outer option is the error. -/
def parseNullableTime (s : Option GoString) : Option (Option Time) :=
  match s with
  | none => some none
  | some str =>
    if str = [] then some none
    else
      match parseTime str with
      | none => none
      | some t => some (some t)

/-! ## IEEE 754 double precision, as far as the statistics queries use it -/

/-- A finite `float64` / SQLite REAL: the value `mant * 2 ^ exp`. Every
operation below rounds to 53 significant bits, to nearest, ties to even.
Infinities, NaN and the limits of the exponent are not modelled: the
quantities computed here (day numbers, seconds, nanoseconds) stay far inside
the normal range. -/
structure F64 where
  mant : Int
  exp : Int
  deriving DecidableEq, Repr

/-- Positive zero. -/
def F64.zero : F64 := ⟨0, 0⟩

/-- Number of binary digits of `n`, by repeated halving. -/
def bitLenAux : Nat → Nat → Nat
  | 0, _ => 0
  | fuel + 1, n => if n = 0 then 0 else bitLenAux fuel (n / 2) + 1

/-- Number of binary digits of `n` (0 for 0). -/
def bitLen (n : Nat) : Nat := bitLenAux n n

/-- Divide `m` by `2 ^ s` and round to nearest, ties to even; `sticky` says
that the exact value lies strictly above `m`. -/
def roundShift (m s : Nat) (sticky : Bool) : Nat :=
  if s = 0 then m
  else
    let q := m / 2 ^ s
    let r := m % 2 ^ s
    let half := 2 ^ (s - 1)
    if half < r ∨ (r = half ∧ (sticky ∨ q % 2 = 1)) then q + 1 else q

/-- Round the exact value `± m * 2 ^ e` (plus a little when `sticky`) to a
double. Callers that set `sticky` pass at least 55 bits in `m`. -/
def F64.round (neg : Bool) (m : Nat) (e : Int) (sticky : Bool) : F64 :=
  if m = 0 then F64.zero
  else
    let s := bitLen m - 53
    let q : Int := roundShift m s sticky
    ⟨if neg then -q else q, e + s⟩

/-- Conversion of an integer to double. -/
def F64.ofInt (n : Int) : F64 := F64.round (decide (n < 0)) n.natAbs 0 false

/-- Double addition. -/
def F64.add (a b : F64) : F64 :=
  let e := min a.exp b.exp
  let m : Int := a.mant * 2 ^ (a.exp - e).toNat + b.mant * 2 ^ (b.exp - e).toNat
  F64.round (decide (m < 0)) m.natAbs e false

/-- Double subtraction. -/
def F64.sub (a b : F64) : F64 := F64.add a ⟨-b.mant, b.exp⟩

/-- Double multiplication. -/
def F64.mul (a b : F64) : F64 :=
  let m : Int := a.mant * b.mant
  F64.round (decide (m < 0)) m.natAbs (a.exp + b.exp) false

/-- Double division by a non-zero divisor (the only divisors here are row
counts of non-empty groups and the constant 86400000.0); the quotient is
computed to more than 55 bits with the remainder as sticky bit. -/
def F64.div (a b : F64) : F64 :=
  if b.mant = 0 then F64.zero
  else
    let k := 55 + bitLen b.mant.natAbs
    let n := a.mant.natAbs * 2 ^ k
    F64.round (decide (a.mant < 0) != decide (b.mant < 0)) (n / b.mant.natAbs)
      (a.exp - b.exp - k) (decide (n % b.mant.natAbs ≠ 0))

/-- Go conversion `int64(f)` (here `time.Duration(f)`): the fraction is
discarded, towards zero. -/
def F64.trunc (a : F64) : Int :=
  if 0 ≤ a.exp then a.mant * 2 ^ a.exp.toNat
  else if a.mant < 0 then -((a.mant.natAbs / 2 ^ (-a.exp).toNat : Nat) : Int)
  else ((a.mant.natAbs / 2 ^ (-a.exp).toNat : Nat) : Int)

/-- The range of a Go `int64`, the type under `time.Duration`. -/
def inInt64 (n : Int) : Bool :=
  decide (-9223372036854775808 ≤ n) && decide (n ≤ 9223372036854775807)

/-- SQL `SUM` of REAL values in row order, NULL for no value. -/
def sumReal (xs : List F64) : Option F64 :=
  match xs with
  | [] => none
  | x :: rest => some (rest.foldl F64.add x)

/-- SQL `AVG`: the sum divided by the number of values, NULL for no value. -/
def avgReal (xs : List F64) : Option F64 :=
  (sumReal xs).map (fun t => F64.div t (F64.ofInt xs.length))

/-! ## The tables of `agentTrackingSchema` -/

/-- A row of `agent_sessions`. A column declared NOT NULL or PRIMARY KEY holds
a text, every other column may hold NULL (`none`). -/
structure SessionRow where
  session_id : GoString
  agent_name : GoString
  workspace_path : GoString
  started_at : GoString
  ended_at : Option GoString
  exit_reason : Option GoString
  issues_claimed : Option GoString
  skills_used : Option GoString
  model_tier : Option GoString
  context_tokens : Option Int
  created_at : Option GoString
  deriving DecidableEq, Repr

/-- A row of `agent_issue_work`. -/
structure WorkRow where
  work_id : GoString
  issue_id : GoString
  session_id : GoString
  agent_name : GoString
  started_at : GoString
  ended_at : Option GoString
  status_changes : Option GoString
  decision_rationale : Option GoString
  work_notes : Option GoString
  completed : Option Bool
  deriving DecidableEq, Repr

/-- A row of `agent_skill_usage`. -/
structure SkillUsageRow where
  usage_id : GoString
  session_id : GoString
  skill_name : GoString
  loaded_at : GoString
  used_for_issue_id : Option GoString
  context_added : Option Int
  deriving DecidableEq, Repr

/-- The state behind a `*sql.DB` on which `Initialize` has run: the rows of
the three tables in storage order, and whether the connection enforces
foreign keys (`PRAGMA foreign_keys`, off unless the owner of the connection
turns it on; this package never sets it). -/
structure Database where
  sessions : List SessionRow
  work : List WorkRow
  skillUsage : List SkillUsageRow
  foreignKeys : Bool
  deriving DecidableEq, Repr

/-- The `db *sql.DB` argument: `none` is the nil pointer. -/
abbrev Handle := Option Database

/-- What an operation reads from its environment: the identifier
`generateID()` returns, the clock `time.Now()` of the process and the clock
SQLite reads for `datetime(now)`. -/
structure Env where
  newID : GoString
  now : Time
  sqlNow : Time
  deriving DecidableEq, Repr

/-- The errors of the package, by the format string of their `fmt.Errorf`. -/
inductive Err where
  /-- The message `database connection is nil`. -/
  | nilDB
  /-- The message `<what> is required`. -/
  | required (what : String)
  /-- The message `<what> not found: <id>`. -/
  | notFound (what : String) (id : GoString)
  /-- The message `failed to <what>: <cause>`, wrapping an error of the
  driver, of `Scan` or of `time.Parse`. -/
  | failed (what : String)
  deriving DecidableEq, Repr

/-- Result of a statement-executing operation: what the Go function returns
and the handle afterwards. -/
abbrev Outcome (α : Type) := Except Err α × Handle

/-- The Go `Session` value. A nil `[]string` is `none`. -/
structure Session where
  SessionID : GoString
  AgentName : GoString
  WorkspacePath : GoString
  StartedAt : Time
  EndedAt : Option Time
  ExitReason : GoString
  IssuesClaimed : Option (List GoString)
  SkillsUsed : Option (List GoString)
  ModelTier : GoString
  ContextTokens : Int
  CreatedAt : Time
  deriving DecidableEq, Repr

/-- The Go `Work` value. -/
structure Work where
  WorkID : GoString
  IssueID : GoString
  SessionID : GoString
  AgentName : GoString
  StartedAt : Time
  EndedAt : Option Time
  StatusChanges : Option (List GoString)
  DecisionRationale : GoString
  WorkNotes : GoString
  Completed : Bool
  deriving DecidableEq, Repr

/-! ## Statements -/

/-- SQL `UPDATE t SET ... WHERE p`: every row satisfying `p` is replaced by
its image, and `RowsAffected` is the number of rows that satisfied `p`. -/
def execUpdate {ρ : Type} (rows : List ρ) (p : ρ → Bool) (f : ρ → ρ) : List ρ × Nat :=
  (rows.map (fun r => if p r then f r else r), rows.countP p)

/-- Does the foreign key of a new row of a child table hold: not checked when
enforcement is off, otherwise the session must exist. -/
def fkHolds (d : Database) (sessionID : GoString) : Bool :=
  !d.foreignKeys || d.sessions.any (fun r => decide (r.session_id = sessionID))

/-- SQL `INSERT INTO agent_sessions`: fails on a duplicate primary key. -/
def insertSession (d : Database) (r : SessionRow) : Option Database :=
  if d.sessions.any (fun x => decide (x.session_id = r.session_id)) then none
  else some { d with sessions := d.sessions ++ [r] }

/-- SQL `INSERT INTO agent_issue_work`: fails on a duplicate primary key or a
violated foreign key. -/
def insertWork (d : Database) (r : WorkRow) : Option Database :=
  if d.work.any (fun x => decide (x.work_id = r.work_id)) then none
  else if fkHolds d r.session_id then some { d with work := d.work ++ [r] }
  else none

/-- SQL `INSERT INTO agent_skill_usage`: fails on a duplicate primary key or a
violated foreign key. -/
def insertSkillUsage (d : Database) (r : SkillUsageRow) : Option Database :=
  if d.skillUsage.any (fun x => decide (x.usage_id = r.usage_id)) then none
  else if fkHolds d r.session_id then some { d with skillUsage := d.skillUsage ++ [r] }
  else none

/-- SQL `ORDER BY started_at DESC` on sessions; rows with equal keys keep
their storage order. -/
def sessionsDesc (rows : List SessionRow) : List SessionRow :=
  rows.insertionSort (fun a b => strLE b.started_at a.started_at = true)

/-- SQL `ORDER BY started_at DESC` on work rows. -/
def workDesc (rows : List WorkRow) : List WorkRow :=
  rows.insertionSort (fun a b => strLE b.started_at a.started_at = true)

/-- SQL `ORDER BY started_at ASC` on work rows. -/
def workAsc (rows : List WorkRow) : List WorkRow :=
  rows.insertionSort (fun a b => strLE a.started_at b.started_at = true)

/-! ## The record store (`session.go`) -/

/-- Source `StartSession`: validate, draw an identifier, stamp the start with
the process clock and insert the five given columns; the schema supplies the
other six (`ended_at`, `exit_reason` NULL, the two lists `[]`,
`context_tokens` 0, `created_at` the value of `datetime(now)`). -/
def StartSession (db : Handle) (env : Env) (agentName workspacePath modelTier : GoString) :
    Outcome GoString :=
  match db with
  | none => (Except.error Err.nilDB, none)
  | some d =>
    if agentName = [] then (Except.error (Err.required "agent name"), some d)
    else if workspacePath = [] then (Except.error (Err.required "workspace path"), some d)
    else
      match insertSession d
          { session_id := env.newID, agent_name := agentName, workspace_path := workspacePath,
            started_at := formatTime env.now, ended_at := none, exit_reason := none,
            issues_claimed := some (utf8 "[]"), skills_used := some (utf8 "[]"),
            model_tier := some modelTier, context_tokens := some 0,
            created_at := sqliteDatetime env.sqlNow } with
      | none => (Except.error (Err.failed "create session"), some d)
      | some d1 => (Except.ok env.newID, some d1)

/-- Source `EndSession`: set `ended_at` and `exit_reason` of the rows with the
given identifier; not found when no row was affected. -/
def EndSession (db : Handle) (env : Env) (sessionID exitReason : GoString) : Outcome Unit :=
  match db with
  | none => (Except.error Err.nilDB, none)
  | some d =>
    if sessionID = [] then (Except.error (Err.required "session ID"), some d)
    else
      let u := execUpdate d.sessions (fun r => decide (r.session_id = sessionID))
        (fun r => { r with ended_at := some (formatTime env.now), exit_reason := some exitReason })
      if u.2 = 0 then (Except.error (Err.notFound "session" sessionID), some { d with sessions := u.1 })
      else (Except.ok (), some { d with sessions := u.1 })

/-- The body shared by `GetSession` (after `Scan`) and the loop of
`scanSessions`: `Scan` fails on NULL in a column read into a plain `string` or
`int`, then the three times are parsed, the optional strings default to the
empty string and the two JSON lists are decoded leniently. `what` is the
message of the `Scan` failure. -/
def scanSession (what : String) (r : SessionRow) : Except Err Session :=
  match r.issues_claimed, r.skills_used, r.context_tokens, r.created_at with
  | some issues, some skills, some tokens, some created =>
    match parseTime r.started_at with
    | none => Except.error (Err.failed "parse started_at")
    | some started =>
      match parseNullableTime r.ended_at with
      | none => Except.error (Err.failed "parse ended_at")
      | some ended =>
        match parseTime created with
        | none => Except.error (Err.failed "parse created_at")
        | some createdAt =>
          Except.ok
            { SessionID := r.session_id, AgentName := r.agent_name,
              WorkspacePath := r.workspace_path, StartedAt := started, EndedAt := ended,
              ExitReason := r.exit_reason.getD [], IssuesClaimed := decodeList issues,
              SkillsUsed := decodeList skills, ModelTier := r.model_tier.getD [],
              ContextTokens := tokens, CreatedAt := createdAt }
  | _, _, _, _ => Except.error (Err.failed what)

/-- Source `GetSession`: the first row with the identifier, decoded. -/
def GetSession (db : Handle) (sessionID : GoString) : Except Err Session :=
  match db with
  | none => Except.error Err.nilDB
  | some d =>
    if sessionID = [] then Except.error (Err.required "session ID")
    else
      match d.sessions.find? (fun r => decide (r.session_id = sessionID)) with
      | none => Except.error (Err.notFound "session" sessionID)
      | some r => scanSession "get session" r

/-- Source `UpdateSessionIssues`: store the JSON text of the list in
`issues_claimed`. -/
def UpdateSessionIssues (db : Handle) (sessionID : GoString) (issues : Option (List GoString)) :
    Outcome Unit :=
  match db with
  | none => (Except.error Err.nilDB, none)
  | some d =>
    if sessionID = [] then (Except.error (Err.required "session ID"), some d)
    else
      let u := execUpdate d.sessions (fun r => decide (r.session_id = sessionID))
        (fun r => { r with issues_claimed := some (jsonMarshal issues) })
      if u.2 = 0 then (Except.error (Err.notFound "session" sessionID), some { d with sessions := u.1 })
      else (Except.ok (), some { d with sessions := u.1 })

/-- Source `UpdateSessionSkills`: store the JSON text of the list in
`skills_used`. -/
def UpdateSessionSkills (db : Handle) (sessionID : GoString) (skills : Option (List GoString)) :
    Outcome Unit :=
  match db with
  | none => (Except.error Err.nilDB, none)
  | some d =>
    if sessionID = [] then (Except.error (Err.required "session ID"), some d)
    else
      let u := execUpdate d.sessions (fun r => decide (r.session_id = sessionID))
        (fun r => { r with skills_used := some (jsonMarshal skills) })
      if u.2 = 0 then (Except.error (Err.notFound "session" sessionID), some { d with sessions := u.1 })
      else (Except.ok (), some { d with sessions := u.1 })

/-- Source `UpdateSessionTokens`: store the count in `context_tokens`. -/
def UpdateSessionTokens (db : Handle) (sessionID : GoString) (tokens : Int) : Outcome Unit :=
  match db with
  | none => (Except.error Err.nilDB, none)
  | some d =>
    if sessionID = [] then (Except.error (Err.required "session ID"), some d)
    else
      let u := execUpdate d.sessions (fun r => decide (r.session_id = sessionID))
        (fun r => { r with context_tokens := some tokens })
      if u.2 = 0 then (Except.error (Err.notFound "session" sessionID), some { d with sessions := u.1 })
      else (Except.ok (), some { d with sessions := u.1 })

/-- Source `scanSessions`: decode the rows in order, stopping at the first
failure. -/
def scanSessions (rows : List SessionRow) : Except Err (List Session) :=
  rows.mapM (scanSession "scan session")

/-- Source `ListActiveSessions`: the rows whose `ended_at` is NULL, latest
start first. -/
def ListActiveSessions (db : Handle) : Except Err (List Session) :=
  match db with
  | none => Except.error Err.nilDB
  | some d => scanSessions (sessionsDesc (d.sessions.filter (fun r => r.ended_at.isNone)))

/-- Source `ListSessionsByAgent`: the rows of the agent, latest start first,
at most `limit` of them, 10 when the limit is not positive. -/
def ListSessionsByAgent (db : Handle) (agentName : GoString) (limit : Int) :
    Except Err (List Session) :=
  match db with
  | none => Except.error Err.nilDB
  | some d =>
    if agentName = [] then Except.error (Err.required "agent name")
    else
      let lim : Int := if limit ≤ 0 then 10 else limit
      scanSessions ((sessionsDesc (d.sessions.filter
        (fun r => decide (r.agent_name = agentName)))).take lim.toNat)

/-- Source `RecordWork`: validate, draw an identifier and insert the six given
columns; the schema supplies `ended_at`, `work_notes` NULL, `status_changes`
`[]` and `completed` 0. -/
def RecordWork (db : Handle) (env : Env) (sessionID issueID agentName rationale : GoString) :
    Outcome GoString :=
  match db with
  | none => (Except.error Err.nilDB, none)
  | some d =>
    if sessionID = [] then (Except.error (Err.required "session ID"), some d)
    else if issueID = [] then (Except.error (Err.required "issue ID"), some d)
    else if agentName = [] then (Except.error (Err.required "agent name"), some d)
    else
      match insertWork d
          { work_id := env.newID, issue_id := issueID, session_id := sessionID,
            agent_name := agentName, started_at := formatTime env.now, ended_at := none,
            status_changes := some (utf8 "[]"), decision_rationale := some rationale,
            work_notes := none, completed := some false } with
      | none => (Except.error (Err.failed "record work"), some d)
      | some d1 => (Except.ok env.newID, some d1)

/-- Source `CompleteWork`: set `ended_at`, `work_notes` and `completed = 1` on
the rows with the given identifier; not found when no row was affected. -/
def CompleteWork (db : Handle) (env : Env) (workID notes : GoString) : Outcome Unit :=
  match db with
  | none => (Except.error Err.nilDB, none)
  | some d =>
    if workID = [] then (Except.error (Err.required "work ID"), some d)
    else
      let u := execUpdate d.work (fun r => decide (r.work_id = workID))
        (fun r => { r with ended_at := some (formatTime env.now), work_notes := some notes,
                           completed := some true })
      if u.2 = 0 then (Except.error (Err.notFound "work" workID), some { d with work := u.1 })
      else (Except.ok (), some { d with work := u.1 })

/-- Source `RecordSkillUsage`: validate, draw an identifier and insert a usage
row. -/
def RecordSkillUsage (db : Handle) (env : Env) (sessionID skillName issueID : GoString)
    (contextAdded : Int) : Outcome Unit :=
  match db with
  | none => (Except.error Err.nilDB, none)
  | some d =>
    if sessionID = [] then (Except.error (Err.required "session ID"), some d)
    else if skillName = [] then (Except.error (Err.required "skill name"), some d)
    else
      match insertSkillUsage d
          { usage_id := env.newID, session_id := sessionID, skill_name := skillName,
            loaded_at := formatTime env.now, used_for_issue_id := some issueID,
            context_added := some contextAdded } with
      | none => (Except.error (Err.failed "record skill usage"), some d)
      | some d1 => (Except.ok (), some d1)

/-- The body shared by `GetWork` and the loop of `scanWorkEntries`. -/
def scanWork (what : String) (r : WorkRow) : Except Err Work :=
  match r.status_changes, r.completed with
  | some changes, some completed =>
    match parseTime r.started_at with
    | none => Except.error (Err.failed "parse started_at")
    | some started =>
      match parseNullableTime r.ended_at with
      | none => Except.error (Err.failed "parse ended_at")
      | some ended =>
        Except.ok
          { WorkID := r.work_id, IssueID := r.issue_id, SessionID := r.session_id,
            AgentName := r.agent_name, StartedAt := started, EndedAt := ended,
            StatusChanges := decodeList changes, DecisionRationale := r.decision_rationale.getD [],
            WorkNotes := r.work_notes.getD [], Completed := completed }
  | _, _ => Except.error (Err.failed what)

/-- Source `GetWork`: the first row with the identifier, decoded. -/
def GetWork (db : Handle) (workID : GoString) : Except Err Work :=
  match db with
  | none => Except.error Err.nilDB
  | some d =>
    if workID = [] then Except.error (Err.required "work ID")
    else
      match d.work.find? (fun r => decide (r.work_id = workID)) with
      | none => Except.error (Err.notFound "work" workID)
      | some r => scanWork "get work" r

/-- Source `scanWorkEntries`. -/
def scanWorkEntries (rows : List WorkRow) : Except Err (List Work) :=
  rows.mapM (scanWork "scan work")

/-- Source `ListWorkByIssue`: the work rows of the issue, latest start first. -/
def ListWorkByIssue (db : Handle) (issueID : GoString) : Except Err (List Work) :=
  match db with
  | none => Except.error Err.nilDB
  | some d =>
    if issueID = [] then Except.error (Err.required "issue ID")
    else scanWorkEntries (workDesc (d.work.filter (fun r => decide (r.issue_id = issueID))))

/-- Source `ListWorkBySession`: the work rows of the session, earliest start
first. -/
def ListWorkBySession (db : Handle) (sessionID : GoString) : Except Err (List Work) :=
  match db with
  | none => Except.error Err.nilDB
  | some d =>
    if sessionID = [] then Except.error (Err.required "session ID")
    else scanWorkEntries (workAsc (d.work.filter (fun r => decide (r.session_id = sessionID))))

/-! ## The statistics engine (`stats.go`) -/

/-- What the statistics functions take from their platform. From the date
functions of SQLite: `JULIANDAY(text)`, NULL for a text it cannot read as a
time, and the value of `datetime(now)` while the statement runs. From the Go
implementation: the result of converting to `time.Duration` a double whose
integer part is outside the `int64` range, which the language leaves to the
implementation. -/
structure DateFns where
  julianday : GoString → Option F64
  nowText : Option GoString
  durationOutOfRange : F64 → Int

/-- The Go `SkillCount` and `AgentCount` values: a name and a count. -/
structure NameCount where
  Name : GoString
  Count : Nat
  deriving DecidableEq, Repr

/-- The Go `AgentStats` value; durations are in nanoseconds. -/
structure AgentStats where
  AgentName : GoString
  TotalSessions : Nat
  ActiveSessions : Nat
  TotalIssues : Nat
  CompletedIssues : Nat
  TotalSkillUses : Nat
  AvgSessionTime : Int
  TotalTokens : Int
  MostUsedSkills : List NameCount
  Since : Time
  deriving DecidableEq, Repr

/-- The Go `AgentWork` value. -/
structure AgentWork where
  AgentName : GoString
  WorkSessions : Nat
  TotalTime : Int
  Completed : Nat
  deriving DecidableEq, Repr

/-- The Go `IssueStats` value. -/
structure IssueStats where
  IssueID : GoString
  TotalWorkSessions : Nat
  TotalAgents : Nat
  TotalTime : Int
  IsCompleted : Bool
  AgentBreakdown : List AgentWork
  deriving DecidableEq, Repr

/-- The Go `SkillStats` value. -/
structure SkillStats where
  SkillName : GoString
  TotalUses : Nat
  UniqueSessions : Nat
  UniqueAgents : Nat
  TotalContext : Int
  AvgContext : F64
  TopAgents : List NameCount
  Since : Time
  deriving DecidableEq, Repr

/-- The Go `OverallStats` value. -/
structure OverallStats where
  TotalSessions : Nat
  ActiveSessions : Nat
  UniqueAgents : Nat
  TotalIssues : Nat
  CompletedIssues : Nat
  UniqueSkills : Nat
  TotalTokens : Int
  TopAgents : List NameCount
  Since : Time
  deriving DecidableEq, Repr

/-- SQL `SUM` over the non-NULL values of an INTEGER column, in row order:
the outer `none` is the error `integer overflow`, raised as soon as a partial
sum leaves the 64-bit range; the inner `none` is NULL, the sum of no value. -/
def sumInt (xs : List Int) : Option (Option Int) :=
  xs.foldl (fun acc x =>
    match acc with
    | none => none
    | some none => some (some x)
    | some (some t) =>
      if -9223372036854775808 ≤ t + x ∧ t + x ≤ 9223372036854775807 then some (some (t + x))
      else none) (some none)

/-- SQL `COUNT(DISTINCT x)` over non-NULL texts. -/
def countDistinct (xs : List GoString) : Nat := xs.dedup.length

/-- SQL `SELECT k, COUNT(*) ... GROUP BY k ORDER BY COUNT(*) DESC`: one entry
per distinct key. SQL leaves the order among equal counts open; here the
groups are formed in ascending key order and the sort keeps that order among
equal counts. -/
def groupCounts (keys : List GoString) : List NameCount :=
  ((keys.dedup.insertionSort (fun a b => strLE a b = true)).map
    (fun k => (⟨k, keys.count k⟩ : NameCount))).insertionSort (fun a b => b.Count ≤ a.Count)

/-- SQL `FROM t JOIN agent_sessions s ON t.session_id = s.session_id`. -/
def joinSessions {ρ : Type} (rows : List ρ) (sid : ρ → GoString) (ss : List SessionRow) :
    List (ρ × SessionRow) :=
  rows.flatMap (fun r => (ss.filter (fun x => decide (x.session_id = sid r))).map (fun x => (r, x)))

/-- SQL `JULIANDAY(a) - JULIANDAY(b)`, NULL when either side is. -/
def jdDiff (E : DateFns) (a : Option GoString) (b : GoString) : Option F64 :=
  match a.bind E.julianday, E.julianday b with
  | some x, some y => some (F64.sub x y)
  | _, _ => none

/-- SQL `x * 86400` for a nullable REAL. -/
def timesDay (x : Option F64) : Option F64 := x.map (fun v => F64.mul v (F64.ofInt 86400))

/-- Go `time.Duration(seconds * float64(time.Second))`: a duration in
nanoseconds from a double number of seconds. The product is converted to
`int64` by discarding the fraction; when the integer part does not fit, the
result is the one of the implementation. -/
def durationOfSeconds (E : DateFns) (secs : F64) : Int :=
  let nanos := F64.mul secs (F64.ofInt 1000000000)
  if inInt64 nanos.trunc then nanos.trunc else E.durationOutOfRange nanos

/-- The `if v.Valid { d = time.Duration(v.Float64 * float64(time.Second)) }`
of the statistics functions: NULL leaves the zero duration. -/
def durationOrZero (E : DateFns) (x : Option F64) : Int :=
  match x with
  | some v => durationOfSeconds E v
  | none => 0

/-- The first query of `GetAgentStats` and `GetOverallStats` over the selected
sessions: `COUNT(*)`, `SUM(CASE WHEN ended_at IS NULL THEN 1 ELSE 0 END)` and
`COALESCE(SUM(context_tokens), 0)`, scanned into three `int`. The second
column is NULL for no row, which `Scan` refuses. -/
def sessionCounts (rows : List SessionRow) : Option (Nat × Nat × Int) :=
  match sumInt (rows.filterMap (fun r => r.context_tokens)) with
  | none => none
  | some tokens =>
    if rows = [] then none
    else some (rows.length, rows.countP (fun r => r.ended_at.isNone), tokens.getD 0)

/-- The issue counts of `GetAgentStats` and `GetOverallStats` over the joined
work rows: `COUNT(DISTINCT issue_id)` and
`COUNT(DISTINCT CASE WHEN completed = 1 THEN issue_id END)`. -/
def issueCounts (joined : List (WorkRow × SessionRow)) : Nat × Nat :=
  (countDistinct (joined.map (fun p => p.1.issue_id)),
   countDistinct ((joined.filter (fun p => decide (p.1.completed = some true))).map
     (fun p => p.1.issue_id)))

/-- Source `GetAgentStats`. -/
def GetAgentStats (db : Handle) (E : DateFns) (agentName : GoString) (since : Time) :
    Except Err AgentStats :=
  match db with
  | none => Except.error Err.nilDB
  | some d =>
    if agentName = [] then Except.error (Err.required "agent name")
    else
      let sinceStr := formatTime since
      let rows := d.sessions.filter
        (fun r => decide (r.agent_name = agentName) && strLE sinceStr r.started_at)
      match sessionCounts rows with
      | none => Except.error (Err.failed "get session counts")
      | some (total, active, tokens) =>
        let avgSeconds := timesDay (avgReal
          ((rows.filter (fun r => r.ended_at.isSome)).filterMap
            (fun r => jdDiff E r.ended_at r.started_at)))
        let issues := issueCounts ((joinSessions d.work (fun w => w.session_id) d.sessions).filter
          (fun p => decide (p.1.agent_name = agentName) && strLE sinceStr p.2.started_at))
        let uses := (joinSessions d.skillUsage (fun u => u.session_id) d.sessions).filter
          (fun p => decide (p.2.agent_name = agentName) && strLE sinceStr p.2.started_at)
        Except.ok
          { AgentName := agentName, TotalSessions := total, ActiveSessions := active,
            TotalIssues := issues.1, CompletedIssues := issues.2, TotalSkillUses := uses.length,
            AvgSessionTime := durationOrZero E avgSeconds, TotalTokens := tokens,
            MostUsedSkills := (groupCounts (uses.map (fun p => p.1.skill_name))).take 5,
            Since := since }

/-- SQL `JULIANDAY(COALESCE(ended_at, datetime(now))) - JULIANDAY(started_at)`
for a work row. -/
def workDays (E : DateFns) (r : WorkRow) : Option F64 :=
  jdDiff E (match r.ended_at with
    | some e => some e
    | none => E.nowText) r.started_at

/-- One row of the breakdown query of `GetIssueStats`, for the group of the
work rows of one agent: `COUNT(*)`, `SUM(days) * 86400` scanned into a plain
`float64` and `SUM(completed)` scanned into an `int`; `Scan` refuses NULL in
either. -/
def agentWorkOf (E : DateFns) (agent : GoString) (group : List WorkRow) : Option AgentWork :=
  match timesDay (sumReal (group.filterMap (workDays E))), group.filterMap (fun r => r.completed) with
  | none, _ => none
  | some _, [] => none
  | some secs, c :: cs =>
    some { AgentName := agent, WorkSessions := group.length, TotalTime := durationOfSeconds E secs,
           Completed := (c :: cs).count true }

/-- Source `GetIssueStats`. -/
def GetIssueStats (db : Handle) (E : DateFns) (issueID : GoString) : Except Err IssueStats :=
  match db with
  | none => Except.error Err.nilDB
  | some d =>
    if issueID = [] then Except.error (Err.required "issue ID")
    else
      let rows := d.work.filter (fun r => decide (r.issue_id = issueID))
      match rows.filterMap (fun r => r.completed) with
      | [] => Except.error (Err.failed "get issue counts")
      | c :: cs =>
        let totalSeconds := timesDay (sumReal (rows.filterMap (workDays E)))
        let agents := (rows.map (fun r => r.agent_name)).dedup.insertionSort
          (fun a b => strLE a b = true)
        match agents.mapM (fun a =>
            agentWorkOf E a (rows.filter (fun r => decide (r.agent_name = a)))) with
        | none => Except.error (Err.failed "scan agent work")
        | some breakdown =>
          Except.ok
            { IssueID := issueID, TotalWorkSessions := rows.length,
              TotalAgents := countDistinct (rows.map (fun r => r.agent_name)),
              TotalTime := durationOrZero E totalSeconds,
              IsCompleted := (c :: cs).any (fun b => b),
              AgentBreakdown := breakdown.insertionSort
                (fun a b => b.WorkSessions ≤ a.WorkSessions) }

/-- Source `GetSkillStats`. -/
def GetSkillStats (db : Handle) (skillName : GoString) (since : Time) : Except Err SkillStats :=
  match db with
  | none => Except.error Err.nilDB
  | some d =>
    if skillName = [] then Except.error (Err.required "skill name")
    else
      let sinceStr := formatTime since
      let uses := (joinSessions d.skillUsage (fun u => u.session_id) d.sessions).filter
        (fun p => decide (p.1.skill_name = skillName) && strLE sinceStr p.1.loaded_at)
      let added := uses.filterMap (fun p => p.1.context_added)
      match sumInt added with
      | none => Except.error (Err.failed "get skill usage counts")
      | some total =>
        Except.ok
          { SkillName := skillName, TotalUses := uses.length,
            UniqueSessions := countDistinct (uses.map (fun p => p.1.session_id)),
            UniqueAgents := countDistinct (uses.map (fun p => p.2.agent_name)),
            TotalContext := total.getD 0,
            AvgContext := (avgReal (added.map F64.ofInt)).getD F64.zero,
            TopAgents := (groupCounts (uses.map (fun p => p.2.agent_name))).take 5,
            Since := since }

/-- Source `GetOverallStats`. -/
def GetOverallStats (db : Handle) (since : Time) : Except Err OverallStats :=
  match db with
  | none => Except.error Err.nilDB
  | some d =>
    let sinceStr := formatTime since
    let rows := d.sessions.filter (fun r => strLE sinceStr r.started_at)
    match sessionCounts rows with
    | none => Except.error (Err.failed "get session counts")
    | some (total, active, tokens) =>
      let issues := issueCounts ((joinSessions d.work (fun w => w.session_id) d.sessions).filter
        (fun p => strLE sinceStr p.2.started_at))
      Except.ok
        { TotalSessions := total, ActiveSessions := active,
          UniqueAgents := countDistinct (rows.map (fun r => r.agent_name)),
          TotalIssues := issues.1, CompletedIssues := issues.2,
          UniqueSkills := countDistinct
            ((d.skillUsage.filter (fun u => strLE sinceStr u.loaded_at)).map
              (fun u => u.skill_name)),
          TotalTokens := tokens,
          TopAgents := (groupCounts (rows.map (fun r => r.agent_name))).take 5,
          Since := since }

/-- The day count SQLite `computeJD` derives from a date, in milliseconds
since noon of 24 November 4714 BC. -/
def sqliteDayMs (c : Civil) : Int :=
  let y : Int := if c.month ≤ 2 then c.year - 1 else c.year
  let m : Int := if c.month ≤ 2 then c.month + 12 else c.month
  let a := y / 100
  (36525 * (y + 4716) / 100 + 306001 * (m + 1) / 10000 + c.day + (2 - a + a / 4)) * 86400000
    - 131716800000

/-- SQLite `JULIANDAY` on the two timestamp forms this program stores,
`YYYY-MM-DDTHH:MM:SSZ` (written by `formatTime`) and `YYYY-MM-DD HH:MM:SS`
(written by `datetime`): the Julian day number as the double quotient of the
millisecond count by 86400000. SQLite bounds the day by 31 without looking at
the month. It reads further forms (date only, fractions, zone offsets, Julian
day numbers); this instance answers NULL for them and is applied below to
texts of the two forms only. -/
def sqliteJulianday (s : GoString) : Option F64 :=
  match parseDate s with
  | none => none
  | some (d, s0) =>
    match s0 with
    | [] => none
    | sep :: s1 =>
      if (sep.val = 84 ∨ sep.val = 32) ∧ 1 ≤ d.day ∧ d.day ≤ 31 then
        match parseClock d s1 with
        | none => none
        | some (c, s2) =>
          if (s2 = [] ∨ s2 = [byte 90]) ∧ s1.length = 8 + s2.length then
            some (F64.div (F64.ofInt (sqliteDayMs c + c.hour * 3600000 + c.minute * 60000
              + c.second * 1000)) (F64.ofInt 86400000))
          else none
      else none

/-- The date functions of SQLite at the instant `now`, with the conversion of
the amd64 port of Go, which yields the least `int64` for every double out of
range. -/
def sqliteDates (now : Time) : DateFns :=
  ⟨sqliteJulianday, sqliteDatetime now, fun _ => -9223372036854775808⟩

/-! ## Example data -/

/-- The row `StartSession` inserts for agent `agentX` at 2024-01-01T00:00:00Z
with the identifier `s1`. -/
def demoSession : SessionRow :=
  { session_id := utf8 "s1", agent_name := utf8 "agentX", workspace_path := utf8 "/ws",
    started_at := utf8 "2024-01-01T00:00:00Z", ended_at := none, exit_reason := none,
    issues_claimed := some (utf8 "[]"), skills_used := some (utf8 "[]"),
    model_tier := some (utf8 "sonnet"), context_tokens := some 0,
    created_at := some (utf8 "2024-01-01 00:00:00") }

/-- The same session with `created_at` in RFC 3339 form, as a writer other
than `StartSession` may store it. -/
def demoSessionRFC : SessionRow :=
  { demoSession with created_at := some (utf8 "2024-01-01T00:00:00Z") }

/-- A work row of session `s1` on `issue-1`, not completed. -/
def demoWork : WorkRow :=
  { work_id := utf8 "w1", issue_id := utf8 "issue-1", session_id := utf8 "s1",
    agent_name := utf8 "agentX", started_at := utf8 "2024-01-01T00:00:10Z", ended_at := none,
    status_changes := some (utf8 "[]"), decision_rationale := some (utf8 "because P1"),
    work_notes := none, completed := some false }

/-- A database with one session and one work row. -/
def demoDB : Database :=
  { sessions := [demoSessionRFC], work := [demoWork], skillUsage := [], foreignKeys := false }

/-- A database with empty tables. -/
def emptyDB : Database := { sessions := [], work := [], skillUsage := [], foreignKeys := false }

/-- An environment: identifier `s2`, both clocks at 2024-01-01T00:01:00.5Z. -/
def demoEnv : Env :=
  { newID := utf8 "s2", now := ⟨1704067260500000000, 0⟩, sqlNow := ⟨1704067260500000000, 0⟩ }

/-- A second work row on `issue-1`, by another agent, completed after 60
seconds. -/
def demoWorkDone : WorkRow :=
  { work_id := utf8 "w2", issue_id := utf8 "issue-1", session_id := utf8 "s1",
    agent_name := utf8 "agentY", started_at := utf8 "2024-01-01T00:00:00Z",
    ended_at := some (utf8 "2024-01-01T00:01:00Z"), status_changes := some (utf8 "[]"),
    decision_rationale := some (utf8 "follow-up"), work_notes := some (utf8 "done"),
    completed := some true }

/-- The example database with both work rows on `issue-1`, one of them
completed. -/
def demoDB2 : Database := { demoDB with work := [demoWork, demoWorkDone] }

/-- The session `s1` ended after 60 seconds. -/
def demoSessionEnded : SessionRow :=
  { demoSessionRFC with ended_at := some (utf8 "2024-01-01T00:01:00Z"),
                        exit_reason := some (utf8 "completed") }

/-- A second session of `agentX`, started 30 seconds later and still open. -/
def demoSessionOpen : SessionRow :=
  { demoSessionRFC with session_id := utf8 "s3", started_at := utf8 "2024-01-01T00:00:30Z" }

/-- A database with one completed session of 60 seconds and one open session
of the same agent. -/
def demoDB3 : Database :=
  { sessions := [demoSessionEnded, demoSessionOpen], work := [], skillUsage := [],
    foreignKeys := false }

/-! ## Notions the properties are stated with -/

/-- The year of an instant on the UTC calendar. -/
def Time.year (t : Time) : Int := (civilOfUnix t.unix).year

/-- Does the instant fall in the years 0000 to 9999, those RFC 3339 writes
with four digits. -/
def Time.inYears (t : Time) : Bool := decide (0 ≤ t.year) && decide (t.year ≤ 9999)

/-- Strict bytewise order of two texts: the second is not below or equal to
the first. -/
def strLT (a b : GoString) : Bool := !strLE b a

/-- The calendar fields of an existing second of the years 0000 to 9999. -/
def Civil.wellFormed (c : Civil) : Prop :=
  0 ≤ c.year ∧ c.year ≤ 9999 ∧ 1 ≤ c.month ∧ c.month ≤ 12 ∧ 1 ≤ c.day ∧
  c.day ≤ daysIn c.month c.year ∧ c.hour < 24 ∧ c.minute < 60 ∧ c.second < 60

/-- Is the JSON value a string. -/
def JValue.isStr : JValue → Bool
  | JValue.str _ => true
  | _ => false

/-- Is the JSON value a string or `null`. -/
def JValue.isStrOrNull : JValue → Bool
  | JValue.str _ => true
  | JValue.null => true
  | _ => false

/-- Is the text a parseable JSON array of strings. -/
def isStringArray (text : GoString) : Bool :=
  match parseJSON text with
  | some (JValue.arr es) => es.all JValue.isStr
  | _ => false

/-- Is the text a parseable JSON array whose elements are strings or `null`. -/
def isLenientArray (text : GoString) : Bool :=
  match parseJSON text with
  | some (JValue.arr es) => es.all JValue.isStrOrNull
  | _ => false

/-- The tables right after `Initialize` on a fresh database file: no rows.
Whether the connection enforces foreign keys is its owner's choice. -/
def initialized (fk : Bool) : Database :=
  { sessions := [], work := [], skillUsage := [], foreignKeys := fk }

/-- One call of a writing operation of the record store, with its arguments
and what it reads from its environment. The reading operations leave the
tables alone. -/
inductive Call where
  | startSession (env : Env) (agentName workspacePath modelTier : GoString)
  | endSession (env : Env) (sessionID exitReason : GoString)
  | updateSessionIssues (sessionID : GoString) (issues : Option (List GoString))
  | updateSessionSkills (sessionID : GoString) (skills : Option (List GoString))
  | updateSessionTokens (sessionID : GoString) (tokens : Int)
  | recordWork (env : Env) (sessionID issueID agentName rationale : GoString)
  | completeWork (env : Env) (workID notes : GoString)
  | recordSkillUsage (env : Env) (sessionID skillName issueID : GoString) (contextAdded : Int)

/-- The handle a call leaves behind, whether it succeeded or not. -/
def Call.run (c : Call) (db : Handle) : Handle :=
  match c with
  | Call.startSession env a w m => (StartSession db env a w m).2
  | Call.endSession env id reason => (EndSession db env id reason).2
  | Call.updateSessionIssues id issues => (UpdateSessionIssues db id issues).2
  | Call.updateSessionSkills id skills => (UpdateSessionSkills db id skills).2
  | Call.updateSessionTokens id tokens => (UpdateSessionTokens db id tokens).2
  | Call.recordWork env sid issue agent rationale => (RecordWork db env sid issue agent rationale).2
  | Call.completeWork env wid notes => (CompleteWork db env wid notes).2
  | Call.recordSkillUsage env sid skill issue n => (RecordSkillUsage db env sid skill issue n).2

/-- The handle after a sequence of calls, first call first. -/
def runCalls (cs : List Call) (db : Handle) : Handle := cs.foldl (fun h c => c.run h) db

/-- Does every work row name, in `session_id`, exactly one session row. -/
def workRefsHold (d : Database) : Bool :=
  d.work.all (fun w => decide (d.sessions.countP (fun s => decide (s.session_id = w.session_id)) = 1))

/-! ## More example data -/

/-- The last second of the year 9999. -/
def endOf9999 : Time := ⟨253402300799000000000, 0⟩

/-- The first second of the year 10000. -/
def startOf10000 : Time := ⟨253402300800000000000, 0⟩

/-- The instant 2024-01-01T00:01:00.7Z, two tenths of a second after the clock
of `demoEnv`. -/
def demoSince : Time := ⟨1704067260700000000, 0⟩

/-- An environment with the given identifier and both clocks at the given
Unix second. -/
def envAt (id : String) (sec : Int) : Env :=
  { newID := utf8 id, now := ⟨sec * 1000000000, 0⟩, sqlNow := ⟨sec * 1000000000, 0⟩ }

/-- A session `s4` of `agentX` whose start, half a second after that of `s1`,
is stored with its fraction of a second. -/
def demoSessionFrac : SessionRow :=
  { demoSessionRFC with session_id := utf8 "s4", started_at := utf8 "2024-01-01T00:00:00.5Z" }

/-- The sessions `s1` and `s4`, both open. -/
def demoDBFrac : Database :=
  { sessions := [demoSessionRFC, demoSessionFrac], work := [], skillUsage := [],
    foreignKeys := false }

/-- A session `s5` whose `ended_at` holds the empty text. -/
def demoSessionBlankEnd : SessionRow :=
  { demoSessionRFC with session_id := utf8 "s5", ended_at := some [] }

/-- A database with the session `s5` only. -/
def demoDBBlankEnd : Database :=
  { sessions := [demoSessionBlankEnd], work := [], skillUsage := [], foreignKeys := false }

/-- The session `s1` with a `null` among the claimed issues. -/
def demoSessionNullElem : SessionRow :=
  { demoSessionRFC with issues_claimed := some (utf8 "[\"a\",null]") }

/-- A database with that session only. -/
def demoDBNullElem : Database :=
  { sessions := [demoSessionNullElem], work := [], skillUsage := [], foreignKeys := false }

/-- The referential state of the tables on a connection that enforces foreign
keys: the session identifiers are pairwise distinct and every work row names
an existing session. -/
def Database.consistent (d : Database) : Prop :=
  d.foreignKeys = true ∧ (d.sessions.map (fun s => s.session_id)).Nodup ∧
  ∀ w ∈ d.work, ∃ s ∈ d.sessions, s.session_id = w.session_id

/-- A session of `agentX` that lasted from 1900-01-01 to 2200-01-01. -/
def demoSessionLong : SessionRow :=
  { demoSessionRFC with session_id := utf8 "s6", started_at := utf8 "1900-01-01T00:00:00Z",
                        ended_at := some (utf8 "2200-01-01T00:00:00Z"),
                        exit_reason := some (utf8 "completed") }

/-- A database with that session only. -/
def demoDBLong : Database :=
  { sessions := [demoSessionLong], work := [], skillUsage := [], foreignKeys := false }

/-! # Theorems -/

/-! ## Statements on rows -/

theorem countP_eq_zero_of_no_match {ρ : Type} (rows : List ρ) (p : ρ → Bool)
    (h : ∀ r ∈ rows, p r = false) : rows.countP p = 0 := by
  rw [List.countP_eq_zero]
  intro r hr
  simp [h r hr]

theorem countP_ne_zero_of_match {ρ : Type} (rows : List ρ) (p : ρ → Bool) (r : ρ)
    (hr : r ∈ rows) (hp : p r = true) : rows.countP p ≠ 0 := by
  intro h
  rw [List.countP_eq_zero] at h
  exact h r hr hp

theorem countP_eq_zero_iff_no_match {ρ : Type} (rows : List ρ) (p : ρ → Bool) :
    rows.countP p = 0 ↔ ∀ r ∈ rows, p r = false := by
  rw [List.countP_eq_zero]
  constructor
  · intro h r hr
    simpa using h r hr
  · intro h r hr
    simp [h r hr]

theorem map_update_of_no_match {ρ : Type} (rows : List ρ) (p : ρ → Bool) (f : ρ → ρ)
    (h : ∀ r ∈ rows, p r = false) : rows.map (fun r => if p r then f r else r) = rows := by
  induction rows with
  | nil => rfl
  | cons a t ih =>
    have ha : p a = false := h a (List.mem_cons_self a t)
    have ht : ∀ r ∈ t, p r = false := fun r hr => h r (List.mem_cons_of_mem a hr)
    simp [ha, ih ht]

/-! ## The update operations, unfolded -/

theorem EndSession_some (d : Database) (env : Env) (id reason : GoString) (hid : id ≠ []) :
    EndSession (some d) env id reason =
      (if d.sessions.countP (fun r => decide (r.session_id = id)) = 0
        then Except.error (Err.notFound "session" id) else Except.ok (),
       some { d with sessions := d.sessions.map (fun r =>
         if decide (r.session_id = id) then
           { r with ended_at := some (formatTime env.now), exit_reason := some reason }
         else r) }) := by
  unfold EndSession
  simp only [hid, if_false, execUpdate]
  split <;> rfl

theorem UpdateSessionIssues_some (d : Database) (id : GoString) (l : Option (List GoString))
    (hid : id ≠ []) :
    UpdateSessionIssues (some d) id l =
      (if d.sessions.countP (fun r => decide (r.session_id = id)) = 0
        then Except.error (Err.notFound "session" id) else Except.ok (),
       some { d with sessions := d.sessions.map (fun r =>
         if decide (r.session_id = id) then { r with issues_claimed := some (jsonMarshal l) }
         else r) }) := by
  unfold UpdateSessionIssues
  simp only [hid, if_false, execUpdate]
  split <;> rfl

theorem UpdateSessionSkills_some (d : Database) (id : GoString) (l : Option (List GoString))
    (hid : id ≠ []) :
    UpdateSessionSkills (some d) id l =
      (if d.sessions.countP (fun r => decide (r.session_id = id)) = 0
        then Except.error (Err.notFound "session" id) else Except.ok (),
       some { d with sessions := d.sessions.map (fun r =>
         if decide (r.session_id = id) then { r with skills_used := some (jsonMarshal l) }
         else r) }) := by
  unfold UpdateSessionSkills
  simp only [hid, if_false, execUpdate]
  split <;> rfl

theorem UpdateSessionTokens_some (d : Database) (id : GoString) (n : Int) (hid : id ≠ []) :
    UpdateSessionTokens (some d) id n =
      (if d.sessions.countP (fun r => decide (r.session_id = id)) = 0
        then Except.error (Err.notFound "session" id) else Except.ok (),
       some { d with sessions := d.sessions.map (fun r =>
         if decide (r.session_id = id) then { r with context_tokens := some n } else r) }) := by
  unfold UpdateSessionTokens
  simp only [hid, if_false, execUpdate]
  split <;> rfl

theorem CompleteWork_some (d : Database) (env : Env) (id notes : GoString) (hid : id ≠ []) :
    CompleteWork (some d) env id notes =
      (if d.work.countP (fun r => decide (r.work_id = id)) = 0
        then Except.error (Err.notFound "work" id) else Except.ok (),
       some { d with work := d.work.map (fun r =>
         if decide (r.work_id = id) then
           { r with ended_at := some (formatTime env.now), work_notes := some notes,
                    completed := some true }
         else r) }) := by
  unfold CompleteWork
  simp only [hid, if_false, execUpdate]
  split <;> rfl

theorem sessions_no_match (d : Database) (id : GoString)
    (h : ∀ r ∈ d.sessions, r.session_id ≠ id) :
    ∀ r ∈ d.sessions, (fun r : SessionRow => decide (r.session_id = id)) r = false := by
  intro r hr
  simpa using h r hr

theorem work_no_match (d : Database) (id : GoString) (h : ∀ r ∈ d.work, r.work_id ≠ id) :
    ∀ r ∈ d.work, (fun r : WorkRow => decide (r.work_id = id)) r = false := by
  intro r hr
  simpa using h r hr

/-! ## Not-found behaviour of the update operations -/

/-- C8: with a handle and a non-empty identifier, EndSession succeeds exactly
when a session row carries the identifier; otherwise it fails with the
not-found error; and after a success a second EndSession on the same
identifier succeeds again and re-sets `ended_at` and `exit_reason`. -/
theorem endSession_succeeds_iff_exists (d : Database) (env env2 : Env)
    (id reason reason2 : GoString) (hid : id ≠ []) :
    ((EndSession (some d) env id reason).1 = Except.ok () ↔
        ∃ r ∈ d.sessions, r.session_id = id) ∧
    ((¬ ∃ r ∈ d.sessions, r.session_id = id) →
        (EndSession (some d) env id reason).1 = Except.error (Err.notFound "session" id)) ∧
    ((EndSession (some d) env id reason).1 = Except.ok () →
        (EndSession (EndSession (some d) env id reason).2 env2 id reason2).1 = Except.ok () ∧
        ∃ d2, (EndSession (EndSession (some d) env id reason).2 env2 id reason2).2 = some d2 ∧
          ∀ r ∈ d2.sessions, r.session_id = id →
            r.ended_at = some (formatTime env2.now) ∧ r.exit_reason = some reason2) := by
  have key : d.sessions.countP (fun r => decide (r.session_id = id)) = 0 ↔
      ¬ ∃ r ∈ d.sessions, r.session_id = id := by
    rw [countP_eq_zero_iff_no_match]
    constructor
    · rintro h ⟨r, hr, hrid⟩
      simpa [hrid] using h r hr
    · intro h r hr
      simp only [decide_eq_false_iff_not]
      exact fun hrid => h ⟨r, hr, hrid⟩
  refine ⟨?_, ?_, ?_⟩
  · rw [EndSession_some d env id reason hid]
    by_cases hc : d.sessions.countP (fun r => decide (r.session_id = id)) = 0
    · simp only [hc, if_true]
      constructor
      · intro h
        cases h
      · intro h
        exact absurd h (key.mp hc)
    · simp only [hc, if_false, true_iff]
      exact not_not.mp (fun h => hc (key.mpr h))
  · intro h
    rw [EndSession_some d env id reason hid]
    simp only [key.mpr h, if_true]
  · intro hok
    rw [EndSession_some d env id reason hid] at hok ⊢
    by_cases hc : d.sessions.countP (fun r => decide (r.session_id = id)) = 0
    · simp only [hc, if_true] at hok
      cases hok
    · rw [EndSession_some _ env2 id reason2 hid]
      have hex : ∃ r ∈ d.sessions, r.session_id = id := not_not.mp (fun h => hc (key.mpr h))
      obtain ⟨r0, hr0, hr0id⟩ := hex
      refine ⟨?_, _, rfl, ?_⟩
      · have : (d.sessions.map (fun r =>
            if decide (r.session_id = id) then
              { r with ended_at := some (formatTime env.now), exit_reason := some reason }
            else r)).countP (fun r => decide (r.session_id = id)) ≠ 0 := by
          apply countP_ne_zero_of_match _ _
            { r0 with ended_at := some (formatTime env.now), exit_reason := some reason }
          · rw [List.mem_map]
            exact ⟨r0, hr0, by simp [hr0id]⟩
          · simp [hr0id]
        simp only [this, if_false]
      · intro r hr hrid
        simp only [List.mem_map] at hr
        obtain ⟨r1, _, rfl⟩ := hr
        by_cases h1 : r1.session_id = id
        · simp [h1]
        · simp [h1] at hrid

/-- C8, on the example database: the session `s1` exists and EndSession
succeeds on it twice in a row. -/
theorem endSession_succeeds_iff_exists_witness :
    utf8 "s1" ≠ [] ∧
    (EndSession (some demoDB) demoEnv (utf8 "s1") (utf8 "completed")).1 = Except.ok () ∧
    (EndSession (EndSession (some demoDB) demoEnv (utf8 "s1") (utf8 "completed")).2 demoEnv
        (utf8 "s1") (utf8 "timeout")).1 = Except.ok () := by
  have h := endSession_succeeds_iff_exists demoDB demoEnv demoEnv (utf8 "s1") (utf8 "completed")
    (utf8 "timeout") (by decide)
  have h1 : (EndSession (some demoDB) demoEnv (utf8 "s1") (utf8 "completed")).1 = Except.ok () :=
    h.1.mpr ⟨demoSessionRFC, by decide, by decide⟩
  exact ⟨by decide, h1, (h.2.2 h1).1⟩

/-- C9: on an identifier that matches no row, CompleteWork,
UpdateSessionIssues, UpdateSessionSkills and UpdateSessionTokens return the
not-found error and leave the three tables as they were. -/
theorem update_missing_id_not_found (d : Database) (env : Env) (id notes : GoString)
    (l : Option (List GoString)) (n : Int) (hid : id ≠ []) :
    ((∀ r ∈ d.work, r.work_id ≠ id) →
        CompleteWork (some d) env id notes = (Except.error (Err.notFound "work" id), some d)) ∧
    ((∀ r ∈ d.sessions, r.session_id ≠ id) →
        UpdateSessionIssues (some d) id l = (Except.error (Err.notFound "session" id), some d) ∧
        UpdateSessionSkills (some d) id l = (Except.error (Err.notFound "session" id), some d) ∧
        UpdateSessionTokens (some d) id n = (Except.error (Err.notFound "session" id), some d)) := by
  constructor
  · intro h
    rw [CompleteWork_some d env id notes hid,
      countP_eq_zero_of_no_match _ _ (work_no_match d id h),
      map_update_of_no_match _ _ _ (work_no_match d id h)]
    rfl
  · intro h
    refine ⟨?_, ?_, ?_⟩
    · rw [UpdateSessionIssues_some d id l hid,
        countP_eq_zero_of_no_match _ _ (sessions_no_match d id h),
        map_update_of_no_match _ _ _ (sessions_no_match d id h)]
      rfl
    · rw [UpdateSessionSkills_some d id l hid,
        countP_eq_zero_of_no_match _ _ (sessions_no_match d id h),
        map_update_of_no_match _ _ _ (sessions_no_match d id h)]
      rfl
    · rw [UpdateSessionTokens_some d id n hid,
        countP_eq_zero_of_no_match _ _ (sessions_no_match d id h),
        map_update_of_no_match _ _ _ (sessions_no_match d id h)]
      rfl

/-- C9, on the example database and the identifier `zz`, which no session
and no work row carries. -/
theorem update_missing_id_not_found_witness :
    utf8 "zz" ≠ [] ∧ (∀ r ∈ demoDB.work, r.work_id ≠ utf8 "zz") ∧
    (∀ r ∈ demoDB.sessions, r.session_id ≠ utf8 "zz") ∧
    CompleteWork (some demoDB) demoEnv (utf8 "zz") (utf8 "done") =
      (Except.error (Err.notFound "work" (utf8 "zz")), some demoDB) ∧
    UpdateSessionTokens (some demoDB) (utf8 "zz") 7 =
      (Except.error (Err.notFound "session" (utf8 "zz")), some demoDB) := by
  have h := update_missing_id_not_found demoDB demoEnv (utf8 "zz") (utf8 "done")
    (some [utf8 "a"]) 7 (by decide)
  exact ⟨by decide, by decide, by decide, h.1 (by decide), (h.2 (by decide)).2.2⟩

/-! ## Validation -/

/-- C10: every record-store operation validates before it touches storage.
On a nil handle it returns the nil-connection error and there is still no
handle; on a handle with a required string argument empty it returns a
`required` error and the database is what it was. No identifier or value is
returned in either case. The read operations cannot change the tables at all;
for them the result is the error. -/
theorem validation_before_storage :
    (∀ env a w m, StartSession none env a w m = (Except.error Err.nilDB, none)) ∧
    (∀ d env a w m, a = [] ∨ w = [] →
      ∃ what, StartSession (some d) env a w m = (Except.error (Err.required what), some d)) ∧
    (∀ env s x, EndSession none env s x = (Except.error Err.nilDB, none)) ∧
    (∀ d env x, EndSession (some d) env [] x =
      (Except.error (Err.required "session ID"), some d)) ∧
    (∀ s, GetSession none s = Except.error Err.nilDB) ∧
    (∀ d, GetSession (some d) [] = Except.error (Err.required "session ID")) ∧
    (∀ s l, UpdateSessionIssues none s l = (Except.error Err.nilDB, none)) ∧
    (∀ d l, UpdateSessionIssues (some d) [] l =
      (Except.error (Err.required "session ID"), some d)) ∧
    (∀ s l, UpdateSessionSkills none s l = (Except.error Err.nilDB, none)) ∧
    (∀ d l, UpdateSessionSkills (some d) [] l =
      (Except.error (Err.required "session ID"), some d)) ∧
    (∀ s n, UpdateSessionTokens none s n = (Except.error Err.nilDB, none)) ∧
    (∀ d n, UpdateSessionTokens (some d) [] n =
      (Except.error (Err.required "session ID"), some d)) ∧
    (ListActiveSessions none = Except.error Err.nilDB) ∧
    (∀ a n, ListSessionsByAgent none a n = Except.error Err.nilDB) ∧
    (∀ d n, ListSessionsByAgent (some d) [] n = Except.error (Err.required "agent name")) ∧
    (∀ env s i a x, RecordWork none env s i a x = (Except.error Err.nilDB, none)) ∧
    (∀ d env s i a x, s = [] ∨ i = [] ∨ a = [] →
      ∃ what, RecordWork (some d) env s i a x = (Except.error (Err.required what), some d)) ∧
    (∀ env w x, CompleteWork none env w x = (Except.error Err.nilDB, none)) ∧
    (∀ d env x, CompleteWork (some d) env [] x =
      (Except.error (Err.required "work ID"), some d)) ∧
    (∀ env s k i n, RecordSkillUsage none env s k i n = (Except.error Err.nilDB, none)) ∧
    (∀ d env s k i n, s = [] ∨ k = [] →
      ∃ what, RecordSkillUsage (some d) env s k i n =
        (Except.error (Err.required what), some d)) ∧
    (∀ w, GetWork none w = Except.error Err.nilDB) ∧
    (∀ d, GetWork (some d) [] = Except.error (Err.required "work ID")) ∧
    (∀ i, ListWorkByIssue none i = Except.error Err.nilDB) ∧
    (∀ d, ListWorkByIssue (some d) [] = Except.error (Err.required "issue ID")) ∧
    (∀ s, ListWorkBySession none s = Except.error Err.nilDB) ∧
    (∀ d, ListWorkBySession (some d) [] = Except.error (Err.required "session ID")) := by
  refine ⟨fun _ _ _ _ => rfl, ?_, fun _ _ _ => rfl, fun _ _ _ => rfl, fun _ => rfl,
    fun _ => rfl, fun _ _ => rfl, fun _ _ => rfl, fun _ _ => rfl, fun _ _ => rfl,
    fun _ _ => rfl, fun _ _ => rfl, rfl, fun _ _ => rfl, fun _ _ => rfl,
    fun _ _ _ _ _ => rfl, ?_, fun _ _ _ => rfl, fun _ _ _ => rfl,
    fun _ _ _ _ _ => rfl, ?_, fun _ => rfl, fun _ => rfl, fun _ => rfl, fun _ => rfl,
    fun _ => rfl, fun _ => rfl⟩
  · intro d env a w m h
    unfold StartSession
    by_cases ha : a = []
    · exact ⟨"agent name", by simp [ha]⟩
    · have hw : w = [] := h.resolve_left ha
      exact ⟨"workspace path", by simp [ha, hw]⟩
  · intro d env s i a x h
    unfold RecordWork
    by_cases hs : s = []
    · exact ⟨"session ID", by simp [hs]⟩
    · by_cases hi : i = []
      · exact ⟨"issue ID", by simp [hs, hi]⟩
      · have ha : a = [] := (h.resolve_left hs).resolve_left hi
        exact ⟨"agent name", by simp [hs, hi, ha]⟩
  · intro d env s k i n h
    unfold RecordSkillUsage
    by_cases hs : s = []
    · exact ⟨"session ID", by simp [hs]⟩
    · have hk : k = [] := h.resolve_left hs
      exact ⟨"skill name", by simp [hs, hk]⟩

/-! ## UTF-8 and the JSON round trip of a list of strings -/

theorem byte_val (n : Nat) (h : n < 256) : (byte n).val = n := by
  simp [byte, Nat.mod_eq_of_lt h]

theorem char_isScalar (c : Char) : isScalar c.toNat := by
  have h := c.valid
  unfold isScalar
  simpa [UInt32.isValidChar, Nat.isValidChar, Char.toNat] using h

theorem decodeRune_encodeRune (r : Nat) (h : isScalar r) (rest : GoString) :
    decodeRune (encodeRune r ++ rest) = (r, (encodeRune r).length) := by
  unfold isScalar at h
  unfold encodeRune
  split_ifs with h1 h2 h3 h4
  · simp [decodeRune, byte_val r (by omega), h1]
  · have e0 : (byte (0xC0 + r / 64)).val = 0xC0 + r / 64 := byte_val _ (by omega)
    have e1 : (byte (0x80 + r % 64)).val = 0x80 + r % 64 := byte_val _ (by omega)
    simp only [List.cons_append, List.nil_append, decodeRune, e0, e1, inRange, List.length]
    rw [if_neg (by omega), if_neg (by omega), if_pos (by omega)]
    have c1 : (decide (128 ≤ 128 + r % 64) && decide (128 + r % 64 ≤ 191)) = true := by
      simp; omega
    rw [if_pos c1]
    rw [Prod.mk.injEq]
    exact ⟨by omega, by omega⟩
  · omega
  · have e0 : (byte (0xE0 + r / 4096)).val = 0xE0 + r / 4096 := byte_val _ (by omega)
    have e1 : (byte (0x80 + r / 64 % 64)).val = 0x80 + r / 64 % 64 := byte_val _ (by omega)
    have e2 : (byte (0x80 + r % 64)).val = 0x80 + r % 64 := byte_val _ (by omega)
    simp only [List.cons_append, List.nil_append, decodeRune, e0, e1, e2, inRange, List.length]
    rw [if_neg (by omega), if_neg (by omega), if_neg (by omega), if_pos (by omega)]
    have c1 : (decide ((if 0xE0 + r / 4096 = 0xE0 then 0xA0 else 0x80) ≤ 0x80 + r / 64 % 64) &&
        decide (0x80 + r / 64 % 64 ≤ if 0xE0 + r / 4096 = 0xED then 0x9F else 0xBF) &&
        (decide (0x80 ≤ 0x80 + r % 64) && decide (0x80 + r % 64 ≤ 0xBF))) = true := by
      simp only [Bool.and_eq_true, decide_eq_true_eq]
      split_ifs <;> omega
    rw [if_pos c1]
    rw [Prod.mk.injEq]
    exact ⟨by omega, by omega⟩
  · have e0 : (byte (0xF0 + r / 262144)).val = 0xF0 + r / 262144 := byte_val _ (by omega)
    have e1 : (byte (0x80 + r / 4096 % 64)).val = 0x80 + r / 4096 % 64 := byte_val _ (by omega)
    have e2 : (byte (0x80 + r / 64 % 64)).val = 0x80 + r / 64 % 64 := byte_val _ (by omega)
    have e3 : (byte (0x80 + r % 64)).val = 0x80 + r % 64 := byte_val _ (by omega)
    simp only [List.cons_append, List.nil_append, decodeRune, e0, e1, e2, e3, inRange,
      List.length]
    rw [if_neg (by omega), if_neg (by omega), if_neg (by omega), if_neg (by omega),
      if_pos (by omega)]
    have c1 : (decide ((if 0xF0 + r / 262144 = 0xF0 then 0x90 else 0x80) ≤ 0x80 + r / 4096 % 64) &&
        decide (0x80 + r / 4096 % 64 ≤ if 0xF0 + r / 262144 = 0xF4 then 0x8F else 0xBF) &&
        (decide (0x80 ≤ 0x80 + r / 64 % 64) && decide (0x80 + r / 64 % 64 ≤ 0xBF)) &&
        (decide (0x80 ≤ 0x80 + r % 64) && decide (0x80 + r % 64 ≤ 0xBF))) = true := by
      simp only [Bool.and_eq_true, decide_eq_true_eq]
      split_ifs <;> omega
    rw [if_pos c1]
    rw [Prod.mk.injEq]
    exact ⟨by omega, by omega⟩

theorem byte_of_val (b : Byte) : byte b.val = b := by
  apply Fin.ext
  simp [byte, Nat.mod_eq_of_lt b.isLt]

theorem byte_eq_of_val (b : Byte) (n : Nat) (h : b.val = n) : byte n = b := by
  rw [← h]
  exact byte_of_val b

theorem hexVal_hexDigit (k : Nat) (h : k < 16) : hexVal (hexDigit k) = some k := by
  unfold hexDigit
  split_ifs with h1
  · have e : (byte (48 + k)).val = 48 + k := byte_val _ (by omega)
    unfold hexVal
    rw [e, if_pos (by omega)]
    simp
  · have e : (byte (87 + k)).val = 87 + k := byte_val _ (by omega)
    unfold hexVal
    rw [e, if_neg (by omega), if_pos (by omega)]
    simp

theorem parseStringBody_plain (b : Byte) (rest : GoString) (n : Nat) (h1 : b.val ≠ 34)
    (h2 : b.val ≠ 92) (h3 : 0x20 ≤ b.val) (h4 : b.val < 0x80) :
    parseStringBody (n + 1) (b :: rest) = consOut [b] (parseStringBody n rest) := by
  simp only [parseStringBody]
  rw [if_neg h1, if_neg h2, if_neg (by omega), if_pos h4]

theorem parseStringBody_simple (e c : Byte) (rest : GoString) (n : Nat)
    (hs : simpleEscape e = some c) (he : e.val ≠ 117) :
    parseStringBody (n + 1) (byte 92 :: e :: rest) = consOut [c] (parseStringBody n rest) := by
  have e92 : (byte 92).val = 92 := rfl
  simp only [parseStringBody, e92, if_true, if_neg he, hs]
  rw [if_neg (by decide)]

theorem parseStringBody_u4 (h1 h2 h3 h4 : Byte) (rest : GoString) (n rr : Nat)
    (hg : getu4 (byte 92 :: byte 117 :: h1 :: h2 :: h3 :: h4 :: rest) = some rr)
    (hns : ¬ (0xD800 ≤ rr ∧ rr < 0xE000)) :
    parseStringBody (n + 1) (byte 92 :: byte 117 :: h1 :: h2 :: h3 :: h4 :: rest)
      = consOut (encodeRune rr) (parseStringBody n rest) := by
  have e92 : (byte 92).val = 92 := rfl
  have e117 : (byte 117).val = 117 := rfl
  simp only [parseStringBody, e92, e117, if_true, hg, if_neg hns]
  rw [if_neg (by decide)]
  rfl

theorem parseStringBody_multi (b : Byte) (rest : GoString) (n : Nat) (hb : 0x80 ≤ b.val) :
    parseStringBody (n + 1) (b :: rest) =
      consOut (encodeRune (decodeRune (b :: rest)).1)
        (parseStringBody n ((b :: rest).drop (decodeRune (b :: rest)).2)) := by
  simp only [parseStringBody]
  rw [if_neg (by omega), if_neg (by omega), if_neg (by omega), if_neg (by omega)]

theorem getu4_digits (a b c d : Nat) (ha : a < 16) (hb : b < 16) (hc : c < 16) (hd : d < 16)
    (rest : GoString) :
    getu4 (byte 92 :: byte 117 :: hexDigit a :: hexDigit b :: hexDigit c :: hexDigit d :: rest)
      = some (a * 4096 + b * 256 + c * 16 + d) := by
  have e92 : (byte 92).val = 92 := rfl
  have e117 : (byte 117).val = 117 := rfl
  simp only [getu4, e92, e117, hexVal_hexDigit a ha, hexVal_hexDigit b hb, hexVal_hexDigit c hc,
    hexVal_hexDigit d hd]
  simp

theorem parse_escapeAscii (b : Byte) (hb : b.val < 0x80) (n : Nat) (X : GoString) :
    parseStringBody (n + 1) (escapeAscii b ++ X) = consOut [b] (parseStringBody n X) := by
  unfold escapeAscii
  split_ifs with h1 h2 h3 h4 h5 h6 h7
  · simp only [htmlSafe, Bool.and_eq_true, decide_eq_true_eq, Bool.not_eq_true',
      Bool.or_eq_false_iff, decide_eq_false_iff_not] at h1
    exact parseStringBody_plain b X n (by omega) (by omega) (by omega) (by omega)
  · apply parseStringBody_simple b b X n _ (by omega)
    unfold simpleEscape
    rw [if_pos (by omega)]
  · rw [← byte_eq_of_val b 8 h3]
    exact parseStringBody_simple (byte 98) (byte 8) X n (by decide) (by decide)
  · rw [← byte_eq_of_val b 12 h4]
    exact parseStringBody_simple (byte 102) (byte 12) X n (by decide) (by decide)
  · rw [← byte_eq_of_val b 10 h5]
    exact parseStringBody_simple (byte 110) (byte 10) X n (by decide) (by decide)
  · rw [← byte_eq_of_val b 13 h6]
    exact parseStringBody_simple (byte 114) (byte 13) X n (by decide) (by decide)
  · rw [← byte_eq_of_val b 9 h7]
    exact parseStringBody_simple (byte 116) (byte 9) X n (by decide) (by decide)
  · have hg := getu4_digits 0 0 (b.val / 16) (b.val % 16) (by omega) (by omega) (by omega)
      (by omega) X
    have h0 : hexDigit 0 = byte 48 := rfl
    rw [h0] at hg
    have hval : 0 * 4096 + 0 * 256 + b.val / 16 * 16 + b.val % 16 = b.val := by omega
    rw [hval] at hg
    have := parseStringBody_u4 (byte 48) (byte 48) (hexDigit (b.val / 16)) (hexDigit (b.val % 16))
      X n b.val hg (by omega)
    have henc : encodeRune b.val = [b] := by
      unfold encodeRune
      rw [if_pos hb, byte_of_val]
    rw [henc] at this
    exact this

theorem encodeRune_head (r : Nat) (h : isScalar r) (h80 : 0x80 ≤ r) :
    ∃ b tl, encodeRune r = b :: tl ∧ 0x80 ≤ b.val ∧ 1 ≤ tl.length := by
  unfold isScalar at h
  unfold encodeRune
  split_ifs with h1 h2 h3 h4
  · omega
  · exact ⟨_, _, rfl, by rw [byte_val _ (by omega)]; omega, by simp⟩
  · omega
  · exact ⟨_, _, rfl, by rw [byte_val _ (by omega)]; omega, by simp⟩
  · exact ⟨_, _, rfl, by rw [byte_val _ (by omega)]; omega, by simp⟩

theorem escapeBody_ascii (b : Byte) (rest : GoString) (fuel : Nat) (hb : b.val < 0x80) :
    escapeBody (fuel + 1) (b :: rest) = escapeAscii b ++ escapeBody fuel rest := by
  simp only [escapeBody, if_pos hb]

theorem escapeBody_multi (b : Byte) (rest : GoString) (fuel : Nat) (hb : 0x80 ≤ b.val) :
    escapeBody (fuel + 1) (b :: rest) =
      if (decodeRune (b :: rest)).1 = runeError ∧ (decodeRune (b :: rest)).2 = 1 then
        [byte 92, byte 117, byte 102, byte 102, byte 102, byte 100] ++ escapeBody fuel rest
      else if (decodeRune (b :: rest)).1 = 0x2028 ∨ (decodeRune (b :: rest)).1 = 0x2029 then
        [byte 92, byte 117, byte 50, byte 48, byte 50, hexDigit ((decodeRune (b :: rest)).1 % 16)]
          ++ escapeBody fuel ((b :: rest).drop (decodeRune (b :: rest)).2)
      else (b :: rest).take (decodeRune (b :: rest)).2
          ++ escapeBody fuel ((b :: rest).drop (decodeRune (b :: rest)).2) := by
  simp only [escapeBody, if_neg (show ¬ b.val < 0x80 by omega)]

/-- One step of the encoder on the encoding of a scalar value followed by one
step of the decoder gives the encoding back. -/
theorem parse_escape_step (r : Nat) (h : isScalar r) (fuel n : Nat) (s X : GoString) :
    parseStringBody (n + 1) (escapeBody (fuel + 1) (encodeRune r ++ s) ++ X) =
      consOut (encodeRune r) (parseStringBody n (escapeBody fuel s ++ X)) := by
  by_cases h80 : r < 0x80
  · have henc : encodeRune r = [byte r] := by
      unfold encodeRune
      rw [if_pos h80]
    have hv : (byte r).val = r := byte_val r (by omega)
    rw [henc, List.singleton_append, escapeBody_ascii _ _ _ (by omega), List.append_assoc]
    exact parse_escapeAscii (byte r) (by omega) n _
  · obtain ⟨b, tl, hbt, hb, htl⟩ := encodeRune_head r h (by omega)
    have hdec := decodeRune_encodeRune r h s
    rw [hbt, List.cons_append] at hdec
    have hlen : (b :: tl).length = tl.length + 1 := rfl
    have hdrop : List.drop (b :: tl).length (b :: (tl ++ s)) = s := by
      rw [← List.cons_append, List.drop_left]
    have htake : List.take (b :: tl).length (b :: (tl ++ s)) = b :: tl := by
      rw [← List.cons_append, List.take_left]
    rw [hbt, List.cons_append, escapeBody_multi _ _ _ hb, hdec]
    simp only []
    rw [if_neg (by rw [hlen]; omega), hdrop, htake]
    by_cases h28 : r = 0x2028 ∨ r = 0x2029
    · rw [if_pos h28]
      have hg := getu4_digits 2 0 2 (r % 16) (by omega) (by omega) (by omega) (by omega)
        (escapeBody fuel s ++ X)
      have hval : 2 * 4096 + 0 * 256 + 2 * 16 + r % 16 = r := by omega
      rw [hval] at hg
      have := parseStringBody_u4 (hexDigit 2) (hexDigit 0) (hexDigit 2) (hexDigit (r % 16))
        (escapeBody fuel s ++ X) n r hg (by omega)
      rw [← hbt]
      exact this
    · rw [if_neg h28, List.append_assoc, List.cons_append, parseStringBody_multi b _ n hb]
      have hdecY := decodeRune_encodeRune r h (escapeBody fuel s ++ X)
      rw [hbt, List.cons_append] at hdecY
      have hdropY : List.drop (b :: tl).length (b :: (tl ++ (escapeBody fuel s ++ X)))
          = escapeBody fuel s ++ X := by
        rw [← List.cons_append, List.drop_left]
      rw [hdecY]
      simp only []
      rw [hdropY, hbt]

theorem encodeRune_ne_nil (r : Nat) : encodeRune r ≠ [] := by
  unfold encodeRune
  split_ifs <;> simp

theorem escapeAscii_ne_nil (b : Byte) : escapeAscii b ≠ [] := by
  unfold escapeAscii escapeU00
  split_ifs <;> simp

/-- The encoder writes at least one byte for every scalar value it reads. -/
theorem escapeBody_step (r : Nat) (h : isScalar r) (fuel : Nat) (s : GoString) :
    ∃ piece, piece ≠ [] ∧ escapeBody (fuel + 1) (encodeRune r ++ s) = piece ++ escapeBody fuel s := by
  by_cases h80 : r < 0x80
  · have henc : encodeRune r = [byte r] := by
      unfold encodeRune
      rw [if_pos h80]
    have hv : (byte r).val = r := byte_val r (by omega)
    rw [henc, List.singleton_append, escapeBody_ascii _ _ _ (by omega)]
    exact ⟨_, escapeAscii_ne_nil _, rfl⟩
  · obtain ⟨b, tl, hbt, hb, htl⟩ := encodeRune_head r h (by omega)
    have hdec := decodeRune_encodeRune r h s
    rw [hbt, List.cons_append] at hdec
    have hlen : (b :: tl).length = tl.length + 1 := rfl
    have hdrop : List.drop (b :: tl).length (b :: (tl ++ s)) = s := by
      rw [← List.cons_append, List.drop_left]
    have htake : List.take (b :: tl).length (b :: (tl ++ s)) = b :: tl := by
      rw [← List.cons_append, List.take_left]
    rw [hbt, List.cons_append, escapeBody_multi _ _ _ hb, hdec]
    simp only []
    rw [if_neg (by rw [hlen]; omega), hdrop, htake]
    split_ifs
    · exact ⟨_, by simp, rfl⟩
    · exact ⟨_, by simp, rfl⟩

theorem escapeBody_nil (fuel : Nat) : escapeBody fuel [] = [] := by
  cases fuel <;> rfl

theorem escapeBody_length (cs : List Char) :
    ∀ fuel : Nat, cs.length ≤ fuel →
      cs.length ≤ (escapeBody fuel (cs.flatMap (fun c => encodeRune c.toNat))).length := by
  induction cs with
  | nil => intro fuel _; simp
  | cons c cs ih =>
    intro fuel hf
    obtain ⟨f, rfl⟩ : ∃ f, fuel = f + 1 := ⟨fuel - 1, by simp at hf; omega⟩
    obtain ⟨piece, hp, he⟩ := escapeBody_step c.toNat (char_isScalar c) f
      (cs.flatMap (fun c => encodeRune c.toNat))
    rw [List.flatMap_cons, he, List.length_append]
    have h1 := ih f (by simp at hf; omega)
    have h2 : 1 ≤ piece.length := List.length_pos.mpr hp
    simp only [List.length_cons]
    omega

theorem flatMap_encode_length (cs : List Char) :
    cs.length ≤ (cs.flatMap (fun c => encodeRune c.toNat)).length := by
  induction cs with
  | nil => simp
  | cons c cs ih =>
    rw [List.flatMap_cons, List.length_append]
    have : 1 ≤ (encodeRune c.toNat).length := List.length_pos.mpr (encodeRune_ne_nil _)
    simp only [List.length_cons]
    omega

/-- The decoder run over what the encoder wrote for a valid UTF-8 string
returns the string and stops after the closing quote. -/
theorem parse_escapeBody (cs : List Char) :
    ∀ (fuel n : Nat) (rest : GoString), cs.length ≤ fuel → cs.length + 1 ≤ n →
      parseStringBody n
        (escapeBody fuel (cs.flatMap (fun c => encodeRune c.toNat)) ++ byte 34 :: rest)
        = some (cs.flatMap (fun c => encodeRune c.toNat), rest) := by
  induction cs with
  | nil =>
    intro fuel n rest _ hn
    obtain ⟨m, rfl⟩ : ∃ m, n = m + 1 := ⟨n - 1, by simp at hn; omega⟩
    rw [List.flatMap_nil, escapeBody_nil, List.nil_append]
    simp only [parseStringBody]
    rw [if_pos (show ((byte 34 : Byte) : Nat) = 34 from rfl)]
  | cons c cs ih =>
    intro fuel n rest hf hn
    obtain ⟨f, rfl⟩ : ∃ f, fuel = f + 1 := ⟨fuel - 1, by simp at hf; omega⟩
    obtain ⟨m, rfl⟩ : ∃ m, n = m + 1 := ⟨n - 1, by simp at hn; omega⟩
    rw [List.flatMap_cons, parse_escape_step c.toNat (char_isScalar c) f m,
      ih f m rest (by simp at hf; omega) (by simp at hn; omega)]
    rfl

theorem parseValue_quote (F depth : Nat) (rest : GoString) :
    parseValue (F + 1) depth (byte 34 :: rest) =
      (parseStringBody rest.length rest).map (fun p => (JValue.str p.1, p.2)) := by
  have e34 : (byte 34).val = 34 := rfl
  simp only [parseValue, e34, if_true]
  rw [if_neg (by decide), if_neg (by decide)]

theorem parseValue_appendString (t : String) (rest : GoString) (F depth : Nat) :
    parseValue (F + 1) depth (appendString (utf8 t) ++ rest) = some (JValue.str (utf8 t), rest) := by
  unfold appendString
  rw [List.cons_append, parseValue_quote, List.append_assoc, List.singleton_append]
  unfold utf8
  rw [parse_escapeBody t.data _ _ rest (flatMap_encode_length _)]
  · rfl
  · have := escapeBody_length t.data _ (flatMap_encode_length t.data)
    simp only [List.length_append, List.length_cons]
    omega

theorem skipWS_of_not_space (b : Byte) (rest : GoString) (h : isSpace b = false) :
    skipWS (b :: rest) = b :: rest := by
  simp [skipWS, h]

theorem marshalElems_head (s : GoString) (l : List GoString) :
    ∃ tl, marshalElems (s :: l) = byte 34 :: tl := by
  cases l with
  | nil => exact ⟨_, rfl⟩
  | cons t rest => exact ⟨_, rfl⟩

/-- The array parser run over the elements the encoder wrote for a non-empty
list of valid UTF-8 strings returns the strings and stops after the closing
bracket. -/
theorem parseElems_marshal (L : List String) :
    ∀ (t : String) (F depth : Nat) (rest : GoString), L.length + 2 ≤ F →
      parseElems F depth (marshalElems ((t :: L).map utf8) ++ byte 93 :: rest)
        = some (((t :: L).map utf8).map JValue.str, rest) := by
  induction L with
  | nil =>
    intro t F depth rest hF
    obtain ⟨f, rfl⟩ : ∃ f, F = f + 2 := ⟨F - 2, by simp at hF; omega⟩
    simp only [List.map_cons, List.map_nil, marshalElems]
    rw [parseElems, parseValue_appendString]
    simp only [skipWS_of_not_space (byte 93) rest (by decide)]
    rw [if_pos (show ((byte 93 : Byte) : Nat) = 93 from rfl)]
  | cons u L ih =>
    intro t F depth rest hF
    obtain ⟨f, rfl⟩ : ∃ f, F = f + 2 := ⟨F - 2, by simp at hF; omega⟩
    have hm : marshalElems ((t :: u :: L).map utf8) =
        appendString (utf8 t) ++ byte 44 :: marshalElems ((u :: L).map utf8) := rfl
    rw [hm, List.append_assoc, List.cons_append, parseElems, parseValue_appendString]
    simp only [skipWS_of_not_space (byte 44) _ (by decide)]
    rw [if_neg (by decide), if_pos (show ((byte 44 : Byte) : Nat) = 44 from rfl)]
    obtain ⟨tl, htl⟩ := marshalElems_head (utf8 u) (L.map utf8)
    have hskip : skipWS (marshalElems ((u :: L).map utf8) ++ byte 93 :: rest) =
        marshalElems ((u :: L).map utf8) ++ byte 93 :: rest := by
      rw [List.map_cons, htl, List.cons_append]
      exact skipWS_of_not_space _ _ (by decide)
    rw [hskip, ih u (f + 1) depth rest (by simp at hF ⊢; omega)]
    rfl

theorem mapM_decodeElem_str (l : List GoString) :
    (l.map JValue.str).mapM decodeElem = Except.ok l := by
  induction l with
  | nil => rfl
  | cons a t ih =>
    rw [List.map_cons, List.mapM_cons, ih]
    rfl

theorem marshalElems_length (l : List GoString) : l.length ≤ (marshalElems l).length := by
  induction l with
  | nil => simp
  | cons a t ih =>
    cases t with
    | nil => simp [marshalElems, appendString]
    | cons b t =>
      have hm : marshalElems (a :: b :: t) = appendString a ++ byte 44 :: marshalElems (b :: t) :=
        rfl
      rw [hm, List.length_append]
      simp only [List.length_cons] at ih ⊢
      omega

theorem parseValue_bracket (F : Nat) (tl : GoString) :
    parseValue (F + 1) 0 (byte 91 :: byte 34 :: tl) =
      (parseElems F 1 (byte 34 :: tl)).map (fun p => (JValue.arr p.1, p.2)) := by
  have e91 : (byte 91).val = 91 := rfl
  simp only [parseValue, e91, if_true, skipWS_of_not_space (byte 34) tl (by decide)]
  rw [if_neg (by decide), if_neg (by decide)]

/-- Round trip of `json.Marshal` and `json.Unmarshal` on a non-nil list of
valid UTF-8 strings. -/
theorem jsonUnmarshal_jsonMarshal (L : List String) :
    jsonUnmarshal (jsonMarshal (some (L.map utf8))) = Except.ok (some (L.map utf8)) := by
  cases L with
  | nil => rfl
  | cons t L =>
    obtain ⟨tl, htl⟩ := marshalElems_head (utf8 t) (L.map utf8)
    have hdata : jsonMarshal (some ((t :: L).map utf8)) =
        byte 91 :: (marshalElems ((t :: L).map utf8) ++ [byte 93]) := rfl
    have hl := marshalElems_length ((t :: L).map utf8)
    rw [List.map_cons, htl] at hl
    have hE := parseElems_marshal L t (2 * (byte 91 :: (byte 34 :: tl ++ [byte 93])).length) 1 []
      (by
        simp only [List.length_cons, List.length_append, List.length_map, List.length_nil] at hl ⊢
        omega)
    have hparse : parseJSON (jsonMarshal (some ((t :: L).map utf8))) =
        some (JValue.arr (((t :: L).map utf8).map JValue.str)) := by
      unfold parseJSON
      rw [hdata, skipWS_of_not_space _ _ (by decide)]
      rw [List.map_cons] at hE ⊢
      rw [htl] at hE ⊢
      rw [List.cons_append, parseValue_bracket, ← List.cons_append, hE]
      rfl
    unfold jsonUnmarshal
    rw [hparse]
    simp only [mapM_decodeElem_str]
    rfl

theorem exists_strings_of_valid (L : List GoString) (h : ∀ s ∈ L, ValidUTF8 s) :
    ∃ L2 : List String, L2.map utf8 = L := by
  induction L with
  | nil => exact ⟨[], rfl⟩
  | cons a t ih =>
    obtain ⟨x, hx⟩ := h a (List.mem_cons_self a t)
    obtain ⟨t2, ht2⟩ := ih (fun s hs => h s (List.mem_cons_of_mem a hs))
    exact ⟨x :: t2, by rw [List.map_cons, ht2, hx]⟩

/-- What the lenient decoding of `GetSession` makes of the JSON text of a list
of valid UTF-8 strings, nil or not: the list itself. -/
theorem decodeList_jsonMarshal (L : Option (List GoString))
    (h : ∀ s ∈ elems L, ValidUTF8 s) : decodeList (jsonMarshal L) = L := by
  cases L with
  | none => rfl
  | some l =>
    obtain ⟨l2, rfl⟩ := exists_strings_of_valid l h
    unfold decodeList
    rw [jsonUnmarshal_jsonMarshal]

/-! ## Reading a session back -/

theorem GetSession_ok (d : Database) (id : GoString) (s : Session)
    (h : GetSession (some d) id = Except.ok s) :
    ∃ r ∈ d.sessions, r.session_id = id ∧ scanSession "get session" r = Except.ok s := by
  unfold GetSession at h
  simp only at h
  split_ifs at h with hid
  split at h
  · cases h
  · rename_i r hfind
    have hmem := List.mem_of_find?_eq_some hfind
    have hp := List.find?_some hfind
    exact ⟨r, hmem, by simpa using hp, h⟩

theorem scanSession_ok (what : String) (r : SessionRow) (s : Session)
    (h : scanSession what r = Except.ok s) :
    ∃ issues skills started,
      r.issues_claimed = some issues ∧ r.skills_used = some skills ∧
      parseTime r.started_at = some started ∧
      parseNullableTime r.ended_at = some s.EndedAt ∧
      s.StartedAt = started ∧ s.IssuesClaimed = decodeList issues ∧
      s.SkillsUsed = decodeList skills ∧ s.SessionID = r.session_id := by
  unfold scanSession at h
  split at h
  · rename_i issues skills tokens created hi hs ht hc
    split at h
    · cases h
    · rename_i started hst
      split at h
      · cases h
      · rename_i ended hen
        split at h
        · cases h
        · rename_i createdAt hcr
          injection h with h
          subst h
          exact ⟨issues, skills, started, hi, hs, hst, hen, rfl, rfl, rfl, rfl⟩
  · cases h

theorem countP_pos_of_exists (d : Database) (id : GoString)
    (hex : ∃ r ∈ d.sessions, r.session_id = id) :
    d.sessions.countP (fun r => decide (r.session_id = id)) ≠ 0 := by
  obtain ⟨r, hr, hrid⟩ := hex
  exact countP_ne_zero_of_match _ _ r hr (by simp [hrid])

/-! ## Replacing and reading back the list columns -/

/-- C5 as stated fails: after UpdateSessionIssues with a list A and then with
the list B of the one string `ok` and the one-byte string 0xFF (not valid
UTF-8), GetSession succeeds and its IssuesClaimed is not B: the second
element comes back as the three bytes of U+FFFD. -/
theorem issues_readback_differs_on_invalid_utf8 :
    ∃ s, GetSession
        (UpdateSessionIssues (UpdateSessionIssues (some demoDB) (utf8 "s1")
          (some [utf8 "a", utf8 "b"])).2 (utf8 "s1") (some [utf8 "ok", [byte 255]])).2
        (utf8 "s1") = Except.ok s ∧
      s.IssuesClaimed = some [utf8 "ok", [byte 239, byte 191, byte 189]] ∧
      elems s.IssuesClaimed ≠ [utf8 "ok", [byte 255]] :=
  ⟨_, rfl, rfl, by decide⟩

/-- C6 as stated fails: the JSON text UpdateSessionSkills writes for the list
of the one-byte string 0xFF is `["\ufffd"]`, which the list decoding of
GetSession reads as the three-byte string of U+FFFD, not as the string that
was written. -/
theorem skills_roundtrip_fails_on_invalid_utf8 :
    (UpdateSessionSkills (some demoDB) (utf8 "s1") (some [[byte 255]])).2 =
      some { demoDB with sessions :=
        [{ demoSessionRFC with skills_used := some (utf8 "[\"\\ufffd\"]") }] } ∧
    decodeList (utf8 "[\"\\ufffd\"]") = some [[byte 239, byte 191, byte 189]] ∧
    decodeList (utf8 "[\"\\ufffd\"]") ≠ some [[byte 255]] := by
  refine ⟨by decide, by decide, by decide⟩


theorem mem_updated_sessions (rows : List SessionRow) (id : GoString) (f : SessionRow → SessionRow)
    (x : SessionRow)
    (hx : x ∈ rows.map (fun r => if decide (r.session_id = id) then f r else r))
    (hxid : x.session_id = id) : ∃ r ∈ rows, r.session_id = id ∧ x = f r := by
  rw [List.mem_map] at hx
  obtain ⟨r, hr, rfl⟩ := hx
  by_cases h : r.session_id = id
  · exact ⟨r, hr, h, by simp [h]⟩
  · simp [h] at hxid

theorem exists_updated_session (rows : List SessionRow) (id : GoString)
    (f : SessionRow → SessionRow) (hf : ∀ r, (f r).session_id = r.session_id)
    (hex : ∃ r ∈ rows, r.session_id = id) :
    ∃ r ∈ rows.map (fun r => if decide (r.session_id = id) then f r else r),
      r.session_id = id := by
  obtain ⟨r, hr, hrid⟩ := hex
  refine ⟨f r, ?_, by rw [hf, hrid]⟩
  rw [List.mem_map]
  exact ⟨r, hr, by simp [hrid]⟩

/-- C5 (amended): on an existing session, UpdateSessionIssues with any list A
followed by UpdateSessionIssues with a list B both succeed and leave in
`issues_claimed` exactly the JSON text of B, whatever A was; when the strings
of B are valid UTF-8, a successful GetSession returns exactly B as
IssuesClaimed (nil for nil). -/
theorem issues_replaced_not_appended (d : Database) (id : GoString)
    (A B : Option (List GoString)) (hid : id ≠ [])
    (hex : ∃ r ∈ d.sessions, r.session_id = id) :
    (UpdateSessionIssues (some d) id A).1 = Except.ok () ∧
    (UpdateSessionIssues (UpdateSessionIssues (some d) id A).2 id B).1 = Except.ok () ∧
    ∃ d2, (UpdateSessionIssues (UpdateSessionIssues (some d) id A).2 id B).2 = some d2 ∧
      (∀ r ∈ d2.sessions, r.session_id = id → r.issues_claimed = some (jsonMarshal B)) ∧
      ((∀ s ∈ elems B, ValidUTF8 s) →
        ∀ s, GetSession (some d2) id = Except.ok s → s.IssuesClaimed = B) := by
  have h1 := countP_pos_of_exists d id hex
  have hex2 := exists_updated_session d.sessions id
    (fun r => { r with issues_claimed := some (jsonMarshal A) }) (fun _ => rfl) hex
  have h2 := countP_pos_of_exists
    { d with sessions := d.sessions.map (fun r =>
        if decide (r.session_id = id) then { r with issues_claimed := some (jsonMarshal A) }
        else r) } id hex2
  rw [UpdateSessionIssues_some d id A hid]
  simp only [h1, if_false]
  rw [UpdateSessionIssues_some _ id _ hid]
  simp only [h2, if_false, true_and]
  refine ⟨_, rfl, ?_, ?_⟩
  · intro r hr hrid
    obtain ⟨r0, _, _, rfl⟩ := mem_updated_sessions _ id
      (fun r => { r with issues_claimed := some (jsonMarshal B) }) r hr hrid
    rfl
  · intro hB s hs
    obtain ⟨r, hr, hrid, hscan⟩ := GetSession_ok _ id s hs
    obtain ⟨r0, _, _, rfl⟩ := mem_updated_sessions _ id
      (fun r => { r with issues_claimed := some (jsonMarshal B) }) r hr hrid
    obtain ⟨issues, _, _, hi, _, _, _, _, hdec, _, _⟩ := scanSession_ok _ _ s hscan
    simp only [Option.some.injEq] at hi
    rw [hdec, ← hi, decodeList_jsonMarshal B hB]

/-- C5 (amended), on the example database: the session `s1` exists, and after
the lists [a, b] and then [x] GetSession returns [x]. -/
theorem issues_replaced_not_appended_witness :
    utf8 "s1" ≠ [] ∧ (∃ r ∈ demoDB.sessions, r.session_id = utf8 "s1") ∧
    (∀ s ∈ elems (some [utf8 "x"]), ValidUTF8 s) ∧
    ∃ s, GetSession
        (UpdateSessionIssues (UpdateSessionIssues (some demoDB) (utf8 "s1")
          (some [utf8 "a", utf8 "b"])).2 (utf8 "s1") (some [utf8 "x"])).2
        (utf8 "s1") = Except.ok s ∧ s.IssuesClaimed = some [utf8 "x"] := by
  have hv : ∀ s ∈ elems (some [utf8 "x"]), ValidUTF8 s := by
    intro s hs
    have hsx : s = utf8 "x" := by simpa [elems] using hs
    exact ⟨"x", hsx⟩
  have h := issues_replaced_not_appended demoDB (utf8 "s1") (some [utf8 "a", utf8 "b"])
    (some [utf8 "x"]) (by decide) ⟨demoSessionRFC, by decide, by decide⟩
  obtain ⟨_, _, d2, hd2, _, hget⟩ := h
  refine ⟨by decide, ⟨demoSessionRFC, by decide, by decide⟩, hv, ?_⟩
  rw [hd2]
  have hs : ∃ s, GetSession (some d2) (utf8 "s1") = Except.ok s := by
    rw [← hd2]
    exact ⟨_, rfl⟩
  obtain ⟨s, hs⟩ := hs
  exact ⟨s, hs, hget hv s hs⟩

/-- C6 (amended): for every list L of valid UTF-8 strings (any length, order
and content, duplicates allowed; nil or not), the JSON text
UpdateSessionSkills writes into `skills_used` of the session is read back by
the list decoding of GetSession as exactly L, and a successful GetSession
returns exactly L as SkillsUsed. -/
theorem skills_roundtrip_valid_utf8 (d : Database) (id : GoString)
    (L : Option (List GoString)) (hid : id ≠ []) (hL : ∀ s ∈ elems L, ValidUTF8 s) :
    ∃ d2, (UpdateSessionSkills (some d) id L).2 = some d2 ∧
      (∀ r ∈ d2.sessions, r.session_id = id →
        ∃ text, r.skills_used = some text ∧ decodeList text = L) ∧
      (∀ s, GetSession (some d2) id = Except.ok s → s.SkillsUsed = L) := by
  rw [UpdateSessionSkills_some d id _ hid]
  refine ⟨_, rfl, ?_, ?_⟩
  · intro r hr hrid
    obtain ⟨r0, _, _, rfl⟩ := mem_updated_sessions _ id
      (fun r => { r with skills_used := some (jsonMarshal L) }) r hr hrid
    exact ⟨_, rfl, decodeList_jsonMarshal L hL⟩
  · intro s hs
    obtain ⟨r, hr, hrid, hscan⟩ := GetSession_ok _ id s hs
    obtain ⟨r0, _, _, rfl⟩ := mem_updated_sessions _ id
      (fun r => { r with skills_used := some (jsonMarshal L) }) r hr hrid
    obtain ⟨_, skills, _, _, hsk, _, _, _, _, hdec, _⟩ := scanSession_ok _ _ s hscan
    simp only [Option.some.injEq] at hsk
    rw [hdec, ← hsk, decodeList_jsonMarshal L hL]

/-- C6 (amended), on the example database: a list with a duplicate, an
escaped quote, a control character, an accented letter and an emoji comes
back unchanged. -/
theorem skills_roundtrip_valid_utf8_witness :
    utf8 "s1" ≠ [] ∧
    (∀ s ∈ elems (some [utf8 "dep", utf8 "dep", utf8 "a\"b\n", utf8 "é 😀"]), ValidUTF8 s) ∧
    ∃ s, GetSession
        (UpdateSessionSkills (some demoDB) (utf8 "s1")
          (some [utf8 "dep", utf8 "dep", utf8 "a\"b\n", utf8 "é 😀"])).2 (utf8 "s1")
        = Except.ok s ∧
      s.SkillsUsed = some [utf8 "dep", utf8 "dep", utf8 "a\"b\n", utf8 "é 😀"] := by
  have hv : ∀ s ∈ elems (some [utf8 "dep", utf8 "dep", utf8 "a\"b\n", utf8 "é 😀"]),
      ValidUTF8 s := by
    intro s hs
    have hsx : s ∈ [utf8 "dep", utf8 "dep", utf8 "a\"b\n", utf8 "é 😀"] := hs
    simp only [List.mem_cons, List.mem_singleton, List.not_mem_nil, or_false] at hsx
    rcases hsx with h | h | h | h
    · exact ⟨"dep", h⟩
    · exact ⟨"dep", h⟩
    · exact ⟨"a\"b\n", h⟩
    · exact ⟨"é 😀", h⟩
  have h := skills_roundtrip_valid_utf8 demoDB (utf8 "s1")
    (some [utf8 "dep", utf8 "dep", utf8 "a\"b\n", utf8 "é 😀"]) (by decide) hv
  obtain ⟨d2, hd2, _, hget⟩ := h
  refine ⟨by decide, hv, ?_⟩
  rw [hd2]
  have hs : ∃ s, GetSession (some d2) (utf8 "s1") = Except.ok s := by
    rw [← hd2]
    exact ⟨_, rfl⟩
  obtain ⟨s, hs⟩ := hs
  exact ⟨s, hs, hget s hs⟩

/-! ## Statistics -/

/-- C2: whenever GetIssueStats succeeds, IsCompleted is true exactly when some
work row of the issue has `completed` true, whatever the other rows of the
issue are. -/
theorem issueStats_completed_iff (d : Database) (E : DateFns) (issue : GoString)
    (stats : IssueStats) (h : GetIssueStats (some d) E issue = Except.ok stats) :
    stats.IsCompleted = true ↔ ∃ r ∈ d.work, r.issue_id = issue ∧ r.completed = some true := by
  unfold GetIssueStats at h
  simp only at h
  split_ifs at h with hid
  split at h
  · cases h
  · rename_i c cs hc
    split at h
    · cases h
    · rename_i breakdown hb
      injection h with h
      subst h
      simp only [List.any_eq_true]
      rw [← hc]
      constructor
      · rintro ⟨b, hb, hbt⟩
        rw [List.mem_filterMap] at hb
        obtain ⟨r, hr, hrc⟩ := hb
        rw [List.mem_filter] at hr
        exact ⟨r, hr.1, by simpa using hr.2, by rw [hrc, hbt]⟩
      · rintro ⟨r, hr, hri, hrc⟩
        refine ⟨true, ?_, rfl⟩
        rw [List.mem_filterMap]
        exact ⟨r, List.mem_filter.mpr ⟨hr, by simpa using hri⟩, hrc⟩

set_option maxRecDepth 100000 in
/-- C2, on the example database with one open and one completed work row on
`issue-1`: GetIssueStats succeeds and reports the issue completed. -/
theorem issueStats_completed_iff_witness :
    ∃ stats, GetIssueStats (some demoDB2) (sqliteDates demoEnv.sqlNow) (utf8 "issue-1")
        = Except.ok stats ∧
      (stats.IsCompleted = true ↔
        ∃ r ∈ demoDB2.work, r.issue_id = utf8 "issue-1" ∧ r.completed = some true) := by
  have h : ∃ stats, GetIssueStats (some demoDB2) (sqliteDates demoEnv.sqlNow) (utf8 "issue-1")
      = Except.ok stats := ⟨_, rfl⟩
  obtain ⟨stats, hs⟩ := h
  exact ⟨stats, hs, issueStats_completed_iff _ _ _ stats hs⟩

theorem filter_eq_nil_of_none {ρ : Type} (rows : List ρ) (p : ρ → Bool)
    (h : ∀ r ∈ rows, p r = false) : rows.filter p = [] := by
  rw [List.filter_eq_nil_iff]
  intro r hr
  simp [h r hr]

/-- C3 (what the code does): when no row matches, GetAgentStats,
GetIssueStats and GetOverallStats fail, because an aggregate that is NULL over
no row (`SUM(CASE ...)`, `MAX(completed)`) is scanned into a Go `int`; only
GetSkillStats succeeds, with every count and the average at zero. -/
theorem stats_without_rows (d : Database) (E : DateFns) (a i k : GoString) (since : Time)
    (ha : a ≠ []) (hi : i ≠ []) (hk : k ≠ []) :
    ((∀ r ∈ d.sessions, ¬ (r.agent_name = a ∧ strLE (formatTime since) r.started_at = true)) →
      GetAgentStats (some d) E a since = Except.error (Err.failed "get session counts")) ∧
    ((∀ r ∈ d.work, r.issue_id ≠ i) →
      GetIssueStats (some d) E i = Except.error (Err.failed "get issue counts")) ∧
    ((∀ r ∈ d.sessions, strLE (formatTime since) r.started_at = false) →
      GetOverallStats (some d) since = Except.error (Err.failed "get session counts")) ∧
    ((∀ u ∈ d.skillUsage, u.skill_name ≠ k) →
      GetSkillStats (some d) k since = Except.ok
        { SkillName := k, TotalUses := 0, UniqueSessions := 0, UniqueAgents := 0,
          TotalContext := 0, AvgContext := F64.zero, TopAgents := [], Since := since }) := by
  refine ⟨?_, ?_, ?_, ?_⟩
  · intro h
    have hrows : d.sessions.filter
        (fun r => decide (r.agent_name = a) && strLE (formatTime since) r.started_at) = [] := by
      apply filter_eq_nil_of_none
      intro r hr
      have := h r hr
      by_cases h1 : r.agent_name = a
      · simp only [h1, true_and, Bool.not_eq_true] at this
        simp [h1, this]
      · simp [h1]
    unfold GetAgentStats
    simp only [ha, if_false, hrows]
    rfl
  · intro h
    have hrows : d.work.filter (fun r => decide (r.issue_id = i)) = [] := by
      apply filter_eq_nil_of_none
      intro r hr
      simpa using h r hr
    unfold GetIssueStats
    simp only [hi, if_false, hrows]
    rfl
  · intro h
    have hrows : d.sessions.filter (fun r => strLE (formatTime since) r.started_at) = [] :=
      filter_eq_nil_of_none _ _ h
    unfold GetOverallStats
    simp only [hrows]
    rfl
  · intro h
    have huses : (joinSessions d.skillUsage (fun u => u.session_id) d.sessions).filter
        (fun p => decide (p.1.skill_name = k) && strLE (formatTime since) p.1.loaded_at) = [] := by
      apply filter_eq_nil_of_none
      intro p hp
      unfold joinSessions at hp
      rw [List.mem_flatMap] at hp
      obtain ⟨u, hu, hpu⟩ := hp
      rw [List.mem_map] at hpu
      obtain ⟨x, _, rfl⟩ := hpu
      simp [h u hu]
    unfold GetSkillStats
    simp only [hk, if_false, huses]
    rfl

/-- C3, on empty tables: the three statistics functions fail and GetSkillStats
returns zeros. -/
theorem stats_without_rows_witness :
    GetAgentStats (some emptyDB) (sqliteDates demoEnv.sqlNow) (utf8 "agentX") ⟨0, 0⟩
      = Except.error (Err.failed "get session counts") ∧
    GetIssueStats (some emptyDB) (sqliteDates demoEnv.sqlNow) (utf8 "issue-1")
      = Except.error (Err.failed "get issue counts") ∧
    GetOverallStats (some emptyDB) ⟨0, 0⟩ = Except.error (Err.failed "get session counts") ∧
    GetSkillStats (some emptyDB) (utf8 "dep-thinking") ⟨0, 0⟩ = Except.ok
      { SkillName := utf8 "dep-thinking", TotalUses := 0, UniqueSessions := 0, UniqueAgents := 0,
        TotalContext := 0, AvgContext := F64.zero, TopAgents := [], Since := ⟨0, 0⟩ } := by
  have h := stats_without_rows emptyDB (sqliteDates demoEnv.sqlNow) (utf8 "agentX")
    (utf8 "issue-1") (utf8 "dep-thinking") ⟨0, 0⟩ (by decide) (by decide) (by decide)
  exact ⟨h.1 (by decide), h.2.1 (by decide), h.2.2.1 (by decide), h.2.2.2 (by decide)⟩

/-! ## The calendar -/

set_option maxRecDepth 100000 in
theorem monthDay_spec_all : ∀ leap : Bool, ∀ yday : Fin 366,
    yday.val < 365 + (if leap then 1 else 0) →
      1 ≤ (monthDay leap yday.val).1 ∧ (monthDay leap yday.val).1 ≤ 12 ∧
      1 ≤ (monthDay leap yday.val).2 ∧
      (monthDay leap yday.val).2 ≤
        (if (monthDay leap yday.val).1 = 2 ∧ leap = true then 29
         else daysBefore (monthDay leap yday.val).1 - daysBefore ((monthDay leap yday.val).1 - 1)) ∧
      daysBefore ((monthDay leap yday.val).1 - 1)
        + (if leap = true ∧ 3 ≤ (monthDay leap yday.val).1 then 1 else 0)
        + (monthDay leap yday.val).2 = yday.val + 1 := by
  decide

theorem yearDay_arith (d : Int) :
    ∃ q n100 n4 n1 yd : Int,
      (yearDay (d - 719162)).1 = 1 + 400 * q + 100 * n100 + 4 * n4 + n1 ∧
      ((yearDay (d - 719162)).2 : Int) = yd ∧
      0 ≤ n100 ∧ n100 ≤ 3 ∧ 0 ≤ n4 ∧ n4 ≤ 24 ∧ 0 ≤ n1 ∧ n1 ≤ 3 ∧ 0 ≤ yd ∧
      d = 146097 * q + 36524 * n100 + 1461 * n4 + 365 * n1 + yd ∧
      (yd < 365 ∨ (yd = 365 ∧ n1 = 3 ∧ (n4 < 24 ∨ n100 = 3))) := by
  unfold yearDay
  simp only [sub_add_cancel]
  have hq := Int.ediv_add_emod d 146097
  have h1 := Int.emod_nonneg d (by norm_num : (146097 : Int) ≠ 0)
  have h2 := Int.emod_lt_of_pos d (by norm_num : (0 : Int) < 146097)
  generalize d / 146097 = q at *
  generalize d % 146097 = d1 at *
  have hc : d1 / 36524 = 0 ∨ d1 / 36524 = 1 ∨ d1 / 36524 = 2 ∨ d1 / 36524 = 3 ∨ d1 / 36524 = 4 := by
    omega
  have hcb := Int.ediv_add_emod d1 36524
  have hcb1 := Int.emod_nonneg d1 (by norm_num : (36524 : Int) ≠ 0)
  have hcb2 := Int.emod_lt_of_pos d1 (by norm_num : (0 : Int) < 36524)
  generalize d1 % 36524 = r1 at *
  generalize hcdef : d1 / 36524 = c at *
  have hn100 : c - c / 4 = (if c = 4 then 3 else c) := by
    rcases hc with rfl | rfl | rfl | rfl | rfl <;> norm_num
  rw [hn100]
  generalize hn : (if c = 4 then (3 : Int) else c) = n100 at *
  have hn100b : 0 ≤ n100 ∧ n100 ≤ 3 := by
    rcases hc with rfl | rfl | rfl | rfl | rfl <;> simp at hn <;> omega
  have hd2 : 0 ≤ d1 - 36524 * n100 ∧ d1 - 36524 * n100 ≤ 36524 ∧
      (d1 - 36524 * n100 = 36524 → n100 = 3) := by
    rcases hc with rfl | rfl | rfl | rfl | rfl <;> simp at hn <;> omega
  generalize hd2def : d1 - 36524 * n100 = d2 at *
  have h4 := Int.ediv_add_emod d2 1461
  have h4a := Int.emod_nonneg d2 (by norm_num : (1461 : Int) ≠ 0)
  have h4b := Int.emod_lt_of_pos d2 (by norm_num : (0 : Int) < 1461)
  generalize d2 / 1461 = n4 at *
  generalize d2 % 1461 = d3 at *
  have hk : d3 / 365 = 0 ∨ d3 / 365 = 1 ∨ d3 / 365 = 2 ∨ d3 / 365 = 3 ∨ d3 / 365 = 4 := by
    omega
  have hkb := Int.ediv_add_emod d3 365
  have hkb1 := Int.emod_nonneg d3 (by norm_num : (365 : Int) ≠ 0)
  have hkb2 := Int.emod_lt_of_pos d3 (by norm_num : (0 : Int) < 365)
  generalize d3 % 365 = r3 at *
  generalize d3 / 365 = k at *
  have hn1 : k - k / 4 = (if k = 4 then 3 else k) := by
    rcases hk with rfl | rfl | rfl | rfl | rfl <;> norm_num
  rw [hn1]
  generalize hm : (if k = 4 then (3 : Int) else k) = n1 at *
  have hn1b : 0 ≤ n1 ∧ n1 ≤ 3 ∧ 0 ≤ d3 - 365 * n1 ∧
      (d3 - 365 * n1 < 365 ∨ (d3 - 365 * n1 = 365 ∧ n1 = 3 ∧ d3 = 1460)) := by
    rcases hk with rfl | rfl | rfl | rfl | rfl <;> simp at hm <;> omega
  refine ⟨q, n100, n4, n1, d3 - 365 * n1, rfl, ?_, hn100b.1, hn100b.2, by omega, by omega,
    hn1b.1, hn1b.2.1, hn1b.2.2.1, by omega, ?_⟩
  · exact Int.toNat_of_nonneg hn1b.2.2.1
  · rcases hn1b.2.2.2 with h | ⟨h, h3, h1460⟩
    · exact Or.inl h
    · refine Or.inr ⟨h, h3, ?_⟩
      by_cases h24 : n4 < 24
      · exact Or.inl h24
      · exact Or.inr (hd2.2.2 (by omega))


theorem yearDay_spec (n : Int) :
    daysBeforeYear (yearDay n).1 + (yearDay n).2 = n ∧
    (yearDay n).2 < 365 + (if isLeap (yearDay n).1 then 1 else 0) := by
  obtain ⟨q, n100, n4, n1, yd, hy, hyd, h1, h2, h3, h4, h5, h6, h7, hd, hl⟩ :=
    yearDay_arith (n + 719162)
  simp only [add_sub_cancel_right] at hy hyd
  generalize yearDay n = p at hy hyd ⊢
  obtain ⟨y, ydn⟩ := p
  simp only at hy hyd ⊢
  subst hy
  have hleap : isLeap (1 + 400 * q + 100 * n100 + 4 * n4 + n1) = true ↔
      (n1 = 3 ∧ (n4 < 24 ∨ n100 = 3)) := by
    unfold isLeap
    simp only [Bool.and_eq_true, Bool.or_eq_true, decide_eq_true_eq, ne_eq]
    constructor
    · rintro ⟨h4m, h⟩
      have hn1 : n1 = 3 := by omega
      refine ⟨hn1, ?_⟩
      by_contra hc
      rcases h with h | h <;> omega
    · rintro ⟨hn1, h⟩
      refine ⟨by omega, ?_⟩
      rcases h with h | h
      · left; omega
      · by_cases h24 : n4 = 24
        · right; omega
        · left; omega
  constructor
  · unfold daysBeforeYear
    omega
  · by_cases hl2 : isLeap (1 + 400 * q + 100 * n100 + 4 * n4 + n1) = true
    · rw [if_pos hl2]
      omega
    · rw [if_neg hl2]
      rcases hl with h | ⟨_, h13, h⟩
      · omega
      · exact absurd (hleap.mpr ⟨h13, h⟩) hl2

theorem monthDay_spec (leap : Bool) (yday : Nat)
    (h : yday < 365 + (if leap then 1 else 0)) :
    1 ≤ (monthDay leap yday).1 ∧ (monthDay leap yday).1 ≤ 12 ∧
    1 ≤ (monthDay leap yday).2 ∧
    (monthDay leap yday).2 ≤
      (if (monthDay leap yday).1 = 2 ∧ leap = true then 29
       else daysBefore (monthDay leap yday).1 - daysBefore ((monthDay leap yday).1 - 1)) ∧
    daysBefore ((monthDay leap yday).1 - 1)
      + (if leap = true ∧ 3 ≤ (monthDay leap yday).1 then 1 else 0)
      + (monthDay leap yday).2 = yday + 1 := by
  have h366 : yday < 366 := by
    split_ifs at h <;> omega
  exact monthDay_spec_all leap ⟨yday, h366⟩ h

/-- The calendar fields of a second are in range, and Go `Date` maps them back
to the second. -/
theorem civilOfUnix_spec (u : Int) :
    1 ≤ (civilOfUnix u).month ∧ (civilOfUnix u).month ≤ 12 ∧
    1 ≤ (civilOfUnix u).day ∧ (civilOfUnix u).day ≤ daysIn (civilOfUnix u).month (civilOfUnix u).year ∧
    (civilOfUnix u).hour < 24 ∧ (civilOfUnix u).minute < 60 ∧ (civilOfUnix u).second < 60 ∧
    unixOfCivil (civilOfUnix u) = u := by
  have hy := yearDay_spec (u / 86400)
  have hm := monthDay_spec (isLeap (yearDay (u / 86400)).1) (yearDay (u / 86400)).2 hy.2
  unfold civilOfUnix unixOfCivil daysFromCivil daysIn
  simp only
  generalize yearDay (u / 86400) = p at hy hm ⊢
  obtain ⟨y, yd⟩ := p
  simp only at hy hm ⊢
  obtain ⟨hm1, hm2, hd1, hd2, hsum⟩ := hm
  have hr0 : 0 ≤ u % 86400 := Int.emod_nonneg u (by norm_num)
  have hr1 : u % 86400 < 86400 := Int.emod_lt_of_pos u (by norm_num)
  have hr : (((u % 86400).toNat : Nat) : Int) = u % 86400 := Int.toNat_of_nonneg hr0
  generalize (u % 86400).toNat = r at hr ⊢
  refine ⟨hm1, hm2, hd1, hd2, by omega, by omega, by omega, ?_⟩
  have hsum2 : ((daysBefore ((monthDay (isLeap y) yd).1 - 1) : Nat) : Int)
      + (if isLeap y = true ∧ 3 ≤ (monthDay (isLeap y) yd).1 then (1 : Int) else 0)
      + ((monthDay (isLeap y) yd).2 : Int) = (yd : Int) + 1 := by
    have := congrArg (fun x : Nat => (x : Int)) hsum
    simp only [Nat.cast_add, Nat.cast_one] at this
    rw [← this]
    split_ifs <;> simp
  have hdiv := Int.ediv_add_emod u 86400
  omega

/-! ## Printing and parsing the fields of a timestamp -/

theorem digit_val (n : Nat) : (digit n).val = 48 + n % 10 := by
  unfold digit
  exact byte_val _ (by omega)

theorem isDigit_digit (n : Nat) : isDigit (digit n) = true := by
  unfold isDigit
  rw [digit_val]
  simp only [Bool.and_eq_true, decide_eq_true_eq]
  omega

theorem getnum_pad2 (n : Nat) (h : n < 100) (fixed : Bool) (rest : GoString) :
    getnum (pad2 n ++ rest) fixed = some (n, rest) := by
  unfold pad2 getnum
  simp only [List.cons_append, List.nil_append, isDigit_digit, if_true, digit_val]
  congr 2
  omega

theorem expect_byte (c : Nat) (h : c < 256) (rest : GoString) :
    expect c (byte c :: rest) = some rest := by
  unfold expect
  simp only [byte_val c h, if_true]

theorem appendYear_of_range (y : Int) (h0 : 0 ≤ y) (h1 : y ≤ 9999) :
    appendYear y = [digit (y.natAbs / 1000), digit (y.natAbs / 100), digit (y.natAbs / 10),
      digit y.natAbs] := by
  unfold appendYear
  simp only
  rw [if_neg (by omega), if_pos (by omega)]
  rfl

theorem parseYear_appendYear (y : Int) (h0 : 0 ≤ y) (h1 : y ≤ 9999) (rest : GoString) :
    parseYear (appendYear y ++ rest) = some (y, rest) := by
  rw [appendYear_of_range y h0 h1]
  unfold parseYear
  simp only [List.cons_append, List.nil_append, isDigit_digit, and_self, if_true, digit_val]
  congr 2
  omega

theorem parseDate_format (y : Int) (m d : Nat) (h0 : 0 ≤ y) (h1 : y ≤ 9999) (hm1 : 1 ≤ m)
    (hm2 : m ≤ 12) (hd : d < 100) (rest : GoString) :
    parseDate (appendYear y ++ [byte 45] ++ pad2 m ++ [byte 45] ++ pad2 d ++ rest)
      = some (⟨y, m, d, 0, 0, 0⟩, rest) := by
  unfold parseDate
  simp only [List.append_assoc, List.singleton_append, List.cons_append, List.nil_append]
  rw [parseYear_appendYear y h0 h1]
  simp only [expect_byte 45 (by omega), getnum_pad2 m (by omega), getnum_pad2 d hd]
  rw [if_neg (by omega)]

theorem parseClock_format (c : Civil) (h mi s : Nat) (hh : h < 24) (hmi : mi < 60) (hs : s < 60)
    (rest : GoString) :
    parseClock c (pad2 h ++ [byte 58] ++ pad2 mi ++ [byte 58] ++ pad2 s ++ rest)
      = some (⟨c.year, c.month, c.day, h, mi, s⟩, rest) := by
  unfold parseClock
  simp only [List.append_assoc, List.singleton_append, List.cons_append, List.nil_append]
  simp only [expect_byte 58 (by omega), getnum_pad2 h (by omega), getnum_pad2 mi (by omega),
    getnum_pad2 s (by omega)]
  rw [if_neg (by omega), if_neg (by omega), if_neg (by omega)]

/-- Parsing what `Format` prints for calendar fields in range, with a year of
four digits, gives the second those fields denote, in UTC. -/
theorem parseTime_formatCivil (c : Civil) (h0 : 0 ≤ c.year) (h1 : c.year ≤ 9999)
    (hm1 : 1 ≤ c.month) (hm2 : c.month ≤ 12) (hd1 : 1 ≤ c.day)
    (hd2 : c.day ≤ daysIn c.month c.year) (hh : c.hour < 24) (hmi : c.minute < 60)
    (hs : c.second < 60) :
    parseTime (formatCivil c) = some ⟨unixOfCivil c * 1000000000, 0⟩ := by
  have hd100 : c.day < 100 := by
    have : daysIn c.month c.year ≤ 31 := by
      unfold daysIn
      split_ifs
      · omega
      · have hmc : c.month = 1 ∨ c.month = 2 ∨ c.month = 3 ∨ c.month = 4 ∨ c.month = 5 ∨
            c.month = 6 ∨ c.month = 7 ∨ c.month = 8 ∨ c.month = 9 ∨ c.month = 10 ∨
            c.month = 11 ∨ c.month = 12 := by omega
        rcases hmc with h | h | h | h | h | h | h | h | h | h | h | h <;> rw [h] <;> decide
    omega
  have hfmt : formatCivil c =
      appendYear c.year ++ [byte 45] ++ pad2 c.month ++ [byte 45] ++ pad2 c.day ++
        (byte 84 :: (pad2 c.hour ++ [byte 58] ++ pad2 c.minute ++ [byte 58] ++ pad2 c.second
          ++ [byte 90])) := by
    unfold formatCivil
    simp only [List.append_assoc, List.singleton_append, List.cons_append, List.nil_append]
  unfold parseTime
  rw [hfmt, parseDate_format c.year c.month c.day h0 h1 hm1 hm2 hd100]
  simp only [expect_byte 84 (by omega)]
  rw [parseClock_format _ c.hour c.minute c.second hh hmi hs]
  have hfrac : parseFraction [byte 90] = (0, [byte 90]) := rfl
  have hzone : parseZone [byte 90] = some (0, []) := rfl
  simp only [hfrac, hzone]
  rw [if_neg (by simp), if_neg (by omega)]
  simp only [unixOfCivil, sub_zero, Nat.cast_zero, add_zero]

theorem decimalAux_digits (fuel : Nat) :
    ∀ (n : Nat) (acc : GoString), (∀ b ∈ acc, isDigit b = true) →
      ∀ b ∈ decimalAux fuel n acc, isDigit b = true := by
  induction fuel with
  | zero => intro n acc h; exact h
  | succ f ih =>
    intro n acc h
    have hcons : ∀ b ∈ digit n :: acc, isDigit b = true := by
      intro b hb
      rcases List.mem_cons.mp hb with rfl | hb
      · exact isDigit_digit n
      · exact h b hb
    unfold decimalAux
    split_ifs
    · exact hcons
    · exact ih _ _ hcons

theorem decimalAux_length (fuel : Nat) :
    ∀ (n : Nat) (acc : GoString), acc.length ≤ (decimalAux fuel n acc).length := by
  induction fuel with
  | zero => intro n acc; exact le_refl _
  | succ f ih =>
    intro n acc
    unfold decimalAux
    split_ifs
    · simp
    · have := ih (n / 10) (digit n :: acc)
      simp only [List.length_cons] at this
      omega

theorem decimalAux_step (fuel n : Nat) (acc : GoString) (h : 10 ≤ n) :
    decimalAux (fuel + 1) n acc = decimalAux fuel (n / 10) (digit n :: acc) := by
  rw [decimalAux, if_neg (by omega)]

theorem decimal_length (n : Nat) (h : 10000 ≤ n) : 5 ≤ (decimal n).length := by
  obtain ⟨f, hf⟩ : ∃ f, n + 1 = f + 5 := ⟨n - 4, by omega⟩
  unfold decimal
  rw [hf, decimalAux_step _ _ _ (by omega), decimalAux_step _ _ _ (by omega),
    decimalAux_step _ _ _ (by omega), decimalAux_step _ _ _ (by omega)]
  have hlast : 1 ≤ n / 10 / 10 / 10 / 10 := by omega
  have := decimalAux_length f (n / 10 / 10 / 10 / 10 / 10)
    (digit (n / 10 / 10 / 10 / 10) :: [digit (n / 10 / 10 / 10), digit (n / 10 / 10),
      digit (n / 10), digit n])
  rw [decimalAux]
  split_ifs
  · simp
  · simp only [List.length_cons, List.length_nil] at this
    omega

theorem parseYear_minus (X : GoString) : parseYear (byte 45 :: X) = none := by
  unfold parseYear
  split
  · rename_i a b c d rest heq
    injection heq with h1 h2
    subst h1
    rw [if_neg]
    intro h
    exact absurd h.1 (by decide)
  · rfl

theorem parseDate_long_year (l rest : GoString) (hlen : 5 ≤ l.length)
    (hd : ∀ b ∈ l, isDigit b = true) : parseDate (l ++ rest) = none := by
  obtain ⟨a, b, c, d, e, tl, rfl⟩ : ∃ a b c d e tl, l = a :: b :: c :: d :: e :: tl := by
    match l, hlen with
    | a :: b :: c :: d :: e :: tl, _ => exact ⟨a, b, c, d, e, tl, rfl⟩
  have he : isDigit e = true := hd e (by simp)
  have he45 : e.val ≠ 45 := by
    unfold isDigit at he
    simp only [Bool.and_eq_true, decide_eq_true_eq] at he
    omega
  unfold parseDate parseYear
  simp only [List.cons_append]
  split_ifs
  · simp only [expect, if_neg he45]
  · rfl

/-- Go `Parse` rejects what `Format` prints for a year outside 0 to 9999. -/
theorem parseTime_formatCivil_out_of_range (c : Civil) (h : c.year < 0 ∨ 9999 < c.year) :
    parseTime (formatCivil c) = none := by
  have hfmt : ∀ X, parseDate (appendYear c.year ++ X) = none := by
    intro X
    unfold appendYear
    simp only
    rcases h with h | h
    · rw [if_pos h, List.append_assoc, List.singleton_append]
      unfold parseDate
      rw [parseYear_minus]
    · rw [if_neg (by omega), if_neg (by omega), List.nil_append]
      exact parseDate_long_year _ _ (decimal_length _ (by omega))
        (decimalAux_digits _ _ _ (by simp))
  unfold parseTime formatCivil
  simp only [List.append_assoc]
  rw [hfmt]

/-- Reading back what `formatTime` wrote: when `Parse` accepts it, the result
is the instant cut to whole seconds, in UTC. -/
theorem parseTime_formatTime (t v : Time) (h : parseTime (formatTime t) = some v) :
    v = t.truncSec := by
  obtain ⟨hm1, hm2, hd1, hd2, hh, hmi, hs, hu⟩ := civilOfUnix_spec t.unix
  unfold formatTime at h
  by_cases hr : (civilOfUnix t.unix).year < 0 ∨ 9999 < (civilOfUnix t.unix).year
  · rw [parseTime_formatCivil_out_of_range _ hr] at h
    cases h
  · rw [parseTime_formatCivil _ (by omega) (by omega) hm1 hm2 hd1 hd2 hh hmi hs, hu] at h
    injection h with h
    rw [← h]
    rfl

/-- In the years 0 to 9999 `Parse` accepts what `formatTime` wrote. -/
theorem parseTime_formatTime_of_range (t : Time) (h0 : 0 ≤ (civilOfUnix t.unix).year)
    (h1 : (civilOfUnix t.unix).year ≤ 9999) : parseTime (formatTime t) = some t.truncSec := by
  obtain ⟨hm1, hm2, hd1, hd2, hh, hmi, hs, hu⟩ := civilOfUnix_spec t.unix
  unfold formatTime
  rw [parseTime_formatCivil _ h0 h1 hm1 hm2 hd1 hd2 hh hmi hs, hu]
  rfl

theorem truncSec_le (t u : Time) (h : t.le u) : t.truncSec.le u.truncSec := by
  unfold Time.le at h ⊢
  unfold Time.truncSec Time.unix
  simp only
  omega

/-! ## Starting and ending a session -/

theorem formatTime_ne_nil (t : Time) : formatTime t ≠ [] := by
  unfold formatTime formatCivil
  simp

/-- Go `Parse` with the RFC 3339 layout rejects every text that SQLite
`datetime` produces: after the date it finds a space where the layout has the
letter `T`. -/
theorem parseTime_sqliteDatetime (t : Time) (text : GoString)
    (h : sqliteDatetime t = some text) : parseTime text = none := by
  obtain ⟨hm1, hm2, hd1, hd2, hh, hmi, hs, _⟩ := civilOfUnix_spec t.unix
  unfold sqliteDatetime at h
  simp only at h
  split_ifs at h with hr
  injection h with h
  have hd100 : (civilOfUnix t.unix).day < 100 := by
    have : daysIn (civilOfUnix t.unix).month (civilOfUnix t.unix).year ≤ 31 := by
      unfold daysIn
      split_ifs
      · omega
      · have hmc : (civilOfUnix t.unix).month = 1 ∨ (civilOfUnix t.unix).month = 2 ∨
            (civilOfUnix t.unix).month = 3 ∨ (civilOfUnix t.unix).month = 4 ∨
            (civilOfUnix t.unix).month = 5 ∨ (civilOfUnix t.unix).month = 6 ∨
            (civilOfUnix t.unix).month = 7 ∨ (civilOfUnix t.unix).month = 8 ∨
            (civilOfUnix t.unix).month = 9 ∨ (civilOfUnix t.unix).month = 10 ∨
            (civilOfUnix t.unix).month = 11 ∨ (civilOfUnix t.unix).month = 12 := by omega
        rcases hmc with h | h | h | h | h | h | h | h | h | h | h | h <;> rw [h] <;> decide
    omega
  rw [← h]
  unfold parseTime
  simp only [List.append_assoc]
  rw [← List.append_assoc, ← List.append_assoc, ← List.append_assoc, ← List.append_assoc,
    parseDate_format _ _ _ hr.1 hr.2 hm1 hm2 hd100]
  rfl


theorem scanSession_created_sqlite (what : String) (r : SessionRow) (t : Time)
    (h : r.created_at = sqliteDatetime t) : ∃ e, scanSession what r = Except.error e := by
  unfold scanSession
  split
  · rename_i issues skills tokens created hi hs ht hc
    have hparse : parseTime created = none :=
      parseTime_sqliteDatetime t created (by rw [← h, hc])
    split
    · exact ⟨_, rfl⟩
    · split
      · exact ⟨_, rfl⟩
      · rw [hparse]
        exact ⟨_, rfl⟩
  · exact ⟨_, rfl⟩

/-- C1 (what the code does): whenever StartSession returns an identifier, the
immediately following GetSession on that identifier fails. The row it finds
carries in `created_at` the schema default `datetime(now)`, a text of the
form `YYYY-MM-DD HH:MM:SS`, which `parseTime` rejects (or NULL, which `Scan`
rejects). -/
theorem getSession_after_startSession_fails (d : Database) (env : Env)
    (agentName workspacePath modelTier id : GoString) (h2 : Handle)
    (h : StartSession (some d) env agentName workspacePath modelTier = (Except.ok id, h2)) :
    ∃ e, GetSession h2 id = Except.error e := by
  unfold StartSession at h
  simp only at h
  split_ifs at h with ha hw
  · cases h
  · cases h
  split at h
  · cases h
  · rename_i d1 hins
    unfold insertSession at hins
    simp only at hins
    split_ifs at hins with hdup
    injection hins with hins
    injection h with hid hh
    injection hid with hid
    subst hid hh hins
    unfold GetSession
    simp only
    split_ifs with hempty
    · exact ⟨_, rfl⟩
    · have hnone : d.sessions.find? (fun r => decide (r.session_id = env.newID)) = none := by
        rw [List.find?_eq_none]
        intro r hr
        simp only [List.any_eq_true, not_exists, not_and] at hdup
        exact hdup r hr
      rw [List.find?_append, hnone]
      simp only [Option.none_or, List.find?_cons, decide_True]
      exact scanSession_created_sqlite _ _ env.sqlNow rfl

set_option maxRecDepth 100000 in
/-- C1, on empty tables: StartSession for agent `agentX` in `/ws` with tier
`sonnet` returns the identifier `s2`, and GetSession on `s2` fails at
`created_at`. -/
theorem getSession_after_startSession_fails_witness :
    (StartSession (some emptyDB) demoEnv (utf8 "agentX") (utf8 "/ws") (utf8 "sonnet")).1
      = Except.ok (utf8 "s2") ∧
    GetSession (StartSession (some emptyDB) demoEnv (utf8 "agentX") (utf8 "/ws")
      (utf8 "sonnet")).2 (utf8 "s2") = Except.error (Err.failed "parse created_at") ∧
    ∃ e, GetSession (StartSession (some emptyDB) demoEnv (utf8 "agentX") (utf8 "/ws")
      (utf8 "sonnet")).2 (utf8 "s2") = Except.error e :=
  ⟨rfl, rfl, getSession_after_startSession_fails emptyDB demoEnv (utf8 "agentX") (utf8 "/ws")
    (utf8 "sonnet") (utf8 "s2") _ rfl⟩

theorem parseNullableTime_formatTime (t : Time) (v : Option Time)
    (h : parseNullableTime (some (formatTime t)) = some v) : v = some t.truncSec := by
  unfold parseNullableTime at h
  simp only [formatTime_ne_nil, if_false] at h
  split at h
  · cases h
  · rename_i e he
    injection h with h
    rw [← h, parseTime_formatTime t e he]

/-- C7: after EndSession succeeds on a session whose `started_at` was written
by `formatTime` from a clock reading not later than the one EndSession takes,
every row of the session has `ended_at` set to the formatted end time and
`exit_reason` set to the reason; read as times, the stored end is not before
the stored start; and a successful GetSession reports EndedAt present and not
before StartedAt. -/
theorem endSession_end_not_before_start (d : Database) (env : Env) (id reason : GoString)
    (hstart : ∀ r ∈ d.sessions, r.session_id = id →
      ∃ t0 : Time, r.started_at = formatTime t0 ∧ t0.le env.now)
    (hok : (EndSession (some d) env id reason).1 = Except.ok ()) :
    ∃ d2, (EndSession (some d) env id reason).2 = some d2 ∧
      (∃ r ∈ d2.sessions, r.session_id = id) ∧
      (∀ r ∈ d2.sessions, r.session_id = id →
        r.ended_at = some (formatTime env.now) ∧ r.exit_reason = some reason ∧
        ∀ ts te, parseTime r.started_at = some ts → r.ended_at.bind parseTime = some te →
          ts.le te) ∧
      (∀ s, GetSession (some d2) id = Except.ok s → ∃ e, s.EndedAt = some e ∧ s.StartedAt.le e) := by
  have hid : id ≠ [] := by
    intro hnil
    subst hnil
    cases hok
  rw [EndSession_some d env id reason hid] at hok ⊢
  have hex : ∃ r ∈ d.sessions, r.session_id = id := by
    by_contra hno
    have hc : d.sessions.countP (fun r => decide (r.session_id = id)) = 0 := by
      apply countP_eq_zero_of_no_match
      intro r hr
      simp only [decide_eq_false_iff_not]
      exact fun hrid => hno ⟨r, hr, hrid⟩
    simp only [hc, if_true] at hok
    cases hok
  have hrow : ∀ r ∈ d.sessions.map (fun r =>
        if decide (r.session_id = id) then
          { r with ended_at := some (formatTime env.now), exit_reason := some reason }
        else r), r.session_id = id →
      r.ended_at = some (formatTime env.now) ∧ r.exit_reason = some reason ∧
      ∃ t0 : Time, r.started_at = formatTime t0 ∧ t0.le env.now := by
    intro r hr hrid
    obtain ⟨r0, hr0, hr0id, rfl⟩ := mem_updated_sessions _ id
      (fun r => { r with ended_at := some (formatTime env.now), exit_reason := some reason })
      r hr hrid
    exact ⟨rfl, rfl, hstart r0 hr0 hr0id⟩
  refine ⟨_, rfl, ?_, ?_, ?_⟩
  · exact exists_updated_session d.sessions id
      (fun r => { r with ended_at := some (formatTime env.now), exit_reason := some reason })
      (fun _ => rfl) hex
  · intro r hr hrid
    obtain ⟨he, hx, t0, hs0, hle⟩ := hrow r hr hrid
    refine ⟨he, hx, ?_⟩
    intro ts te hts hte
    rw [hs0] at hts
    rw [he, Option.some_bind] at hte
    rw [parseTime_formatTime t0 ts hts, parseTime_formatTime env.now te hte]
    exact truncSec_le _ _ hle
  · intro s hs
    obtain ⟨r, hr, hrid, hscan⟩ := GetSession_ok _ id s hs
    obtain ⟨he, _, t0, hs0, hle⟩ := hrow r hr hrid
    obtain ⟨_, _, started, _, _, hst, hen, hsa, _, _, _⟩ := scanSession_ok _ _ s hscan
    rw [he] at hen
    rw [hs0] at hst
    have hend := parseNullableTime_formatTime env.now s.EndedAt hen
    refine ⟨_, hend, ?_⟩
    rw [hsa, parseTime_formatTime t0 started hst]
    exact truncSec_le _ _ hle

set_option maxRecDepth 100000 in
/-- C7, on the example database: the session `s1` started at
2024-01-01T00:00:00Z is ended at 00:01:00.5; GetSession then reports the end
at 00:01:00, after the start. -/
theorem endSession_end_not_before_start_witness :
    (∀ r ∈ demoDB.sessions, r.session_id = utf8 "s1" →
      ∃ t0 : Time, r.started_at = formatTime t0 ∧ t0.le demoEnv.now) ∧
    (EndSession (some demoDB) demoEnv (utf8 "s1") (utf8 "completed")).1 = Except.ok () ∧
    ∃ s, GetSession (EndSession (some demoDB) demoEnv (utf8 "s1") (utf8 "completed")).2
        (utf8 "s1") = Except.ok s ∧
      s.StartedAt = ⟨1704067200000000000, 0⟩ ∧ s.EndedAt = some ⟨1704067260000000000, 0⟩ ∧
      ∃ e, s.EndedAt = some e ∧ s.StartedAt.le e := by
  have hstart : ∀ r ∈ demoDB.sessions, r.session_id = utf8 "s1" →
      ∃ t0 : Time, r.started_at = formatTime t0 ∧ t0.le demoEnv.now := by
    intro r hr _
    have hr2 : r = demoSessionRFC := by simpa [demoDB] using hr
    subst hr2
    exact ⟨⟨1704067200000000000, 0⟩, by decide, by unfold Time.le; decide⟩
  have hok : (EndSession (some demoDB) demoEnv (utf8 "s1") (utf8 "completed")).1
      = Except.ok () := rfl
  obtain ⟨d2, hd2, _, _, hget⟩ :=
    endSession_end_not_before_start demoDB demoEnv (utf8 "s1") (utf8 "completed") hstart hok
  refine ⟨hstart, hok, ?_⟩
  have hs : ∃ s, GetSession (EndSession (some demoDB) demoEnv (utf8 "s1") (utf8 "completed")).2
      (utf8 "s1") = Except.ok s ∧
      s.StartedAt = ⟨1704067200000000000, 0⟩ ∧ s.EndedAt = some ⟨1704067260000000000, 0⟩ :=
    ⟨_, rfl, rfl, rfl⟩
  obtain ⟨s, hs1, hs2, hs3⟩ := hs
  refine ⟨s, hs1, hs2, hs3, ?_⟩
  rw [hd2] at hs1
  exact hget s hs1

/-! ## The average session time -/

set_option maxRecDepth 100000 in
/-- C4 as stated fails: with one completed session of exactly 60 seconds and
one open session of the same agent, GetAgentStats succeeds and AvgSessionTime
is 59.999996423 s, not 60 s: the mean is taken over differences of Julian day
numbers in double precision. -/
theorem avgSessionTime_not_exact :
    ∃ stats, GetAgentStats (some demoDB3) (sqliteDates demoEnv.sqlNow) (utf8 "agentX") ⟨0, 0⟩
        = Except.ok stats ∧
      stats.TotalSessions = 2 ∧ stats.ActiveSessions = 1 ∧
      stats.AvgSessionTime = 59999996423 ∧ stats.AvgSessionTime ≠ 60 * 1000000000 :=
  ⟨_, rfl, rfl, rfl, rfl, by decide⟩

theorem filter_filter_and {ρ : Type} (rows : List ρ) (p q : ρ → Bool) :
    (rows.filter p).filter q = rows.filter (fun r => p r && q r) := by
  rw [List.filter_filter]
  congr 1
  funext r
  exact Bool.and_comm _ _

theorem GetAgentStats_avg (d : Database) (E : DateFns) (a : GoString) (since : Time)
    (stats : AgentStats) (h : GetAgentStats (some d) E a since = Except.ok stats) :
    stats.AvgSessionTime = durationOrZero E (timesDay (avgReal
      (((d.sessions.filter (fun r => r.ended_at.isSome)).filter
          (fun r => decide (r.agent_name = a) && strLE (formatTime since) r.started_at)).filterMap
        (fun r => jdDiff E r.ended_at r.started_at)))) := by
  unfold GetAgentStats at h
  simp only at h
  split_ifs at h with ha
  split at h
  · cases h
  · injection h with h
    subst h
    simp only
    rw [filter_filter_and, filter_filter_and]
    congr 5
    funext r
    exact Bool.and_comm _ _

theorem durationOrZero_of_fit (E : DateFns) (x : Option F64) :
    (∀ secs, x = some secs → inInt64 (F64.mul secs (F64.ofInt 1000000000)).trunc = true →
      durationOrZero E x = (F64.mul secs (F64.ofInt 1000000000)).trunc) ∧
    (x = none → durationOrZero E x = 0) := by
  constructor
  · intro secs hx hfit
    rw [hx]
    show durationOfSeconds E secs = _
    unfold durationOfSeconds
    simp only [hfit, if_true]
  · intro hx
    rw [hx]
    rfl

set_option maxRecDepth 100000 in
/-- A session from 1900-01-01 to 2200-01-01 lasts more nanoseconds than an
`int64` holds: GetAgentStats succeeds on it, but `time.Duration` cannot carry
the length, and AvgSessionTime is then whatever the implementation makes of the
conversion. -/
theorem avgSessionTime_beyond_int64 :
    (GetAgentStats (some demoDBLong) (sqliteDates demoSince) (utf8 "agentX")
      ⟨-3000000000000000000, 0⟩).map (fun s => s.TotalSessions) = Except.ok 1 ∧
    ∃ secs, timesDay (avgReal ([demoSessionLong].filterMap
        (fun r => jdDiff (sqliteDates demoSince) r.ended_at r.started_at))) = some secs ∧
      inInt64 (F64.mul secs (F64.ofInt 1000000000)).trunc = false :=
  ⟨rfl, _, rfl, by decide⟩

/-- C4 (amended): whenever GetAgentStats succeeds, AvgSessionTime is computed
from exactly those sessions of the agent that have an end timestamp and whose
stored start is not before the formatted bound: with the double-precision
average of their Julian-day differences, times 86400, as the number of
seconds, it is that number times 10^9 cut to a whole number of nanoseconds
whenever this fits the `int64` range of `time.Duration` (outside it the
language leaves the converted value to the implementation), and zero when there is no
such session. Sessions without an end timestamp do not enter it: two databases
with the same ended sessions give the same AvgSessionTime. -/
theorem avgSessionTime_over_ended_sessions (d d2 : Database) (E : DateFns) (a : GoString)
    (since : Time) (stats stats2 : AgentStats)
    (h : GetAgentStats (some d) E a since = Except.ok stats)
    (h2 : GetAgentStats (some d2) E a since = Except.ok stats2)
    (hsame : d2.sessions.filter (fun r => r.ended_at.isSome)
      = d.sessions.filter (fun r => r.ended_at.isSome)) :
    (∀ secs, timesDay (avgReal
        ((d.sessions.filter (fun r => decide (r.agent_name = a) &&
            strLE (formatTime since) r.started_at && r.ended_at.isSome)).filterMap
          (fun r => jdDiff E r.ended_at r.started_at))) = some secs →
      inInt64 (F64.mul secs (F64.ofInt 1000000000)).trunc = true →
      stats.AvgSessionTime = (F64.mul secs (F64.ofInt 1000000000)).trunc) ∧
    (timesDay (avgReal
        ((d.sessions.filter (fun r => decide (r.agent_name = a) &&
            strLE (formatTime since) r.started_at && r.ended_at.isSome)).filterMap
          (fun r => jdDiff E r.ended_at r.started_at))) = none →
      stats.AvgSessionTime = 0) ∧
    stats.AvgSessionTime = durationOrZero E (timesDay (avgReal
      ((d.sessions.filter (fun r => decide (r.agent_name = a) &&
          strLE (formatTime since) r.started_at && r.ended_at.isSome)).filterMap
        (fun r => jdDiff E r.ended_at r.started_at)))) ∧
    stats2.AvgSessionTime = stats.AvgSessionTime := by
  have e1 := GetAgentStats_avg d E a since stats h
  have e2 := GetAgentStats_avg d2 E a since stats2 h2
  have e3 : stats.AvgSessionTime = durationOrZero E (timesDay (avgReal
      ((d.sessions.filter (fun r => decide (r.agent_name = a) &&
          strLE (formatTime since) r.started_at && r.ended_at.isSome)).filterMap
        (fun r => jdDiff E r.ended_at r.started_at)))) := by
    rw [e1, filter_filter_and]
    congr 5
    funext r
    exact Bool.and_comm _ _
  refine ⟨?_, ?_, e3, ?_⟩
  · intro secs hx hfit
    rw [e3]
    exact (durationOrZero_of_fit E _).1 secs hx hfit
  · intro hx
    rw [e3]
    exact (durationOrZero_of_fit E _).2 hx
  · rw [e1, e2, hsame]

set_option maxRecDepth 100000 in
/-- C4 (amended), on the example: removing the open session from the database
with one completed and one open session leaves AvgSessionTime at
59.999996423 s, the average of 59.99999642372131 s cut to nanoseconds. -/
theorem avgSessionTime_over_ended_sessions_witness :
    ∃ stats stats2,
      GetAgentStats (some demoDB3) (sqliteDates demoEnv.sqlNow) (utf8 "agentX") ⟨0, 0⟩
        = Except.ok stats ∧
      GetAgentStats (some { demoDB3 with sessions := [demoSessionEnded] })
        (sqliteDates demoEnv.sqlNow) (utf8 "agentX") ⟨0, 0⟩ = Except.ok stats2 ∧
      stats.AvgSessionTime = 59999996423 ∧ stats2.AvgSessionTime = stats.AvgSessionTime := by
  have h1 : ∃ stats, GetAgentStats (some demoDB3) (sqliteDates demoEnv.sqlNow) (utf8 "agentX")
      ⟨0, 0⟩ = Except.ok stats := ⟨_, rfl⟩
  have h2 : ∃ stats2, GetAgentStats (some { demoDB3 with sessions := [demoSessionEnded] })
      (sqliteDates demoEnv.sqlNow) (utf8 "agentX") ⟨0, 0⟩ = Except.ok stats2 := ⟨_, rfl⟩
  have hsecs : ∃ secs, timesDay (avgReal
      ((demoDB3.sessions.filter (fun r => decide (r.agent_name = utf8 "agentX") &&
          strLE (formatTime ⟨0, 0⟩) r.started_at && r.ended_at.isSome)).filterMap
        (fun r => jdDiff (sqliteDates demoEnv.sqlNow) r.ended_at r.started_at))) = some secs ∧
      inInt64 (F64.mul secs (F64.ofInt 1000000000)).trunc = true ∧
      (F64.mul secs (F64.ofInt 1000000000)).trunc = 59999996423 := ⟨_, rfl, by decide, by decide⟩
  obtain ⟨stats, hs⟩ := h1
  obtain ⟨stats2, hs2⟩ := h2
  obtain ⟨secs, hsecs, hfit, hval⟩ := hsecs
  have hall := avgSessionTime_over_ended_sessions demoDB3
    { demoDB3 with sessions := [demoSessionEnded] } (sqliteDates demoEnv.sqlNow) (utf8 "agentX")
    ⟨0, 0⟩ stats stats2 hs hs2 (by decide)
  exact ⟨stats, stats2, hs, hs2, (hall.1 secs hsecs hfit).trans hval, hall.2.2.2⟩


/-! ## The frame of `UpdateSessionTokens` -/

/-- C17: on an existing session, `UpdateSessionTokens(id, n)` succeeds and the
state afterwards is the state before with `context_tokens` set to exactly `n`
(whatever it held) in the rows with that identifier: every other column of
those rows, every other session row, the work table, the skill-usage table and
the foreign-key setting are unchanged. -/
theorem updateSessionTokens_frame (d : Database) (id : GoString) (n : Int) (hid : id ≠ [])
    (hex : ∃ r ∈ d.sessions, r.session_id = id) :
    UpdateSessionTokens (some d) id n =
      (Except.ok (),
       some { sessions := d.sessions.map (fun r =>
                if r.session_id = id then
                  { session_id := r.session_id, agent_name := r.agent_name,
                    workspace_path := r.workspace_path, started_at := r.started_at,
                    ended_at := r.ended_at, exit_reason := r.exit_reason,
                    issues_claimed := r.issues_claimed, skills_used := r.skills_used,
                    model_tier := r.model_tier, context_tokens := some n,
                    created_at := r.created_at }
                else r),
              work := d.work, skillUsage := d.skillUsage, foreignKeys := d.foreignKeys }) := by
  rw [UpdateSessionTokens_some d id n hid, if_neg (countP_pos_of_exists d id hex)]
  simp only [decide_eq_true_eq]

/-- C17 at the example database: the count of session `s1` goes from 0 to 1234
and nothing else moves. -/
theorem updateSessionTokens_frame_witness :
    UpdateSessionTokens (some demoDB) (utf8 "s1") 1234 =
      (Except.ok (),
       some { sessions := [{ demoSessionRFC with context_tokens := some 1234 }],
              work := [demoWork], skillUsage := [], foreignKeys := false }) :=
  (updateSessionTokens_frame demoDB (utf8 "s1") 1234 (by decide)
    ⟨demoSessionRFC, by simp [demoDB], by decide⟩).trans rfl

/-! ## The timestamp round trip -/

theorem unix_truncSec (t : Time) : t.truncSec.unix = t.unix := by
  unfold Time.truncSec Time.unix
  simp only
  omega

theorem formatTime_truncSec (t : Time) : formatTime t.truncSec = formatTime t := by
  unfold formatTime
  rw [unix_truncSec]

theorem inYears_iff (t : Time) :
    t.inYears = true ↔ 0 ≤ (civilOfUnix t.unix).year ∧ (civilOfUnix t.unix).year ≤ 9999 := by
  unfold Time.inYears Time.year
  simp only [Bool.and_eq_true, decide_eq_true_eq]

/-- C20: for an instant of the years 0000 to 9999, `parseTime` succeeds on
`formatTime t` and returns `t` cut down to the whole second, in UTC (offset 0);
formatting that result gives the same text again; `parseNullableTime` returns
the same instant on that text, and an absent time, without error, on NULL and
on the empty text. -/
theorem timestamp_round_trip (t : Time) (h : t.inYears = true) :
    parseTime (formatTime t) = some t.truncSec ∧
    t.truncSec = ⟨t.unixNano / 1000000000 * 1000000000, 0⟩ ∧
    (parseTime (formatTime t)).map formatTime = some (formatTime t) ∧
    parseNullableTime (some (formatTime t)) = some (some t.truncSec) ∧
    parseNullableTime none = some none ∧
    parseNullableTime (some []) = some none := by
  have hp := parseTime_formatTime_of_range t ((inYears_iff t).1 h).1 ((inYears_iff t).1 h).2
  refine ⟨hp, rfl, ?_, ?_, rfl, rfl⟩
  · rw [hp, Option.map_some', formatTime_truncSec]
  · unfold parseNullableTime
    simp only [formatTime_ne_nil, if_false, hp]

set_option maxRecDepth 100000 in
/-- C20 at 2024-01-01T00:01:00.5Z: the text is read back as 00:01:00 sharp. -/
theorem timestamp_round_trip_witness :
    parseTime (formatTime ⟨1704067260500000000, 0⟩) = some ⟨1704067260000000000, 0⟩ ∧
    parseNullableTime (some (formatTime ⟨1704067260500000000, 0⟩))
      = some (some ⟨1704067260000000000, 0⟩) :=
  ⟨(timestamp_round_trip ⟨1704067260500000000, 0⟩ (by decide)).1,
   (timestamp_round_trip ⟨1704067260500000000, 0⟩ (by decide)).2.2.2.1⟩


/-! ## Defensive decoding of the list columns -/

theorem mapM_decodeElem_of_bad (es : List JValue) (h : es.all JValue.isStrOrNull = false) :
    es.mapM decodeElem = Except.error JsonError.typeError := by
  induction es with
  | nil => simp at h
  | cons e t ih =>
    rw [List.mapM_cons]
    cases e with
    | str s =>
      have ht : t.all JValue.isStrOrNull = false := by
        simpa [List.all_cons, JValue.isStrOrNull] using h
      rw [ih ht]
      rfl
    | null =>
      have ht : t.all JValue.isStrOrNull = false := by
        simpa [List.all_cons, JValue.isStrOrNull] using h
      rw [ih ht]
      rfl
    | bool b => rfl
    | number => rfl
    | arr l => rfl
    | obj l => rfl

theorem mapM_decodeElem_lenient (es : List JValue) (h : es.all JValue.isStrOrNull = true) :
    es.mapM decodeElem = Except.ok (es.map (fun e =>
      match e with
      | JValue.str s => s
      | _ => [])) := by
  induction es with
  | nil => rfl
  | cons e t ih =>
    rw [List.mapM_cons]
    have ht : t.all JValue.isStrOrNull = true := by
      rw [List.all_cons, Bool.and_eq_true] at h
      exact h.2
    have he : e.isStrOrNull = true := by
      rw [List.all_cons, Bool.and_eq_true] at h
      exact h.1
    rw [ih ht]
    cases e with
    | str s => rfl
    | null => rfl
    | bool b => cases he
    | number => cases he
    | arr l => cases he
    | obj l => cases he

theorem decodeList_of_not_lenient (text : GoString) (h : isLenientArray text = false) :
    elems (decodeList text) = [] := by
  unfold isLenientArray at h
  unfold decodeList jsonUnmarshal
  cases hp : parseJSON text with
  | none => rfl
  | some v =>
    rw [hp] at h
    cases v with
    | null => rfl
    | bool b => rfl
    | number => rfl
    | str s => rfl
    | obj l => rfl
    | arr es =>
      simp only at h ⊢
      rw [mapM_decodeElem_of_bad es h]
      rfl

theorem scanSession_issues_text (what : String) (r : SessionRow) (a b : GoString) :
    (∃ s, scanSession what { r with issues_claimed := some a } = Except.ok s) →
    ∃ s, scanSession what { r with issues_claimed := some b } = Except.ok s := by
  unfold scanSession
  simp only
  cases r.skills_used <;> cases r.context_tokens <;> cases r.created_at <;>
    simp only [false_imp_iff, exists_false, imp_self]
  cases parseTime r.started_at <;> simp only [false_imp_iff, exists_false, imp_self]
  cases parseNullableTime r.ended_at <;> simp only [false_imp_iff, exists_false, imp_self]
  rename_i created started ended
  cases parseTime created <;> simp only [false_imp_iff, exists_false, imp_self]
  intro _
  exact ⟨_, rfl⟩

theorem scanSession_skills_text (what : String) (r : SessionRow) (a b : GoString) :
    (∃ s, scanSession what { r with skills_used := some a } = Except.ok s) →
    ∃ s, scanSession what { r with skills_used := some b } = Except.ok s := by
  unfold scanSession
  simp only
  cases r.issues_claimed <;> cases r.context_tokens <;> cases r.created_at <;>
    simp only [false_imp_iff, exists_false, imp_self]
  cases parseTime r.started_at <;> simp only [false_imp_iff, exists_false, imp_self]
  cases parseNullableTime r.ended_at <;> simp only [false_imp_iff, exists_false, imp_self]
  rename_i created started ended
  cases parseTime created <;> simp only [false_imp_iff, exists_false, imp_self]
  intro _
  exact ⟨_, rfl⟩

/-- What a successful `scanSessions` returns: one session per row, in the order
of the rows, each the decoding of its row. -/
theorem scanSessions_ok (rows : List SessionRow) (ss : List Session)
    (h : scanSessions rows = Except.ok ss) :
    List.Forall₂ (fun r s => scanSession "scan session" r = Except.ok s) rows ss := by
  unfold scanSessions at h
  induction rows generalizing ss with
  | nil =>
    cases h
    exact List.Forall₂.nil
  | cons r t ih =>
    rw [List.mapM_cons] at h
    cases hr : scanSession "scan session" r with
    | error e =>
      rw [hr] at h
      cases h
    | ok s =>
      rw [hr] at h
      cases ht : List.mapM (scanSession "scan session") t with
      | error e =>
        rw [ht] at h
        cases h
      | ok st =>
        rw [ht] at h
        cases h
        exact List.Forall₂.cons hr (ih st ht)

/-- C16 as stated fails: the text `["a",null]` is not a JSON array of strings,
its second element being `null`, yet `GetSession` reads it without error as
the two-element list of `a` and the empty string, not as the empty list. -/
theorem null_element_read_as_empty_string :
    isStringArray (utf8 "[\"a\",null]") = false ∧
    ∃ s, GetSession (some demoDBNullElem) (utf8 "s1") = Except.ok s ∧
      s.IssuesClaimed = some [utf8 "a", []] :=
  ⟨rfl, _, rfl, rfl⟩

/-- C16, amended: a list text that is not a parseable JSON array of strings
and nulls (malformed JSON, a value of another type, or an array with an
element that is neither a string nor `null`) is read as a list without
elements, nothing of it being kept; a row is decoded successfully with such a
text in `issues_claimed` or `skills_used` exactly when it is with the text
`[]` there; so `GetSession` and the row loop of the list operations return no
element for that field. An array of strings and nulls is read element by
element, `null` as the empty string. -/
theorem defensive_decoding (text : GoString) (h : isLenientArray text = false) :
    elems (decodeList text) = [] ∧
    (∀ what (r : SessionRow),
      (∃ s, scanSession what { r with issues_claimed := some text } = Except.ok s) ↔
      ∃ s, scanSession what { r with issues_claimed := some (utf8 "[]") } = Except.ok s) ∧
    (∀ what (r : SessionRow),
      (∃ s, scanSession what { r with skills_used := some text } = Except.ok s) ↔
      ∃ s, scanSession what { r with skills_used := some (utf8 "[]") } = Except.ok s) ∧
    (∀ d id x s, d.sessions.find? (fun r => decide (r.session_id = id)) = some x →
      GetSession (some d) id = Except.ok s →
      (x.issues_claimed = some text → elems s.IssuesClaimed = []) ∧
      (x.skills_used = some text → elems s.SkillsUsed = [])) ∧
    (∀ rows ss, scanSessions rows = Except.ok ss →
      List.Forall₂ (fun x s =>
        (x.issues_claimed = some text → elems s.IssuesClaimed = []) ∧
        (x.skills_used = some text → elems s.SkillsUsed = [])) rows ss) ∧
    (∀ t es, parseJSON t = some (JValue.arr es) → es.all JValue.isStrOrNull = true →
      decodeList t = some (es.map (fun e =>
        match e with
        | JValue.str s => s
        | _ => []))) := by
  have hd := decodeList_of_not_lenient text h
  have hscan : ∀ what x s, scanSession what x = Except.ok s →
      (x.issues_claimed = some text → elems s.IssuesClaimed = []) ∧
      (x.skills_used = some text → elems s.SkillsUsed = []) := by
    intro what x s hs
    obtain ⟨issues, skills, started, hi, hk, _, _, _, hsi, hsk, _⟩ := scanSession_ok what x s hs
    constructor
    · intro hx
      rw [hi] at hx
      injection hx with hx
      rw [hsi, hx, hd]
    · intro hx
      rw [hk] at hx
      injection hx with hx
      rw [hsk, hx, hd]
  refine ⟨hd, ?_, ?_, ?_, ?_, ?_⟩
  · intro what r
    exact ⟨scanSession_issues_text what r _ _, scanSession_issues_text what r _ _⟩
  · intro what r
    exact ⟨scanSession_skills_text what r _ _, scanSession_skills_text what r _ _⟩
  · intro d id x s hfind hget
    unfold GetSession at hget
    simp only at hget
    split_ifs at hget
    rw [hfind] at hget
    exact hscan _ x s hget
  · intro rows ss hss
    exact (scanSessions_ok rows ss hss).imp (fun x s hs => hscan _ x s hs)
  · intro t es hp hall
    unfold decodeList jsonUnmarshal
    rw [hp]
    simp only
    rw [mapM_decodeElem_lenient es hall]
    rfl

set_option maxRecDepth 100000 in
/-- C16, amended, at the text `["a",1]`: the number makes the whole list
unreadable, and the string before it is not kept. -/
theorem defensive_decoding_witness :
    isLenientArray (utf8 "[\"a\",1]") = false ∧ elems (decodeList (utf8 "[\"a\",1]")) = [] :=
  ⟨by decide, (defensive_decoding (utf8 "[\"a\",1]") (by decide)).1⟩


/-! ## Internal consistency of `GetIssueStats` -/

theorem mapM_option_some {α β : Type} (f : α → Option β) (l : List α) (ys : List β)
    (h : l.mapM f = some ys) : List.Forall₂ (fun a y => f a = some y) l ys := by
  induction l generalizing ys with
  | nil =>
    cases h
    exact List.Forall₂.nil
  | cons a t ih =>
    rw [List.mapM_cons] at h
    cases hf : f a with
    | none =>
      rw [hf] at h
      cases h
    | some y =>
      rw [hf] at h
      cases ht : List.mapM f t with
      | none =>
        rw [ht] at h
        cases h
      | some yt =>
        rw [ht] at h
        cases h
        exact List.Forall₂.cons hf (ih yt ht)

theorem forall2_map_eq {α β γ : Type} (R : α → β → Prop) (g : β → γ) (k : α → γ)
    (hR : ∀ a b, R a b → g b = k a) (l : List α) (ys : List β) (h : List.Forall₂ R l ys) :
    ys.map g = l.map k := by
  induction h with
  | nil => rfl
  | cons hab _ ih => rw [List.map_cons, List.map_cons, ih, hR _ _ hab]

theorem forall2_mem_right {α β : Type} (R : α → β → Prop) (l : List α) (ys : List β)
    (h : List.Forall₂ R l ys) (y : β) (hy : y ∈ ys) : ∃ a ∈ l, R a y := by
  induction h with
  | nil => cases hy
  | cons hab _ ih =>
    rcases List.mem_cons.1 hy with rfl | hy
    · exact ⟨_, List.mem_cons_self _ _, hab⟩
    · obtain ⟨a, ha, hr⟩ := ih hy
      exact ⟨a, List.mem_cons_of_mem _ ha, hr⟩

theorem forall2_mem_left {α β : Type} (R : α → β → Prop) (l : List α) (ys : List β)
    (h : List.Forall₂ R l ys) (a : α) (ha : a ∈ l) : ∃ y ∈ ys, R a y := by
  induction h with
  | nil => cases ha
  | cons hab _ ih =>
    rcases List.mem_cons.1 ha with rfl | ha
    · exact ⟨_, List.mem_cons_self _ _, hab⟩
    · obtain ⟨y, hy, hr⟩ := ih ha
      exact ⟨y, List.mem_cons_of_mem _ hy, hr⟩

theorem agentWorkOf_some (E : DateFns) (a : GoString) (g : List WorkRow) (w : AgentWork)
    (h : agentWorkOf E a g = some w) :
    w.AgentName = a ∧ w.WorkSessions = g.length ∧
    w.Completed = (g.filterMap (fun r => r.completed)).count true := by
  unfold agentWorkOf at h
  split at h
  · cases h
  · cases h
  · rename_i secs c cs _ hc
    cases h
    exact ⟨rfl, rfl, by rw [hc]⟩

theorem length_filter_agent (rows : List WorkRow) (a : GoString) :
    (rows.filter (fun r => decide (r.agent_name = a))).length
      = @List.count GoString instBEqOfDecidableEq a (rows.map (fun r => r.agent_name)) := by
  unfold List.count
  rw [List.countP_map, List.countP_eq_length_filter]
  congr 2

theorem count_true_pos_iff (g : List WorkRow) :
    0 < (g.filterMap (fun r => r.completed)).count true ↔ ∃ r ∈ g, r.completed = some true := by
  rw [List.count_pos_iff, List.mem_filterMap]

theorem any_completed_iff (rows : List WorkRow) :
    (rows.filterMap (fun r => r.completed)).any (fun b => b) = true
      ↔ ∃ r ∈ rows, r.completed = some true := by
  rw [List.any_eq_true]
  constructor
  · rintro ⟨b, hb, hbt⟩
    rw [List.mem_filterMap] at hb
    obtain ⟨r, hr, hrb⟩ := hb
    exact ⟨r, hr, by rw [hrb, hbt]⟩
  · rintro ⟨r, hr, hrb⟩
    exact ⟨true, List.mem_filterMap.2 ⟨r, hr, hrb⟩, rfl⟩

/-- The entry type of the breakdown, ordered by `WorkSessions` descending. -/
theorem workSessions_sorted (l : List AgentWork) :
    (l.insertionSort (fun a b => b.WorkSessions ≤ a.WorkSessions)).Sorted
      (fun a b => b.WorkSessions ≤ a.WorkSessions) := by
  haveI : IsTotal AgentWork (fun a b => b.WorkSessions ≤ a.WorkSessions) :=
    ⟨fun a b => Nat.le_total _ _⟩
  haveI : IsTrans AgentWork (fun a b => b.WorkSessions ≤ a.WorkSessions) :=
    ⟨fun a b c hab hbc => Nat.le_trans hbc hab⟩
  exact List.sorted_insertionSort _ l

/-- C19: whenever `GetIssueStats` succeeds, on any tables and for any issue,
its breakdown has exactly `TotalAgents` entries, their agent names are
pairwise distinct, their `WorkSessions` add up to `TotalWorkSessions`,
`IsCompleted` holds exactly when some entry has a positive `Completed`, no
entry has more completed than work sessions, and the entries come in
non-increasing order of `WorkSessions`. -/
theorem issueStats_consistent (d : Database) (E : DateFns) (issueID : GoString)
    (stats : IssueStats) (h : GetIssueStats (some d) E issueID = Except.ok stats) :
    stats.AgentBreakdown.length = stats.TotalAgents ∧
    (stats.AgentBreakdown.map (fun e => e.AgentName)).Nodup ∧
    (stats.AgentBreakdown.map (fun e => e.WorkSessions)).sum = stats.TotalWorkSessions ∧
    (stats.IsCompleted = true ↔ ∃ e ∈ stats.AgentBreakdown, 0 < e.Completed) ∧
    (∀ e ∈ stats.AgentBreakdown, e.Completed ≤ e.WorkSessions) ∧
    stats.AgentBreakdown.Sorted (fun a b => b.WorkSessions ≤ a.WorkSessions) := by
  unfold GetIssueStats at h
  simp only at h
  split_ifs at h with hid
  split at h
  · cases h
  · rename_i c cs hc
    split at h
    · cases h
    · rename_i breakdown hb
      cases h
      simp only
      generalize hrows : d.work.filter (fun r => decide (r.issue_id = issueID)) = rows at hc hb
      have hF := mapM_option_some _ _ _ hb
      have hperm := List.perm_insertionSort (fun a b : AgentWork => b.WorkSessions ≤ a.WorkSessions)
        breakdown
      have hagents := List.perm_insertionSort (fun a b : GoString => strLE a b = true)
        (rows.map (fun r => r.agent_name)).dedup
      have hnames : breakdown.map (fun e => e.AgentName) =
          (rows.map (fun r => r.agent_name)).dedup.insertionSort (fun a b => strLE a b = true) :=
        (forall2_map_eq _ (fun e => e.AgentName) (fun a => a)
          (fun a w hw => (agentWorkOf_some E a _ w hw).1) _ _ hF).trans (List.map_id _)
      have hcounts : breakdown.map (fun e => e.WorkSessions) =
          ((rows.map (fun r => r.agent_name)).dedup.insertionSort
            (fun a b => strLE a b = true)).map
            (fun a => @List.count GoString instBEqOfDecidableEq a
              (rows.map (fun r => r.agent_name))) :=
        forall2_map_eq _ (fun e => e.WorkSessions) _
          (fun a w hw => by
            show w.WorkSessions = _
            rw [(agentWorkOf_some E a _ w hw).2.1, length_filter_agent]) _ _ hF
      refine ⟨?_, ?_, ?_, ?_, ?_, workSessions_sorted breakdown⟩
      · rw [hperm.length_eq, ← List.length_map breakdown (fun e => e.AgentName), hnames,
          hagents.length_eq]
        rfl
      · rw [(hperm.map _).nodup_iff, hnames, hagents.nodup_iff]
        exact List.nodup_dedup _
      · rw [(hperm.map _).sum_eq, hcounts, (hagents.map _).sum_eq]
        exact (List.sum_map_count_dedup_eq_length (rows.map (fun r => r.agent_name))).trans
          (List.length_map rows _)
      · rw [← hc, any_completed_iff]
        constructor
        · rintro ⟨r, hr, hrc⟩
          have ha : r.agent_name ∈ (rows.map (fun r => r.agent_name)).dedup.insertionSort
              (fun a b => strLE a b = true) :=
            hagents.mem_iff.2 (List.mem_dedup.2 (List.mem_map_of_mem _ hr))
          obtain ⟨w, hw, hwa⟩ := forall2_mem_left _ _ _ hF _ ha
          refine ⟨w, hperm.mem_iff.2 hw, ?_⟩
          rw [(agentWorkOf_some E _ _ w hwa).2.2, count_true_pos_iff]
          exact ⟨r, List.mem_filter.2 ⟨hr, by simp⟩, hrc⟩
        · rintro ⟨w, hw, hpos⟩
          obtain ⟨a, _, hwa⟩ := forall2_mem_right _ _ _ hF w (hperm.mem_iff.1 hw)
          rw [(agentWorkOf_some E _ _ w hwa).2.2, count_true_pos_iff] at hpos
          obtain ⟨r, hr, hrc⟩ := hpos
          exact ⟨r, (List.mem_filter.1 hr).1, hrc⟩
      · intro w hw
        obtain ⟨a, _, hwa⟩ := forall2_mem_right _ _ _ hF w (hperm.mem_iff.1 hw)
        obtain ⟨_, h2, h3⟩ := agentWorkOf_some E _ _ w hwa
        rw [h2, h3]
        exact le_trans (List.count_le_length _ _) (List.length_filterMap_le _ _)

set_option maxRecDepth 100000 in
/-- C19 on the example database with the two work rows on `issue-1`, by two
agents: GetIssueStats succeeds with two entries, one per agent. -/
theorem issueStats_consistent_witness :
    ∃ stats, GetIssueStats (some demoDB2) (sqliteDates demoEnv.sqlNow) (utf8 "issue-1")
        = Except.ok stats ∧
      stats.TotalAgents = 2 ∧ stats.AgentBreakdown.length = stats.TotalAgents ∧
      (stats.AgentBreakdown.map (fun e => e.WorkSessions)).sum = stats.TotalWorkSessions := by
  have h : ∃ stats, GetIssueStats (some demoDB2) (sqliteDates demoEnv.sqlNow) (utf8 "issue-1")
      = Except.ok stats ∧ stats.TotalAgents = 2 := ⟨_, rfl, rfl⟩
  obtain ⟨stats, hs, h2⟩ := h
  have hc := issueStats_consistent _ _ _ stats hs
  exact ⟨stats, hs, h2, hc.1, hc.2.2.1⟩


/-! ## The order of the stored timestamps -/

theorem strLE_refl (s : GoString) : strLE s s = true := by
  induction s with
  | nil => rfl
  | cons a t ih => simp [strLE, ih]

/-- Comparing two texts that start with blocks of the same length: the blocks
decide unless they are equal. -/
theorem strLE_append (a b s t : GoString) (hlen : a.length = b.length) :
    strLE (a ++ s) (b ++ t) = if a = b then strLE s t else strLE a b := by
  induction a generalizing b with
  | nil =>
    cases b with
    | nil => simp
    | cons y b => simp at hlen
  | cons x a ih =>
    cases b with
    | nil => simp at hlen
    | cons y b =>
      have hl : a.length = b.length := by simpa using hlen
      rw [List.cons_append, List.cons_append]
      show (decide (x.val < y.val) || (decide (x.val = y.val) && strLE (a ++ s) (b ++ t))) = _
      rw [ih b hl]
      simp only [strLE, List.cons.injEq]
      by_cases hxy : x = y
      · subst hxy
        by_cases hab : a = b
        · simp [hab]
        · simp [hab]
      · have hv : x.val ≠ y.val := fun e => hxy (Fin.ext e)
        simp [hxy, hv]

theorem pad2_le (m n : Nat) (hm : m < 100) (hn : n < 100) :
    strLE (pad2 m) (pad2 n) = decide (m ≤ n) := by
  rw [Bool.eq_iff_iff]
  simp only [pad2, strLE, digit_val, Bool.or_eq_true, Bool.and_eq_true, decide_eq_true_eq,
    and_true]
  omega

theorem pad2_inj (m n : Nat) (hm : m < 100) (hn : n < 100) : pad2 m = pad2 n ↔ m = n := by
  constructor
  · intro h
    simp only [pad2, List.cons.injEq, and_true] at h
    have h1 := congrArg Fin.val h.1
    have h2 := congrArg Fin.val h.2
    rw [digit_val, digit_val] at h1 h2
    omega
  · intro h
    rw [h]

theorem year_digits (u : Nat) :
    u / 100 / 10 = u / 1000 ∧ u / 10 / 10 = u / 100 ∧ u / 1000 / 10 = u / 10000 := by
  refine ⟨?_, ?_, ?_⟩ <;> rw [Nat.div_div_eq_div_mul]

theorem appendYear_le (y z : Int) (hy0 : 0 ≤ y) (hy1 : y ≤ 9999) (hz0 : 0 ≤ z) (hz1 : z ≤ 9999) :
    strLE (appendYear y) (appendYear z) = decide (y ≤ z) := by
  rw [appendYear_of_range y hy0 hy1, appendYear_of_range z hz0 hz1, Bool.eq_iff_iff]
  obtain ⟨u, rfl⟩ := Int.eq_ofNat_of_zero_le hy0
  obtain ⟨v, rfl⟩ := Int.eq_ofNat_of_zero_le hz0
  simp only [strLE, digit_val, Bool.or_eq_true, Bool.and_eq_true, decide_eq_true_eq, and_true,
    Int.natAbs_ofNat, Nat.cast_le]
  have hu := year_digits u
  have hv := year_digits v
  omega

theorem appendYear_inj (y z : Int) (hy0 : 0 ≤ y) (hy1 : y ≤ 9999) (hz0 : 0 ≤ z) (hz1 : z ≤ 9999) :
    appendYear y = appendYear z ↔ y = z := by
  constructor
  · intro h
    rw [appendYear_of_range y hy0 hy1, appendYear_of_range z hz0 hz1] at h
    obtain ⟨u, rfl⟩ := Int.eq_ofNat_of_zero_le hy0
    obtain ⟨v, rfl⟩ := Int.eq_ofNat_of_zero_le hz0
    simp only [List.cons.injEq, and_true, Int.natAbs_ofNat] at h
    have h1 := congrArg Fin.val h.1
    have h2 := congrArg Fin.val h.2.1
    have h3 := congrArg Fin.val h.2.2.1
    have h4 := congrArg Fin.val h.2.2.2
    rw [digit_val, digit_val] at h1 h2 h3 h4
    have hu := year_digits u
    have hv := year_digits v
    omega
  · intro h
    rw [h]

theorem appendYear_length (y : Int) (hy0 : 0 ≤ y) (hy1 : y ≤ 9999) : (appendYear y).length = 4 := by
  rw [appendYear_of_range y hy0 hy1]
  rfl

theorem daysIn_le (m : Nat) (y : Int) (hm : m ≤ 12) : daysIn m y ≤ 31 := by
  unfold daysIn
  split_ifs
  · omega
  · interval_cases m <;> simp [daysBefore]

theorem formatCivil_assoc (c : Civil) :
    formatCivil c = appendYear c.year ++ ([byte 45] ++ (pad2 c.month ++ ([byte 45] ++
      (pad2 c.day ++ ([byte 84] ++ (pad2 c.hour ++ ([byte 58] ++ (pad2 c.minute ++
      ([byte 58] ++ (pad2 c.second ++ [byte 90])))))))))) := by
  unfold formatCivil
  simp only [List.append_assoc]

/-- The order of two timestamps written by `formatCivil` is the order of their
fields, the year first. -/
theorem strLE_formatCivil (c1 c2 : Civil) (h1 : c1.wellFormed) (h2 : c2.wellFormed) :
    strLE (formatCivil c1) (formatCivil c2) =
      if c1.year = c2.year then
        if c1.month = c2.month then
          if c1.day = c2.day then
            if c1.hour = c2.hour then
              if c1.minute = c2.minute then decide (c1.second ≤ c2.second)
              else decide (c1.minute ≤ c2.minute)
            else decide (c1.hour ≤ c2.hour)
          else decide (c1.day ≤ c2.day)
        else decide (c1.month ≤ c2.month)
      else decide (c1.year ≤ c2.year) := by
  obtain ⟨y0, y1, m0, m1, d0, d1, hh, hmi, hs⟩ := h1
  obtain ⟨z0, z1, n0, n1, e0, e1, kh, kmi, ks⟩ := h2
  have hd := daysIn_le c1.month c1.year m1
  have kd := daysIn_le c2.month c2.year n1
  rw [formatCivil_assoc, formatCivil_assoc,
    strLE_append _ _ _ _ (by rw [appendYear_length _ y0 y1, appendYear_length _ z0 z1]),
    strLE_append [byte 45] [byte 45] _ _ rfl, if_pos rfl,
    strLE_append (pad2 c1.month) (pad2 c2.month) _ _ rfl,
    strLE_append [byte 45] [byte 45] _ _ rfl, if_pos rfl,
    strLE_append (pad2 c1.day) (pad2 c2.day) _ _ rfl,
    strLE_append [byte 84] [byte 84] _ _ rfl, if_pos rfl,
    strLE_append (pad2 c1.hour) (pad2 c2.hour) _ _ rfl,
    strLE_append [byte 58] [byte 58] _ _ rfl, if_pos rfl,
    strLE_append (pad2 c1.minute) (pad2 c2.minute) _ _ rfl,
    strLE_append [byte 58] [byte 58] _ _ rfl, if_pos rfl,
    strLE_append (pad2 c1.second) (pad2 c2.second) _ _ rfl,
    appendYear_le _ _ y0 y1 z0 z1,
    pad2_le c1.month c2.month (by omega) (by omega), pad2_le c1.day c2.day (by omega) (by omega),
    pad2_le c1.hour c2.hour (by omega) (by omega),
    pad2_le c1.minute c2.minute (by omega) (by omega),
    pad2_le c1.second c2.second (by omega) (by omega)]
  simp only [appendYear_inj _ _ y0 y1 z0 z1,
    pad2_inj c1.month c2.month (by omega) (by omega), pad2_inj c1.day c2.day (by omega) (by omega),
    pad2_inj c1.hour c2.hour (by omega) (by omega),
    pad2_inj c1.minute c2.minute (by omega) (by omega),
    pad2_inj c1.second c2.second (by omega) (by omega), strLE_refl]
  by_cases hsec : c1.second = c2.second
  · simp [hsec]
  · simp [hsec]

theorem daysBeforeYear_succ (y : Int) :
    daysBeforeYear (y + 1) = daysBeforeYear y + 365 + (if isLeap y = true then 1 else 0) := by
  unfold daysBeforeYear isLeap
  simp only [add_sub_cancel_right, Bool.and_eq_true, Bool.or_eq_true, decide_eq_true_eq]
  split_ifs with h <;> omega

theorem daysBeforeYear_mono (y z : Int) (h : y ≤ z) : daysBeforeYear y ≤ daysBeforeYear z := by
  obtain ⟨n, rfl⟩ := Int.le.dest h
  induction n with
  | zero => simp
  | succ n ih =>
    have e : y + ((n + 1 : Nat) : Int) = (y + (n : Int)) + 1 := by push_cast; ring
    rw [e, daysBeforeYear_succ]
    have ih1 := ih (by omega)
    split_ifs <;> omega

theorem yearDay_bound (leap : Bool) (m d : Nat) (hm0 : 1 ≤ m) (hm1 : m ≤ 12) (hd0 : 1 ≤ d)
    (hd1 : d ≤ if m = 2 ∧ leap = true then 29 else daysBefore m - daysBefore (m - 1)) :
    daysBefore (m - 1) + (if leap = true ∧ 3 ≤ m then 1 else 0) + d
      ≤ 365 + (if leap = true then 1 else 0) := by
  interval_cases m <;> cases leap <;> simp [daysBefore] at hd1 ⊢ <;> omega

theorem monthStart_mono (leap : Bool) (m n d : Nat) (hm0 : 1 ≤ m) (hmn : m < n) (hn1 : n ≤ 12)
    (hd1 : d ≤ if m = 2 ∧ leap = true then 29 else daysBefore m - daysBefore (m - 1)) :
    daysBefore (m - 1) + (if leap = true ∧ 3 ≤ m then 1 else 0) + d
      ≤ daysBefore (n - 1) + (if leap = true ∧ 3 ≤ n then 1 else 0) := by
  interval_cases n <;> interval_cases m <;> cases leap <;> simp [daysBefore] at hd1 ⊢ <;> omega

theorem daysFromCivil_bounds (y : Int) (m d : Nat) (hm0 : 1 ≤ m) (hm1 : m ≤ 12) (hd0 : 1 ≤ d)
    (hd1 : d ≤ daysIn m y) :
    daysBeforeYear y ≤ daysFromCivil y m d ∧ daysFromCivil y m d < daysBeforeYear (y + 1) := by
  rw [daysBeforeYear_succ]
  unfold daysIn at hd1
  have hb := yearDay_bound (isLeap y) m d hm0 hm1 hd0 hd1
  unfold daysFromCivil
  generalize isLeap y = leap at hb hd1 ⊢
  generalize daysBeforeYear y = b
  generalize daysBefore (m - 1) = s at hb ⊢
  cases leap <;> simp only [Bool.false_eq_true, false_and, if_false, true_and, if_true] at hb ⊢
    <;> (try split_ifs at hb ⊢) <;> omega

theorem daysFromCivil_month_lt (y : Int) (m n d e : Nat) (hm0 : 1 ≤ m) (hmn : m < n)
    (hn1 : n ≤ 12) (hd1 : d ≤ daysIn m y) (he0 : 1 ≤ e) :
    daysFromCivil y m d < daysFromCivil y n e := by
  unfold daysIn at hd1
  have hb := monthStart_mono (isLeap y) m n d hm0 hmn hn1 hd1
  unfold daysFromCivil
  generalize isLeap y = leap at hb hd1 ⊢
  generalize daysBeforeYear y = b
  generalize daysBefore (m - 1) = s at hb ⊢
  generalize daysBefore (n - 1) = t at hb ⊢
  cases leap <;> simp only [Bool.false_eq_true, false_and, if_false, true_and, if_true] at hb ⊢
    <;> (try split_ifs at hb ⊢) <;> omega

theorem daysFromCivil_year_lt (y z : Int) (m n d e : Nat) (hyz : y < z) (hm0 : 1 ≤ m)
    (hm1 : m ≤ 12) (hd0 : 1 ≤ d) (hd1 : d ≤ daysIn m y) (hn0 : 1 ≤ n) (hn1 : n ≤ 12)
    (he0 : 1 ≤ e) (he1 : e ≤ daysIn n z) : daysFromCivil y m d < daysFromCivil z n e := by
  have h1 := (daysFromCivil_bounds y m d hm0 hm1 hd0 hd1).2
  have h2 := (daysFromCivil_bounds z n e hn0 hn1 he0 he1).1
  have h3 := daysBeforeYear_mono (y + 1) z (by omega)
  omega

/-- The order of the texts `formatCivil` writes for two seconds of the years
0000 to 9999 is the order of the seconds. -/
theorem strLE_formatCivil_iff (c1 c2 : Civil) (h1 : c1.wellFormed) (h2 : c2.wellFormed) :
    strLE (formatCivil c1) (formatCivil c2) = true ↔ unixOfCivil c1 ≤ unixOfCivil c2 := by
  rw [strLE_formatCivil c1 c2 h1 h2]
  obtain ⟨y0, y1, m0, m1, d0, d1, hh, hmi, hs⟩ := h1
  obtain ⟨z0, z1, n0, n1, e0, e1, kh, kmi, ks⟩ := h2
  obtain ⟨y, m, d, h, mi, s⟩ := c1
  obtain ⟨z, n, e, k, ni, t⟩ := c2
  simp only at *
  unfold unixOfCivil
  simp only
  by_cases hy : y = z
  · subst hy
    rw [if_pos rfl]
    by_cases hm : m = n
    · subst hm
      rw [if_pos rfl]
      have hday : daysFromCivil y m e - daysFromCivil y m d = (e : Int) - d := by
        unfold daysFromCivil
        omega
      by_cases hd : d = e
      · subst hd
        rw [if_pos rfl]
        by_cases hhk : h = k
        · subst hhk
          rw [if_pos rfl]
          by_cases hmn : mi = ni
          · subst hmn
            rw [if_pos rfl, decide_eq_true_eq]
            omega
          · rw [if_neg hmn, decide_eq_true_eq]
            omega
        · rw [if_neg hhk, decide_eq_true_eq]
          omega
      · rw [if_neg hd, decide_eq_true_eq]
        omega
    · rw [if_neg hm, decide_eq_true_eq]
      rcases Nat.lt_or_gt_of_ne hm with hlt | hgt
      · have := daysFromCivil_month_lt y m n d e m0 hlt n1 d1 e0
        omega
      · have := daysFromCivil_month_lt y n m e d n0 hgt m1 e1 d0
        omega
  · rw [if_neg hy, decide_eq_true_eq]
    rcases lt_or_gt_of_ne hy with hlt | hgt
    · have := daysFromCivil_year_lt y z m n d e hlt m0 m1 d0 d1 n0 n1 e0 e1
      omega
    · have := daysFromCivil_year_lt z y n m e d hgt n0 n1 e0 e1 m0 m1 d0 d1
      omega

theorem civilOfUnix_wellFormed (t : Time) (h : t.inYears = true) :
    (civilOfUnix t.unix).wellFormed := by
  obtain ⟨hm1, hm2, hd1, hd2, hh, hmi, hs, _⟩ := civilOfUnix_spec t.unix
  exact ⟨((inYears_iff t).1 h).1, ((inYears_iff t).1 h).2, hm1, hm2, hd1, hd2, hh, hmi, hs⟩

/-- For instants of the years 0000 to 9999 the bytewise order of the texts
`formatTime` writes is the order of the Unix seconds. -/
theorem strLE_formatTime_iff (t1 t2 : Time) (h1 : t1.inYears = true) (h2 : t2.inYears = true) :
    strLE (formatTime t1) (formatTime t2) = true ↔ t1.unix ≤ t2.unix := by
  unfold formatTime
  rw [strLE_formatCivil_iff _ _ (civilOfUnix_wellFormed t1 h1) (civilOfUnix_wellFormed t2 h2),
    (civilOfUnix_spec t1.unix).2.2.2.2.2.2.2, (civilOfUnix_spec t2.unix).2.2.2.2.2.2.2]


/-! ## Order preservation of `formatTime` and the `since` bound -/

set_option maxRecDepth 100000 in
/-- C12 as stated fails: the last second of the year 9999 is before the first
second of the year 10000, but its text `9999-12-31T23:59:59Z` is bytewise
above `10000-01-01T00:00:00Z`; so the first implication fails for this pair,
and the second for the pair swapped. -/
theorem formatTime_order_breaks_at_year_10000 :
    endOf9999.le startOf10000 ∧
    strLE (formatTime endOf9999) (formatTime startOf10000) = false ∧
    strLT (formatTime startOf10000) (formatTime endOf9999) = true ∧
    ¬ startOf10000.unixNano < endOf9999.unixNano := by
  refine ⟨?_, by decide, by decide, ?_⟩
  · unfold Time.le
    decide
  · decide

/-- C12, amended: for two instants of the years 0000 to 9999, `t1` not after
`t2` implies that the text of `t1` is bytewise below or equal to that of `t2`,
and the text of `t1` strictly below that of `t2` implies `t1` before `t2`; the
order of the texts is the order of the whole seconds, and the texts are equal
exactly when the instants fall in the same second. -/
theorem formatTime_order_preserving (t1 t2 : Time) (h1 : t1.inYears = true)
    (h2 : t2.inYears = true) :
    (t1.le t2 → strLE (formatTime t1) (formatTime t2) = true) ∧
    (strLT (formatTime t1) (formatTime t2) = true → t1.unixNano < t2.unixNano) ∧
    (strLE (formatTime t1) (formatTime t2) = true ↔ t1.unix ≤ t2.unix) ∧
    (formatTime t1 = formatTime t2 ↔ t1.unix = t2.unix) := by
  have h12 := strLE_formatTime_iff t1 t2 h1 h2
  have h21 := strLE_formatTime_iff t2 t1 h2 h1
  refine ⟨?_, ?_, h12, ?_⟩
  · intro hle
    rw [h12]
    unfold Time.le at hle
    unfold Time.unix
    omega
  · intro hlt
    unfold strLT at hlt
    have hn : ¬ t2.unix ≤ t1.unix := by
      rw [← h21]
      intro e
      rw [e] at hlt
      cases hlt
    unfold Time.unix at hn
    omega
  · constructor
    · intro e
      have a := h12.1 (by rw [e]; exact strLE_refl _)
      have b := h21.1 (by rw [e]; exact strLE_refl _)
      omega
    · intro e
      unfold formatTime
      rw [e]

set_option maxRecDepth 100000 in
/-- C12, amended, at 2024-01-01T00:01:00.5Z and 00:01:00.7Z: the two instants
of one second get the same text. -/
theorem formatTime_order_preserving_witness :
    strLE (formatTime demoEnv.now) (formatTime demoSince) = true ∧
    formatTime demoEnv.now = formatTime demoSince :=
  ⟨(formatTime_order_preserving demoEnv.now demoSince (by decide) (by decide)).1
      (by unfold Time.le; decide),
   (formatTime_order_preserving demoEnv.now demoSince (by decide) (by decide)).2.2.2.2
      (by decide)⟩

theorem sessionCounts_total (rows : List SessionRow) (a b : Nat) (c : Int)
    (h : sessionCounts rows = some (a, b, c)) : a = rows.length := by
  unfold sessionCounts at h
  split at h
  · cases h
  · split_ifs at h
    injection h with h
    rw [Prod.mk.injEq] at h
    exact h.1.symm

/-- C13 as stated fails: a session started at 2024-01-01T00:01:00.5Z is counted
by `GetAgentStats` with the bound 00:01:00.7Z, two tenths of a second after
its start. -/
theorem since_counts_earlier_start_in_same_second :
    ∃ d, StartSession (some emptyDB) demoEnv (utf8 "agentX") (utf8 "/ws") (utf8 "sonnet")
        = (Except.ok (utf8 "s2"), some d) ∧
      demoEnv.now.unixNano < demoSince.unixNano ∧
      (GetAgentStats (some d) (sqliteDates demoSince) (utf8 "agentX") demoSince).map
        (fun s => s.TotalSessions) = Except.ok 1 :=
  ⟨_, rfl, by decide, rfl⟩

/-- C13, amended: when `GetAgentStats` succeeds on tables whose `started_at`
texts were written by `formatTime` for instants of the years 0000 to 9999,
with a bound of those years, `TotalSessions` is the number of sessions of the
agent whose start, cut down to the whole second, is not before the bound cut
down to the whole second: a session started exactly at the bound is counted,
one started in an earlier second is not, and one started earlier within the
second of the bound is counted. -/
theorem since_bound_whole_seconds (d : Database) (E : DateFns) (agent : GoString) (since : Time)
    (start : SessionRow → Time) (stats : AgentStats) (hs : since.inYears = true)
    (hrows : ∀ r ∈ d.sessions, r.started_at = formatTime (start r) ∧ (start r).inYears = true)
    (h : GetAgentStats (some d) E agent since = Except.ok stats) :
    stats.TotalSessions = d.sessions.countP
      (fun r => decide (r.agent_name = agent) && decide (since.unix ≤ (start r).unix)) := by
  unfold GetAgentStats at h
  simp only at h
  split_ifs at h with ha
  split at h
  · cases h
  · rename_i total active tokens hc
    injection h with h
    subst h
    simp only
    rw [sessionCounts_total _ _ _ _ hc, ← List.countP_eq_length_filter]
    apply List.countP_congr
    intro r hr
    obtain ⟨e, hy⟩ := hrows r hr
    have hiff := strLE_formatTime_iff since (start r) hs hy
    rw [e]
    simp only [Bool.and_eq_true, decide_eq_true_eq, hiff]

set_option maxRecDepth 100000 in
/-- C13, amended, on the example database, whose session started at
2024-01-01T00:00:00Z, with the bound nine tenths of a second later: the
session is counted, its second being that of the bound. -/
theorem since_bound_whole_seconds_witness :
    ∃ stats, GetAgentStats (some demoDB) (sqliteDates demoSince) (utf8 "agentX")
        ⟨1704067200900000000, 0⟩ = Except.ok stats ∧ stats.TotalSessions = 1 := by
  have h : ∃ stats, GetAgentStats (some demoDB) (sqliteDates demoSince) (utf8 "agentX")
      ⟨1704067200900000000, 0⟩ = Except.ok stats := ⟨_, rfl⟩
  obtain ⟨stats, hs⟩ := h
  have e := since_bound_whole_seconds demoDB (sqliteDates demoSince) (utf8 "agentX")
    ⟨1704067200900000000, 0⟩ (fun _ => ⟨1704067200000000000, 0⟩) stats (by decide)
    (by
      intro r hr
      have hr1 : r = demoSessionRFC := by simpa [demoDB] using hr
      subst hr1
      exact ⟨by decide, by decide⟩) hs
  exact ⟨stats, hs, e.trans (by decide)⟩


/-! ## The tracked-issue scenario -/

/-- SQLite `JULIANDAY` reads every text `formatCivil` writes for a second of
the years 0000 to 9999. -/
theorem sqliteJulianday_formatCivil (c : Civil) (hc : c.wellFormed) :
    ∃ v, sqliteJulianday (formatCivil c) = some v := by
  obtain ⟨h0, h1, hm1, hm2, hd1, hd2, hh, hmi, hs⟩ := hc
  have hd31 := daysIn_le c.month c.year hm2
  have hfmt : formatCivil c =
      appendYear c.year ++ [byte 45] ++ pad2 c.month ++ [byte 45] ++ pad2 c.day ++
        (byte 84 :: (pad2 c.hour ++ [byte 58] ++ pad2 c.minute ++ [byte 58] ++ pad2 c.second
          ++ [byte 90])) := by
    unfold formatCivil
    simp only [List.append_assoc, List.singleton_append, List.cons_append, List.nil_append]
  unfold sqliteJulianday
  rw [hfmt, parseDate_format c.year c.month c.day h0 h1 hm1 hm2 (by omega)]
  simp only
  rw [if_pos ⟨Or.inl rfl, hd1, by omega⟩, parseClock_format _ c.hour c.minute c.second hh hmi hs]
  simp only
  have hlen : List.length (pad2 c.hour ++ [byte 58] ++ pad2 c.minute ++ [byte 58]
      ++ pad2 c.second ++ [byte 90]) = 8 + [byte 90].length := rfl
  rw [if_pos ⟨Or.inr trivial, hlen⟩]
  exact ⟨_, rfl⟩

theorem sqliteJulianday_formatTime (t : Time) (h : t.inYears = true) :
    ∃ v, sqliteJulianday (formatTime t) = some v :=
  sqliteJulianday_formatCivil _ (civilOfUnix_wellFormed t h)

/-- `GetIssueStats` on a work table with a single row, completed and on the
issue asked for, whose two timestamps `JULIANDAY` can read. -/
theorem getIssueStats_single (d : Database) (E : DateFns) (issue e : GoString) (w : WorkRow)
    (jx jy : F64) (hw : d.work = [w]) (hne : issue ≠ []) (hissue : w.issue_id = issue)
    (hdone : w.completed = some true) (hend : w.ended_at = some e)
    (hjx : E.julianday e = some jx) (hjy : E.julianday w.started_at = some jy) :
    ∃ stats, GetIssueStats (some d) E issue = Except.ok stats ∧
      stats.IsCompleted = true ∧ stats.TotalAgents = 1 ∧ stats.TotalWorkSessions = 1 := by
  have hrows : d.work.filter (fun r => decide (r.issue_id = issue)) = [w] := by
    rw [hw, List.filter_cons, if_pos (by simp [hissue]), List.filter_nil]
  have hgroup : [w].filter (fun r => decide (r.agent_name = w.agent_name)) = [w] := by
    rw [List.filter_cons, if_pos (by simp), List.filter_nil]
  have hdays : workDays E w = some (F64.sub jx jy) := by
    unfold workDays jdDiff
    rw [hend]
    simp only [hjy]
    rw [show (some e).bind E.julianday = some jx from hjx]
  have hwork : agentWorkOf E w.agent_name [w] = some
      { AgentName := w.agent_name, WorkSessions := 1,
        TotalTime := durationOfSeconds E (F64.mul (F64.sub jx jy) (F64.ofInt 86400)),
        Completed := 1 } := by
    unfold agentWorkOf
    simp only [List.filterMap_cons, List.filterMap_nil, hdays, hdone, sumReal, timesDay,
      List.foldl_nil, Option.map_some', List.length_singleton]
    rfl
  unfold GetIssueStats
  simp only [hne, if_false, hrows, List.filterMap_cons, List.filterMap_nil, hdone, List.map_cons,
    List.map_nil]
  have hagents : ([w.agent_name].dedup).insertionSort (fun a b => strLE a b = true)
      = [w.agent_name] := by
    rw [List.dedup_cons_of_not_mem (List.not_mem_nil _), List.dedup_nil]
    rfl
  rw [hagents, List.mapM_cons, List.mapM_nil, hgroup, hwork]
  exact ⟨_, rfl, rfl, by simp [countDistinct], rfl⟩
theorem sqliteDates_julianday (t : Time) : (sqliteDates t).julianday = sqliteJulianday := rfl

/-- C11: from empty tables, with any non-empty agent, workspace, issue and
skill names, the identifiers the generator returns being non-empty and the
clock readings of `RecordWork` and `CompleteWork` in the years 0000 to 9999:
`StartSession`, `RecordWork` in that session, `RecordSkillUsage`,
`CompleteWork` on that work and `EndSession` on that session all succeed, and
`GetIssueStats` on the issue then succeeds and reports it completed, with one
agent and one work session. -/
theorem tracked_issue_completed (fk : Bool) (e1 e2 e3 e4 e5 : Env) (tq : Time)
    (agent ws tier issue skill rationale notes reason : GoString) (ctx : Int)
    (hagent : agent ≠ []) (hws : ws ≠ []) (hissue : issue ≠ []) (hskill : skill ≠ [])
    (hsid : e1.newID ≠ []) (hwid : e2.newID ≠ [])
    (h2 : e2.now.inYears = true) (h4 : e4.now.inYears = true) :
    ∃ d1 d2 d3 d4 d5 stats,
      StartSession (some (initialized fk)) e1 agent ws tier = (Except.ok e1.newID, some d1) ∧
      RecordWork (some d1) e2 e1.newID issue agent rationale = (Except.ok e2.newID, some d2) ∧
      RecordSkillUsage (some d2) e3 e1.newID skill issue ctx = (Except.ok (), some d3) ∧
      CompleteWork (some d3) e4 e2.newID notes = (Except.ok (), some d4) ∧
      EndSession (some d4) e5 e1.newID reason = (Except.ok (), some d5) ∧
      GetIssueStats (some d5) (sqliteDates tq) issue = Except.ok stats ∧
      stats.IsCompleted = true ∧ stats.TotalAgents = 1 ∧ stats.TotalWorkSessions = 1 := by
  obtain ⟨jx, hjx⟩ := sqliteJulianday_formatTime e4.now h4
  obtain ⟨jy, hjy⟩ := sqliteJulianday_formatTime e2.now h2
  obtain ⟨s, hs⟩ : ∃ s : SessionRow, s =
      { session_id := e1.newID, agent_name := agent, workspace_path := ws,
        started_at := formatTime e1.now, ended_at := none, exit_reason := none,
        issues_claimed := some (utf8 "[]"), skills_used := some (utf8 "[]"),
        model_tier := some tier, context_tokens := some 0,
        created_at := sqliteDatetime e1.sqlNow } := ⟨_, rfl⟩
  obtain ⟨w, hw⟩ : ∃ w : WorkRow, w =
      { work_id := e2.newID, issue_id := issue, session_id := e1.newID, agent_name := agent,
        started_at := formatTime e2.now, ended_at := none, status_changes := some (utf8 "[]"),
        decision_rationale := some rationale, work_notes := none, completed := some false } :=
    ⟨_, rfl⟩
  obtain ⟨u, hu⟩ : ∃ u : SkillUsageRow, u =
      { usage_id := e3.newID, session_id := e1.newID, skill_name := skill,
        loaded_at := formatTime e3.now, used_for_issue_id := some issue,
        context_added := some ctx } := ⟨_, rfl⟩
  obtain ⟨w2, hw2⟩ : ∃ w2 : WorkRow, w2 =
      { w with ended_at := some (formatTime e4.now)
               work_notes := some notes
               completed := some true } := ⟨_, rfl⟩
  obtain ⟨s2, hs2⟩ : ∃ s2 : SessionRow, s2 =
      { s with ended_at := some (formatTime e5.now)
               exit_reason := some reason } := ⟨_, rfl⟩
  have hsid1 : s.session_id = e1.newID := by rw [hs]
  have hwid1 : w.work_id = e2.newID := by rw [hw]
  have st1 : StartSession (some (initialized fk)) e1 agent ws tier =
      (Except.ok e1.newID, some ⟨[s], [], [], fk⟩) := by
    unfold StartSession insertSession initialized
    simp only [hagent, hws, if_false, List.any_nil, Bool.false_eq_true, List.nil_append, ← hs]
  have st2 : RecordWork (some ⟨[s], [], [], fk⟩) e2 e1.newID issue agent rationale =
      (Except.ok e2.newID, some ⟨[s], [w], [], fk⟩) := by
    unfold RecordWork insertWork fkHolds
    simp only [hsid, hissue, hagent, if_false, List.any_nil, Bool.false_eq_true, List.nil_append,
      List.any_cons, hsid1, decide_True, Bool.true_or, Bool.or_true, if_true, ← hw]
  have st3 : RecordSkillUsage (some ⟨[s], [w], [], fk⟩) e3 e1.newID skill issue ctx =
      (Except.ok (), some ⟨[s], [w], [u], fk⟩) := by
    unfold RecordSkillUsage insertSkillUsage fkHolds
    simp only [hsid, hskill, if_false, List.any_nil, Bool.false_eq_true, List.nil_append,
      List.any_cons, hsid1, decide_True, Bool.true_or, Bool.or_true, if_true, ← hu]
  have st4 : CompleteWork (some ⟨[s], [w], [u], fk⟩) e4 e2.newID notes =
      (Except.ok (), some ⟨[s], [w2], [u], fk⟩) := by
    rw [CompleteWork_some _ _ _ _ hwid, hw2]
    simp only [List.countP_cons, List.countP_nil, hwid1, decide_True, List.map_cons, List.map_nil,
      if_true, zero_add, one_ne_zero, if_false]
  have st5 : EndSession (some ⟨[s], [w2], [u], fk⟩) e5 e1.newID reason =
      (Except.ok (), some ⟨[s2], [w2], [u], fk⟩) := by
    rw [EndSession_some _ _ _ _ hsid, hs2]
    simp only [List.countP_cons, List.countP_nil, hsid1, decide_True, List.map_cons, List.map_nil,
      if_true, zero_add, one_ne_zero, if_false]
  have hissue1 : w2.issue_id = issue := by rw [hw2, hw]
  have hstart1 : w2.started_at = formatTime e2.now := by rw [hw2, hw]
  have hend1 : w2.ended_at = some (formatTime e4.now) := by rw [hw2]
  have hdone1 : w2.completed = some true := by rw [hw2]
  have st6 : ∃ stats, GetIssueStats (some ⟨[s2], [w2], [u], fk⟩) (sqliteDates tq) issue
        = Except.ok stats ∧
      stats.IsCompleted = true ∧ stats.TotalAgents = 1 ∧ stats.TotalWorkSessions = 1 := by
    have kx : (sqliteDates tq).julianday (formatTime e4.now) = some jx := by
      rw [sqliteDates_julianday, hjx]
    have ky : (sqliteDates tq).julianday w2.started_at = some jy := by
      rw [sqliteDates_julianday, hstart1, hjy]
    exact getIssueStats_single _ (sqliteDates tq) issue (formatTime e4.now) w2 jx jy rfl hissue
      hissue1 hdone1 hend1 kx ky
  obtain ⟨stats, hst, hc, ha, ht⟩ := st6
  exact ⟨_, _, _, _, _, stats, st1, st2, st3, st4, st5, hst, hc, ha, ht⟩

set_option maxRecDepth 100000 in
/-- C11 with the names of the scenario, on a connection that does not enforce
foreign keys, the five steps at 00:00:00, 00:00:10, 00:00:20, 00:01:10 and
00:01:40 of 2024-01-01. -/
theorem tracked_issue_completed_witness :
    ∃ d1 d2 d3 d4 d5 stats,
      StartSession (some (initialized false)) (envAt "s1" 1704067200) (utf8 "agentX") (utf8 "/ws")
        (utf8 "sonnet") = (Except.ok (envAt "s1" 1704067200).newID, some d1) ∧
      RecordWork (some d1) (envAt "w1" 1704067210) (envAt "s1" 1704067200).newID
        (utf8 "issue-1") (utf8 "agentX") (utf8 "r")
        = (Except.ok (envAt "w1" 1704067210).newID, some d2) ∧
      RecordSkillUsage (some d2) (envAt "u1" 1704067220) (envAt "s1" 1704067200).newID
        (utf8 "dep-thinking") (utf8 "issue-1") 500 = (Except.ok (), some d3) ∧
      CompleteWork (some d3) (envAt "x" 1704067270) (envAt "w1" 1704067210).newID (utf8 "done")
        = (Except.ok (), some d4) ∧
      EndSession (some d4) (envAt "x" 1704067300) (envAt "s1" 1704067200).newID
        (utf8 "completed") = (Except.ok (), some d5) ∧
      GetIssueStats (some d5) (sqliteDates demoSince) (utf8 "issue-1") = Except.ok stats ∧
      stats.IsCompleted = true ∧ stats.TotalAgents = 1 ∧ stats.TotalWorkSessions = 1 :=
  tracked_issue_completed false (envAt "s1" 1704067200) (envAt "w1" 1704067210)
    (envAt "u1" 1704067220) (envAt "x" 1704067270) (envAt "x" 1704067300) demoSince
    (utf8 "agentX") (utf8 "/ws") (utf8 "sonnet") (utf8 "issue-1") (utf8 "dep-thinking")
    (utf8 "r") (utf8 "done") (utf8 "completed") 500 (by decide) (by decide) (by decide)
    (by decide) (by decide) (by decide) (by decide) (by decide)


/-! ## The referential invariant of work rows -/

set_option maxRecDepth 100000 in
/-- C18 as stated fails: on a connection that does not enforce foreign keys
(the default of SQLite, which this package never changes), `RecordWork` with a
session identifier that matches no session succeeds on the empty tables and
leaves a work row that names no session. -/
theorem recordWork_leaves_dangling_row :
    (RecordWork (some (initialized false)) demoEnv (utf8 "ghost") (utf8 "issue-1")
      (utf8 "agentX") []).1 = Except.ok (utf8 "s2") ∧
    ∃ d, runCalls [Call.recordWork demoEnv (utf8 "ghost") (utf8 "issue-1") (utf8 "agentX") []]
        (some (initialized false)) = some d ∧
      d.sessions = [] ∧ d.work.map (fun w => w.session_id) = [utf8 "ghost"] ∧
      workRefsHold d = false :=
  ⟨rfl, _, rfl, rfl, rfl, by decide⟩

theorem consistent_update_sessions (d : Database) (g : SessionRow → SessionRow)
    (hg : ∀ r, (g r).session_id = r.session_id) (h : d.consistent) :
    Database.consistent { d with sessions := d.sessions.map g } := by
  obtain ⟨hfk, hnd, href⟩ := h
  refine ⟨hfk, ?_, ?_⟩
  · have e : (d.sessions.map g).map (fun s => s.session_id)
        = d.sessions.map (fun s => s.session_id) := by
      rw [List.map_map]
      exact List.map_congr_left (fun r _ => hg r)
    exact e ▸ hnd
  · intro w hw
    obtain ⟨s, hs, hsw⟩ := href w hw
    exact ⟨g s, List.mem_map_of_mem g hs, by rw [hg, hsw]⟩

theorem consistent_update_work (d : Database) (g : WorkRow → WorkRow)
    (hg : ∀ r, (g r).session_id = r.session_id) (h : d.consistent) :
    Database.consistent { d with work := d.work.map g } := by
  obtain ⟨hfk, hnd, href⟩ := h
  refine ⟨hfk, hnd, ?_⟩
  intro w hw
  obtain ⟨w0, hw0, rfl⟩ := List.mem_map.1 hw
  rw [hg]
  exact href w0 hw0

theorem consistent_insertSession (d d1 : Database) (r : SessionRow) (h : d.consistent)
    (hi : insertSession d r = some d1) : d1.consistent := by
  obtain ⟨hfk, hnd, href⟩ := h
  unfold insertSession at hi
  split_ifs at hi with hany
  injection hi with hi
  subst hi
  refine ⟨hfk, ?_, ?_⟩
  · show ((d.sessions ++ [r]).map (fun s => s.session_id)).Nodup
    rw [List.map_append, List.nodup_append]
    refine ⟨hnd, List.nodup_singleton _, ?_⟩
    intro x hx hx1
    obtain ⟨s, hs, rfl⟩ := List.mem_map.1 hx
    have hxr : s.session_id = r.session_id := by simpa using hx1
    exact hany (List.any_eq_true.2 ⟨s, hs, by simp [hxr]⟩)
  · intro w hw
    obtain ⟨s, hs, hsw⟩ := href w hw
    exact ⟨s, List.mem_append_left _ hs, hsw⟩

theorem consistent_insertWork (d d1 : Database) (r : WorkRow) (h : d.consistent)
    (hi : insertWork d r = some d1) : d1.consistent := by
  obtain ⟨hfk, hnd, href⟩ := h
  unfold insertWork fkHolds at hi
  split_ifs at hi with hdup hfkh
  injection hi with hi
  subst hi
  refine ⟨hfk, hnd, ?_⟩
  intro w hw
  rcases List.mem_append.1 hw with hw | hw
  · exact href w hw
  · have hwr : w = r := by simpa using hw
    subst hwr
    rw [hfk] at hfkh
    simp only [Bool.not_true, Bool.false_or, List.any_eq_true, decide_eq_true_eq] at hfkh
    exact hfkh

theorem consistent_insertSkillUsage (d d1 : Database) (r : SkillUsageRow) (h : d.consistent)
    (hi : insertSkillUsage d r = some d1) : d1.consistent := by
  unfold insertSkillUsage at hi
  split_ifs at hi with hdup hfkh
  injection hi with hi
  subst hi
  exact h

/-- Every writing operation keeps the tables consistent, whether it succeeds
or fails. -/
theorem call_preserves (c : Call) (d : Database) (h : d.consistent) :
    ∃ d1, c.run (some d) = some d1 ∧ d1.consistent := by
  cases c with
  | startSession env a w m =>
    simp only [Call.run]
    unfold StartSession
    simp only
    split_ifs
    · exact ⟨d, rfl, h⟩
    · exact ⟨d, rfl, h⟩
    · split
      · exact ⟨d, rfl, h⟩
      · rename_i d1 hi
        exact ⟨d1, rfl, consistent_insertSession d d1 _ h hi⟩
  | endSession env id reason =>
    simp only [Call.run]
    by_cases hid : id = []
    · refine ⟨d, ?_, h⟩
      unfold EndSession
      simp only [hid, if_true]
    · rw [EndSession_some d env id reason hid]
      exact ⟨_, rfl, consistent_update_sessions d _ (fun r => by split_ifs <;> rfl) h⟩
  | updateSessionIssues id issues =>
    simp only [Call.run]
    by_cases hid : id = []
    · refine ⟨d, ?_, h⟩
      unfold UpdateSessionIssues
      simp only [hid, if_true]
    · rw [UpdateSessionIssues_some d id issues hid]
      exact ⟨_, rfl, consistent_update_sessions d _ (fun r => by split_ifs <;> rfl) h⟩
  | updateSessionSkills id skills =>
    simp only [Call.run]
    by_cases hid : id = []
    · refine ⟨d, ?_, h⟩
      unfold UpdateSessionSkills
      simp only [hid, if_true]
    · rw [UpdateSessionSkills_some d id skills hid]
      exact ⟨_, rfl, consistent_update_sessions d _ (fun r => by split_ifs <;> rfl) h⟩
  | updateSessionTokens id tokens =>
    simp only [Call.run]
    by_cases hid : id = []
    · refine ⟨d, ?_, h⟩
      unfold UpdateSessionTokens
      simp only [hid, if_true]
    · rw [UpdateSessionTokens_some d id tokens hid]
      exact ⟨_, rfl, consistent_update_sessions d _ (fun r => by split_ifs <;> rfl) h⟩
  | recordWork env sid issue agent rationale =>
    simp only [Call.run]
    unfold RecordWork
    simp only
    split_ifs
    · exact ⟨d, rfl, h⟩
    · exact ⟨d, rfl, h⟩
    · exact ⟨d, rfl, h⟩
    · split
      · exact ⟨d, rfl, h⟩
      · rename_i d1 hi
        exact ⟨d1, rfl, consistent_insertWork d d1 _ h hi⟩
  | completeWork env wid notes =>
    simp only [Call.run]
    by_cases hid : wid = []
    · refine ⟨d, ?_, h⟩
      unfold CompleteWork
      simp only [hid, if_true]
    · rw [CompleteWork_some d env wid notes hid]
      exact ⟨_, rfl, consistent_update_work d _ (fun r => by split_ifs <;> rfl) h⟩
  | recordSkillUsage env sid skill issue n =>
    simp only [Call.run]
    unfold RecordSkillUsage
    simp only
    split_ifs
    · exact ⟨d, rfl, h⟩
    · exact ⟨d, rfl, h⟩
    · split
      · exact ⟨d, rfl, h⟩
      · rename_i d1 hi
        exact ⟨d1, rfl, consistent_insertSkillUsage d d1 _ h hi⟩

theorem runCalls_consistent (cs : List Call) (d : Database) (h : d.consistent) :
    ∃ d1, runCalls cs (some d) = some d1 ∧ d1.consistent := by
  induction cs generalizing d with
  | nil => exact ⟨d, rfl, h⟩
  | cons c t ih =>
    obtain ⟨d1, hrun, hc⟩ := call_preserves c d h
    obtain ⟨d2, hrun2, hc2⟩ := ih d1 hc
    refine ⟨d2, ?_, hc2⟩
    unfold runCalls at hrun2 ⊢
    rw [List.foldl_cons, hrun, hrun2]

theorem countP_session_eq_one (l : List SessionRow) (id : GoString)
    (hnd : (l.map (fun s => s.session_id)).Nodup) (hex : ∃ s ∈ l, s.session_id = id) :
    l.countP (fun s => decide (s.session_id = id)) = 1 := by
  induction l with
  | nil =>
    obtain ⟨s, hs, _⟩ := hex
    cases hs
  | cons a t ih =>
    rw [List.map_cons, List.nodup_cons] at hnd
    by_cases ha : a.session_id = id
    · rw [List.countP_cons_of_pos _ _ (by simp [ha]),
        countP_eq_zero_of_no_match t _ (fun r hr => by
          have hne : r.session_id ≠ id := fun e =>
            hnd.1 (List.mem_map.2 ⟨r, hr, by rw [e, ha]⟩)
          simp [hne])]
    · rw [List.countP_cons_of_neg _ _ (by simp [ha])]
      apply ih hnd.2
      obtain ⟨s, hs, hsid⟩ := hex
      rcases List.mem_cons.1 hs with rfl | hs
      · exact absurd hsid ha
      · exact ⟨s, hs, hsid⟩

/-- C18, amended: on a connection that enforces foreign keys, in every state
reached from the empty tables by any sequence of calls of the writing
operations, each work row names, in `session_id`, exactly one existing session
row; and `RecordWork` with a session identifier that matches no session fails
and leaves the tables as they were. -/
theorem work_rows_reference_sessions (cs : List Call) :
    ∃ d, runCalls cs (some (initialized true)) = some d ∧ workRefsHold d = true ∧
      (∀ w ∈ d.work, ∃! s, s ∈ d.sessions ∧ s.session_id = w.session_id) ∧
      ∀ env sid issue agent rationale, (∀ s ∈ d.sessions, s.session_id ≠ sid) →
        ∃ e, RecordWork (some d) env sid issue agent rationale = (Except.error e, some d) := by
  obtain ⟨d, hrun, hfk, hnd, href⟩ :=
    runCalls_consistent cs (initialized true) ⟨rfl, List.nodup_nil, fun w hw => by cases hw⟩
  refine ⟨d, hrun, ?_, ?_, ?_⟩
  · unfold workRefsHold
    rw [List.all_eq_true]
    intro w hw
    rw [decide_eq_true_eq]
    exact countP_session_eq_one _ _ hnd (href w hw)
  · intro w hw
    obtain ⟨s, hs, hsw⟩ := href w hw
    refine ⟨s, ⟨hs, hsw⟩, ?_⟩
    rintro s1 ⟨hs1, hsw1⟩
    exact List.inj_on_of_nodup_map hnd hs1 hs (by rw [hsw1, hsw])
  · intro env sid issue agent rationale hno
    unfold RecordWork
    simp only
    split_ifs
    · exact ⟨_, rfl⟩
    · exact ⟨_, rfl⟩
    · exact ⟨_, rfl⟩
    · have hins : ∀ r : WorkRow, r.session_id = sid → insertWork d r = none := by
        intro r hr
        unfold insertWork fkHolds
        split_ifs with hdup hfkh
        · rfl
        · rw [hfk] at hfkh
          simp only [Bool.not_true, Bool.false_or, List.any_eq_true, decide_eq_true_eq] at hfkh
          obtain ⟨s, hs, hsid⟩ := hfkh
          exact absurd (hsid.trans hr) (hno s hs)
        · rfl
      rw [hins _ rfl]
      exact ⟨_, rfl⟩


/-! ## The list operations -/

theorem strLE_total (a b : GoString) : strLE a b = true ∨ strLE b a = true := by
  induction a generalizing b with
  | nil => exact Or.inl rfl
  | cons x a ih =>
    cases b with
    | nil => exact Or.inr rfl
    | cons y b =>
      simp only [strLE, Bool.or_eq_true, Bool.and_eq_true, decide_eq_true_eq]
      rcases ih b with h | h
      · rcases Nat.lt_trichotomy x.val y.val with c | c | c
        · exact Or.inl (Or.inl c)
        · exact Or.inl (Or.inr ⟨c, h⟩)
        · exact Or.inr (Or.inl c)
      · rcases Nat.lt_trichotomy x.val y.val with c | c | c
        · exact Or.inl (Or.inl c)
        · exact Or.inr (Or.inr ⟨c.symm, h⟩)
        · exact Or.inr (Or.inl c)

theorem strLE_trans (a b c : GoString) (hab : strLE a b = true) (hbc : strLE b c = true) :
    strLE a c = true := by
  induction a generalizing b c with
  | nil => rfl
  | cons x a ih =>
    cases b with
    | nil => cases hab
    | cons y b =>
      cases c with
      | nil => cases hbc
      | cons z c =>
        simp only [strLE, Bool.or_eq_true, Bool.and_eq_true, decide_eq_true_eq] at hab hbc ⊢
        rcases hab with h1 | ⟨h1, h2⟩
        · rcases hbc with k1 | ⟨k1, _⟩
          · exact Or.inl (by omega)
          · exact Or.inl (by omega)
        · rcases hbc with k1 | ⟨k1, k2⟩
          · exact Or.inl (by omega)
          · exact Or.inr ⟨by omega, ih b c h2 k2⟩

theorem sessionsDesc_sorted (rows : List SessionRow) :
    (sessionsDesc rows).Sorted (fun a b => strLE b.started_at a.started_at = true) := by
  haveI : IsTotal SessionRow (fun a b => strLE b.started_at a.started_at = true) :=
    ⟨fun a b => strLE_total _ _⟩
  haveI : IsTrans SessionRow (fun a b => strLE b.started_at a.started_at = true) :=
    ⟨fun a b c hab hbc => strLE_trans _ _ _ hbc hab⟩
  exact List.sorted_insertionSort _ rows

theorem sessionsDesc_perm (rows : List SessionRow) : (sessionsDesc rows).Perm rows :=
  List.perm_insertionSort _ rows

/-- A relation between the elements of two lists that are related position by
position carries an order of the first list over to the second. -/
theorem forall2_pairwise {α β : Type} (R : α → β → Prop) (P : α → α → Prop) (Q : β → β → Prop)
    (l : List α) (ys : List β) (h : List.Forall₂ R l ys)
    (hPQ : ∀ a ∈ l, ∀ b ∈ l, ∀ x y, R a x → R b y → P a b → Q x y)
    (hP : l.Pairwise P) : ys.Pairwise Q := by
  induction h with
  | nil => exact List.Pairwise.nil
  | @cons a x l ys hax hrest ih =>
    rw [List.pairwise_cons] at hP ⊢
    constructor
    · intro y hy
      obtain ⟨b, hb, hby⟩ := forall2_mem_right R l ys hrest y hy
      exact hPQ a (List.mem_cons_self _ _) b (List.mem_cons_of_mem _ hb) x y hax hby (hP.1 b hb)
    · exact ih (fun a1 ha1 b1 hb1 => hPQ a1 (List.mem_cons_of_mem _ ha1) b1
        (List.mem_cons_of_mem _ hb1)) hP.2

/-- For rows whose `started_at` was written by `formatTime` in the years 0000
to 9999, the order of the stored texts is the order of the decoded starts. -/
theorem startedAt_le_of_text (r1 r2 : SessionRow) (s1 s2 : Session) (what : String)
    (hc1 : ∃ t : Time, t.inYears = true ∧ r1.started_at = formatTime t)
    (hc2 : ∃ t : Time, t.inYears = true ∧ r2.started_at = formatTime t)
    (h1 : scanSession what r1 = Except.ok s1) (h2 : scanSession what r2 = Except.ok s2)
    (hle : strLE r2.started_at r1.started_at = true) : s2.StartedAt.le s1.StartedAt := by
  obtain ⟨t1, hy1, e1⟩ := hc1
  obtain ⟨t2, hy2, e2⟩ := hc2
  obtain ⟨_, _, st1, _, _, hp1, _, hs1, _⟩ := scanSession_ok what r1 s1 h1
  obtain ⟨_, _, st2, _, _, hp2, _, hs2, _⟩ := scanSession_ok what r2 s2 h2
  rw [e1, parseTime_formatTime_of_range t1 ((inYears_iff t1).1 hy1).1 ((inYears_iff t1).1 hy1).2]
    at hp1
  rw [e2, parseTime_formatTime_of_range t2 ((inYears_iff t2).1 hy2).1 ((inYears_iff t2).1 hy2).2]
    at hp2
  injection hp1 with hp1
  injection hp2 with hp2
  rw [e1, e2, strLE_formatTime_iff t2 t1 hy2 hy1] at hle
  rw [hs1, hs2, ← hp1, ← hp2]
  unfold Time.le Time.truncSec
  simp only
  omega

theorem scanSession_id (what : String) (r : SessionRow) (s : Session)
    (h : scanSession what r = Except.ok s) : s.SessionID = r.session_id := by
  obtain ⟨_, _, _, _, _, _, _, _, _, _, hid⟩ := scanSession_ok what r s h
  exact hid

theorem ended_update_sessions (d : Database) (id : GoString) (g : SessionRow → SessionRow)
    (hg : ∀ r, (g r).session_id = r.session_id ∧ (r.ended_at ≠ none → (g r).ended_at ≠ none))
    (hex : ∃ r ∈ d.sessions, r.session_id = id)
    (hall : ∀ r ∈ d.sessions, r.session_id = id → r.ended_at ≠ none) :
    (∃ r ∈ d.sessions.map g, r.session_id = id) ∧
    ∀ r ∈ d.sessions.map g, r.session_id = id → r.ended_at ≠ none := by
  constructor
  · obtain ⟨r, hr, hrid⟩ := hex
    exact ⟨g r, List.mem_map_of_mem g hr, by rw [(hg r).1, hrid]⟩
  · intro x hx hxid
    obtain ⟨r, hr, rfl⟩ := List.mem_map.1 hx
    rw [(hg r).1] at hxid
    exact (hg r).2 (hall r hr hxid)

/-- No writing operation removes the end of an ended session or adds a second
row with its identifier. -/
theorem call_keeps_ended (c : Call) (d : Database) (id : GoString)
    (hex : ∃ r ∈ d.sessions, r.session_id = id)
    (hall : ∀ r ∈ d.sessions, r.session_id = id → r.ended_at ≠ none) :
    ∃ d1, c.run (some d) = some d1 ∧ (∃ r ∈ d1.sessions, r.session_id = id) ∧
      ∀ r ∈ d1.sessions, r.session_id = id → r.ended_at ≠ none := by
  cases c with
  | startSession env a w m =>
    simp only [Call.run]
    unfold StartSession
    simp only
    split_ifs
    · exact ⟨d, rfl, hex, hall⟩
    · exact ⟨d, rfl, hex, hall⟩
    · split
      · exact ⟨d, rfl, hex, hall⟩
      · rename_i d1 hi
        unfold insertSession at hi
        split_ifs at hi with hany
        injection hi with hi
        subst hi
        refine ⟨_, rfl, ?_, ?_⟩
        · obtain ⟨r, hr, hrid⟩ := hex
          exact ⟨r, List.mem_append_left _ hr, hrid⟩
        · intro x hx hxid
          rcases List.mem_append.1 hx with hx | hx
          · exact hall x hx hxid
          · have hxr := List.mem_singleton.1 hx
            subst hxr
            obtain ⟨r, hr, hrid⟩ := hex
            exact absurd (List.any_eq_true.2 ⟨r, hr, by simp [hrid, ← hxid]⟩) hany
  | endSession env sid reason =>
    simp only [Call.run]
    by_cases hid : sid = []
    · refine ⟨d, ?_, hex, hall⟩
      unfold EndSession
      simp only [hid, if_true]
    · rw [EndSession_some d env sid reason hid]
      refine ⟨_, rfl, ended_update_sessions d id _ (fun r => ?_) hex hall⟩
      split_ifs
      · exact ⟨rfl, fun _ => by simp⟩
      · exact ⟨rfl, fun h => h⟩
  | updateSessionIssues sid issues =>
    simp only [Call.run]
    by_cases hid : sid = []
    · refine ⟨d, ?_, hex, hall⟩
      unfold UpdateSessionIssues
      simp only [hid, if_true]
    · rw [UpdateSessionIssues_some d sid issues hid]
      refine ⟨_, rfl, ended_update_sessions d id _ (fun r => ?_) hex hall⟩
      split_ifs
      · exact ⟨rfl, fun h => h⟩
      · exact ⟨rfl, fun h => h⟩
  | updateSessionSkills sid skills =>
    simp only [Call.run]
    by_cases hid : sid = []
    · refine ⟨d, ?_, hex, hall⟩
      unfold UpdateSessionSkills
      simp only [hid, if_true]
    · rw [UpdateSessionSkills_some d sid skills hid]
      refine ⟨_, rfl, ended_update_sessions d id _ (fun r => ?_) hex hall⟩
      split_ifs
      · exact ⟨rfl, fun h => h⟩
      · exact ⟨rfl, fun h => h⟩
  | updateSessionTokens sid tokens =>
    simp only [Call.run]
    by_cases hid : sid = []
    · refine ⟨d, ?_, hex, hall⟩
      unfold UpdateSessionTokens
      simp only [hid, if_true]
    · rw [UpdateSessionTokens_some d sid tokens hid]
      refine ⟨_, rfl, ended_update_sessions d id _ (fun r => ?_) hex hall⟩
      split_ifs
      · exact ⟨rfl, fun h => h⟩
      · exact ⟨rfl, fun h => h⟩
  | recordWork env sid issue agent rationale =>
    simp only [Call.run]
    unfold RecordWork
    simp only
    split_ifs
    · exact ⟨d, rfl, hex, hall⟩
    · exact ⟨d, rfl, hex, hall⟩
    · exact ⟨d, rfl, hex, hall⟩
    · split
      · exact ⟨d, rfl, hex, hall⟩
      · rename_i d1 hi
        unfold insertWork at hi
        split_ifs at hi
        injection hi with hi
        subst hi
        exact ⟨_, rfl, hex, hall⟩
  | completeWork env wid notes =>
    simp only [Call.run]
    by_cases hid : wid = []
    · refine ⟨d, ?_, hex, hall⟩
      unfold CompleteWork
      simp only [hid, if_true]
    · rw [CompleteWork_some d env wid notes hid]
      exact ⟨_, rfl, hex, hall⟩
  | recordSkillUsage env sid skill issue n =>
    simp only [Call.run]
    unfold RecordSkillUsage
    simp only
    split_ifs
    · exact ⟨d, rfl, hex, hall⟩
    · exact ⟨d, rfl, hex, hall⟩
    · split
      · exact ⟨d, rfl, hex, hall⟩
      · rename_i d1 hi
        unfold insertSkillUsage at hi
        split_ifs at hi
        injection hi with hi
        subst hi
        exact ⟨_, rfl, hex, hall⟩

theorem runCalls_keeps_ended (cs : List Call) (d d2 : Database) (id : GoString)
    (hex : ∃ r ∈ d.sessions, r.session_id = id)
    (hall : ∀ r ∈ d.sessions, r.session_id = id → r.ended_at ≠ none)
    (hrun : runCalls cs (some d) = some d2) :
    ∀ r ∈ d2.sessions, r.session_id = id → r.ended_at ≠ none := by
  induction cs generalizing d with
  | nil =>
    cases hrun
    exact hall
  | cons c t ih =>
    obtain ⟨d1, hc, hex1, hall1⟩ := call_keeps_ended c d id hex hall
    unfold runCalls at hrun ih
    rw [List.foldl_cons, hc] at hrun
    exact ih d1 hex1 hall1 hrun

/-- After a successful `EndSession` the session exists and every row with its
identifier has an end. -/
theorem endSession_ok_ended (d0 d1 : Database) (env : Env) (id reason : GoString)
    (h : EndSession (some d0) env id reason = (Except.ok (), some d1)) :
    (∃ r ∈ d1.sessions, r.session_id = id) ∧
    ∀ r ∈ d1.sessions, r.session_id = id → r.ended_at ≠ none := by
  have hid : id ≠ [] := by
    intro e
    rw [e] at h
    unfold EndSession at h
    simp only [if_true] at h
    cases h
  rw [EndSession_some d0 env id reason hid, Prod.mk.injEq] at h
  have hd := Option.some.inj h.2
  have hcount : d0.sessions.countP (fun r => decide (r.session_id = id)) ≠ 0 := by
    intro e
    rw [if_pos e] at h
    cases h.1
  subst hd
  constructor
  · have hex : ∃ r ∈ d0.sessions, r.session_id = id := by
      by_contra hno
      exact hcount (countP_eq_zero_of_no_match _ _ (fun r hr => by
        have : r.session_id ≠ id := fun e => hno ⟨r, hr, e⟩
        simp [this]))
    exact exists_updated_session d0.sessions id _ (fun r => rfl) hex
  · intro x hx hxid
    obtain ⟨r0, _, _, hr0⟩ := mem_updated_sessions d0.sessions id _ x hx hxid
    rw [hr0]
    simp

set_option maxRecDepth 100000 in
/-- C15 as stated fails on two table states. With the starts of two open
sessions stored as `2024-01-01T00:00:00Z` and `2024-01-01T00:00:00.5Z`,
`ListActiveSessions` returns the earlier one first: the order is that of the
texts, not of the instants. And a session whose `ended_at` holds the empty
text is read by `GetSession` as having no end, yet is not listed. -/
theorem listActiveSessions_order_and_blank_end :
    (ListActiveSessions (some demoDBFrac)).map
        (fun l => l.map (fun s => (s.SessionID, s.StartedAt.unixNano)))
      = Except.ok [(utf8 "s1", 1704067200000000000), (utf8 "s4", 1704067200500000000)] ∧
    (GetSession (some demoDBBlankEnd) (utf8 "s5")).map (fun s => s.EndedAt) = Except.ok none ∧
    ListActiveSessions (some demoDBBlankEnd) = Except.ok [] :=
  ⟨rfl, rfl, rfl⟩

/-- C15, amended: when `ListActiveSessions` succeeds, the sessions it returns
are the decodings, one for one and in this order, of the rows whose `ended_at`
is NULL, each such row once, arranged by the stored `started_at` text
descending; every returned session has no end; when the `started_at` texts
are those `formatTime` writes for the years 0000 to 9999 the returned starts
are in descending order; and once `EndSession` has succeeded on an identifier,
no returned session has it, whatever writing operations were called since. -/
theorem listActiveSessions_spec (d : Database) (ss : List Session)
    (h : ListActiveSessions (some d) = Except.ok ss) :
    (∃ rows, rows.Perm (d.sessions.filter (fun r => decide (r.ended_at = none))) ∧
      List.Forall₂ (fun r s => scanSession "scan session" r = Except.ok s ∧
        s.SessionID = r.session_id) rows ss ∧
      rows.Sorted (fun a b => strLE b.started_at a.started_at = true)) ∧
    (∀ s ∈ ss, s.EndedAt = none) ∧
    ((∀ r ∈ d.sessions, ∃ t : Time, t.inYears = true ∧ r.started_at = formatTime t) →
      ss.Sorted (fun a b => b.StartedAt.le a.StartedAt)) ∧
    (∀ d0 d1 env id reason cs, EndSession (some d0) env id reason = (Except.ok (), some d1) →
      runCalls cs (some d1) = some d → ∀ s ∈ ss, s.SessionID ≠ id) := by
  unfold ListActiveSessions at h
  simp only at h
  have hF := scanSessions_ok _ _ h
  have hperm := sessionsDesc_perm (d.sessions.filter (fun r => r.ended_at.isNone))
  have hsorted := sessionsDesc_sorted (d.sessions.filter (fun r => r.ended_at.isNone))
  have hfilter : d.sessions.filter (fun r => r.ended_at.isNone)
      = d.sessions.filter (fun r => decide (r.ended_at = none)) := by
    congr 1
    funext r
    cases r.ended_at <;> rfl
  have hmem : ∀ r ∈ sessionsDesc (d.sessions.filter (fun r => r.ended_at.isNone)),
      r ∈ d.sessions ∧ r.ended_at = none := by
    intro r hr
    have hr1 := List.mem_filter.1 (hperm.mem_iff.1 hr)
    exact ⟨hr1.1, by simpa using hr1.2⟩
  have hrow : ∀ s ∈ ss, ∃ r ∈ d.sessions, r.ended_at = none ∧
      scanSession "scan session" r = Except.ok s := by
    intro s hs
    obtain ⟨r, hr, hrs⟩ := forall2_mem_right _ _ _ hF s hs
    exact ⟨r, (hmem r hr).1, (hmem r hr).2, hrs⟩
  refine ⟨⟨_, hfilter ▸ hperm, ?_, hsorted⟩, ?_, ?_, ?_⟩
  · exact hF.imp (fun r s hrs => ⟨hrs, scanSession_id _ r s hrs⟩)
  · intro s hs
    obtain ⟨r, _, hnone, hrs⟩ := hrow s hs
    obtain ⟨_, _, _, _, _, _, hend, _⟩ := scanSession_ok _ r s hrs
    rw [hnone] at hend
    have e : parseNullableTime none = some none := rfl
    rw [e] at hend
    injection hend with hend
    exact hend.symm
  · intro hcanon
    exact forall2_pairwise _ _ _ _ _ hF
      (fun a ha b hb x y hax hby hle =>
        startedAt_le_of_text a b x y _ (hcanon a (hmem a ha).1) (hcanon b (hmem b hb).1) hax hby hle)
      hsorted
  · intro d0 d1 env id reason cs hend hrun s hs hsid
    obtain ⟨r, hr, hnone, hrs⟩ := hrow s hs
    have hrid : r.session_id = id := by
      rw [← scanSession_id _ r s hrs, hsid]
    obtain ⟨hex, hall⟩ := endSession_ok_ended d0 d1 env id reason hend
    exact runCalls_keeps_ended cs d1 d id hex hall hrun r hr hrid hnone

set_option maxRecDepth 100000 in
/-- C15, amended, on the example tables with one ended and one open session:
only the open session `s3` is returned. -/
theorem listActiveSessions_spec_witness :
    ∃ ss, ListActiveSessions (some demoDB3) = Except.ok ss ∧
      ss.map (fun s => s.SessionID) = [utf8 "s3"] ∧ ∀ s ∈ ss, s.EndedAt = none := by
  have h : ∃ ss, ListActiveSessions (some demoDB3) = Except.ok ss ∧
      ss.map (fun s => s.SessionID) = [utf8 "s3"] := ⟨_, rfl, rfl⟩
  obtain ⟨ss, hs, hids⟩ := h
  exact ⟨ss, hs, hids, (listActiveSessions_spec demoDB3 ss hs).2.1⟩


theorem scanSession_agent (what : String) (r : SessionRow) (s : Session)
    (h : scanSession what r = Except.ok s) : s.AgentName = r.agent_name := by
  unfold scanSession at h
  split at h
  · split at h
    · cases h
    · split at h
      · cases h
      · split at h
        · cases h
        · injection h with h
          subst h
          rfl
  · cases h

theorem scanSessions_error_of_head (r : SessionRow) (t : List SessionRow)
    (h : ∃ e, scanSession "scan session" r = Except.error e) :
    ∃ e, scanSessions (r :: t) = Except.error e := by
  obtain ⟨e, he⟩ := h
  unfold scanSessions
  rw [List.mapM_cons, he]
  exact ⟨e, rfl⟩

theorem filter_agent_append_fresh (rows : List SessionRow) (r : SessionRow) (agent : GoString)
    (hr : r.agent_name = agent) (hnone : ∀ x ∈ rows, x.agent_name ≠ agent) :
    (rows ++ [r]).filter (fun x => decide (x.agent_name = agent)) = [r] := by
  rw [List.filter_append, filter_eq_nil_of_none rows _ (fun x hx => by simp [hnone x hx]),
    List.filter_cons, if_pos (by simp [hr]), List.filter_nil, List.nil_append]

/-- C14, what the code does. A limit that is not positive is replaced by 10.
Right after `StartSession` has created the first session of an agent,
`ListSessionsByAgent` fails for that agent: the row carries in `created_at`
the schema default, which the row loop cannot parse. When the call succeeds
with a positive limit, the sessions returned are the decodings, one for one,
of the first rows, at most `limit` of them, of the rows of the agent arranged
by the stored `started_at` text descending; they all carry the agent name;
and when the `started_at` texts are those `formatTime` writes for the years
0000 to 9999 the returned starts are in descending order. -/
theorem listSessionsByAgent_behaviour (d : Database) (agent : GoString) (limit : Int) :
    (limit ≤ 0 → ListSessionsByAgent (some d) agent limit
      = ListSessionsByAgent (some d) agent 10) ∧
    (∀ env ws tier id h2, (∀ r ∈ d.sessions, r.agent_name ≠ agent) →
      StartSession (some d) env agent ws tier = (Except.ok id, h2) →
      ∃ e, ListSessionsByAgent h2 agent limit = Except.error e) ∧
    (∀ ss, 0 < limit → ListSessionsByAgent (some d) agent limit = Except.ok ss →
      (∃ kept rest,
        (kept ++ rest).Perm (d.sessions.filter (fun r => decide (r.agent_name = agent))) ∧
        (kept ++ rest).Sorted (fun a b => strLE b.started_at a.started_at = true) ∧
        (rest ≠ [] → (kept.length : Int) = limit) ∧
        List.Forall₂ (fun r s => scanSession "scan session" r = Except.ok s ∧
          s.SessionID = r.session_id) kept ss) ∧
      (ss.length : Int) ≤ limit ∧
      (∀ s ∈ ss, s.AgentName = agent) ∧
      ((∀ r ∈ d.sessions, ∃ t : Time, t.inYears = true ∧ r.started_at = formatTime t) →
        ss.Sorted (fun a b => b.StartedAt.le a.StartedAt))) := by
  refine ⟨?_, ?_, ?_⟩
  · intro hle
    unfold ListSessionsByAgent
    simp only [hle, if_true, show ¬ ((10 : Int) ≤ 0) by decide, if_false]
  · intro env ws tier id h2 hnone h
    unfold StartSession at h
    simp only at h
    split_ifs at h with ha hw
    · cases h
    · cases h
    split at h
    · cases h
    · rename_i d1 hins
      unfold insertSession at hins
      simp only at hins
      split_ifs at hins with hdup
      injection hins with hins
      injection h with hid hh
      subst hh hins
      unfold ListSessionsByAgent
      simp only [ha, if_false]
      rw [filter_agent_append_fresh d.sessions _ agent rfl hnone]
      have hsort : ∀ r : SessionRow, sessionsDesc [r] = [r] := fun r => rfl
      rw [hsort]
      obtain ⟨k, hk⟩ : ∃ k, (if limit ≤ 0 then (10 : Int) else limit).toNat = k + 1 := by
        split_ifs with hl
        · exact ⟨9, rfl⟩
        · exact ⟨limit.toNat - 1, by omega⟩
      rw [hk, List.take_succ_cons]
      exact scanSessions_error_of_head _ _ (scanSession_created_sqlite _ _ env.sqlNow rfl)
  · intro ss hpos h
    unfold ListSessionsByAgent at h
    simp only at h
    split_ifs at h with ha hl
    · omega
    generalize hrows : d.sessions.filter (fun r => decide (r.agent_name = agent)) = rows at h
    have hF := scanSessions_ok _ _ h
    have hperm := sessionsDesc_perm rows
    have hsorted := sessionsDesc_sorted rows
    have hmem : ∀ r ∈ (sessionsDesc rows).take limit.toNat,
        r ∈ d.sessions ∧ r.agent_name = agent := by
      intro r hr
      have hr1 := hperm.mem_iff.1 (List.mem_of_mem_take hr)
      rw [← hrows] at hr1
      have hr2 := List.mem_filter.1 hr1
      exact ⟨hr2.1, by simpa using hr2.2⟩
    have hlen : ((sessionsDesc rows).take limit.toNat).length ≤ limit.toNat :=
      List.length_take_le _ _
    refine ⟨⟨(sessionsDesc rows).take limit.toNat, (sessionsDesc rows).drop limit.toNat,
      ?_, ?_, ?_, ?_⟩, ?_, ?_, ?_⟩
    · rw [List.take_append_drop]
      exact hperm
    · rw [List.take_append_drop]
      exact hsorted
    · intro hrest
      rw [List.length_take]
      have hlt : limit.toNat < (sessionsDesc rows).length := by
        by_contra hge
        exact hrest (List.drop_eq_nil_of_le (by omega))
      omega
    · exact hF.imp (fun r s hrs => ⟨hrs, scanSession_id _ r s hrs⟩)
    · rw [← hF.length_eq]
      omega
    · intro s hs
      obtain ⟨r, hr, hrs⟩ := forall2_mem_right _ _ _ hF s hs
      rw [scanSession_agent _ r s hrs]
      exact (hmem r hr).2
    · intro hcanon
      exact forall2_pairwise _ _ _ _ _ hF
        (fun a ha b hb x y hax hby hle =>
          startedAt_le_of_text a b x y _ (hcanon a (hmem a ha).1) (hcanon b (hmem b hb).1)
            hax hby hle)
        (hsorted.sublist (List.take_sublist _ _))

set_option maxRecDepth 100000 in
/-- C14 on the empty tables: after `StartSession` for `agentX`, listing the
sessions of `agentX` fails at `created_at`. -/
theorem listSessionsByAgent_behaviour_witness :
    (StartSession (some emptyDB) demoEnv (utf8 "agentX") (utf8 "/ws") (utf8 "sonnet")).1
      = Except.ok (utf8 "s2") ∧
    ListSessionsByAgent (StartSession (some emptyDB) demoEnv (utf8 "agentX") (utf8 "/ws")
      (utf8 "sonnet")).2 (utf8 "agentX") 5 = Except.error (Err.failed "parse created_at") ∧
    ∃ e, ListSessionsByAgent (StartSession (some emptyDB) demoEnv (utf8 "agentX") (utf8 "/ws")
      (utf8 "sonnet")).2 (utf8 "agentX") 5 = Except.error e :=
  ⟨rfl, rfl, (listSessionsByAgent_behaviour emptyDB (utf8 "agentX") 5).2.1 demoEnv (utf8 "/ws")
    (utf8 "sonnet") (utf8 "s2") _ (fun r hr => by cases hr) rfl⟩

end AgentTracking
